import Mathlib

/-!
# userprog/process.c of Pintos: a shallow embedding

The development follows `src/pintos/src/userprog/process.c`.

* Machine words are natural numbers; pointer and `uint32_t` arithmetic wraps
  modulo `2^32` through `sub32` and `add32`.
* User virtual memory is a byte map `Mem`; a C string is the list of its
  non-zero bytes (the terminating zero byte is implicit in kernel buffers and
  explicit once the string is stored in `Mem`).
* Headers that process.c includes but that are not part of the sources
  (threads/vaddr.h, lib/string.c, threads/palloc.c, userprog/pagedir.c,
  threads/synch.c, threads/thread.h) are modelled by the small definitions
  marked as such below. `PHYS_BASE` is a build-time constant of the loader and
  is a parameter `phys_base` throughout.
-/

namespace Process

/-! ## Machine arithmetic and memory -/

/-- Number of values of a 32-bit word. -/
def W32 : Nat := 4294967296

/-- Modelled from the spec: threads/vaddr.h is not part of the sources. A page
is 4096 bytes, so the offset within a page is the low 12 bits of an address. -/
def PGSIZE : Nat := 4096

/-- Modelled from the spec: threads/vaddr.h is not part of the sources. Mask of
the offset bits of an address (the low 12 bits). -/
def PGMASK : Nat := 4095

/-- Subtraction of 32-bit words and of pointers: wraps modulo `2^32`. -/
def sub32 (a b : Nat) : Nat := (a + (W32 - b % W32)) % W32

/-- Addition of 32-bit words and of pointers: wraps modulo `2^32`. -/
def add32 (a b : Nat) : Nat := (a + b) % W32

/-- Byte-addressed user virtual memory. -/
abbrev Mem := Nat → Nat

/-- Store of one byte (`uint8_t`). -/
def store8 (m : Mem) (a b : Nat) : Mem := fun x => if x = a then b % 256 else m x

/-- Store of a `uint32_t` through a word pointer (x86: little endian). -/
def store32 (m : Mem) (a w : Nat) : Mem :=
  store8 (store8 (store8 (store8 m a w) (add32 a 1) (w / 256)) (add32 a 2) (w / 65536))
    (add32 a 3) (w / 16777216)

/-- Load of a `uint32_t` through a word pointer (x86: little endian). -/
def load32 (m : Mem) (a : Nat) : Nat :=
  m a + 256 * m (add32 a 1) + 65536 * m (add32 a 2) + 16777216 * m (add32 a 3)

/-- The `n` bytes of memory that start at address `a`. -/
def read_bytes (m : Mem) (a : Nat) : Nat → List Nat
  | 0 => []
  | n + 1 => m a :: read_bytes m (a + 1) n

/-! ## lib/string.c -/

/-- Modelled from the spec: lib/string.c is not part of the sources. `memcpy`
stores the bytes of `src` at ascending addresses from `dst`. -/
def memcpy (m : Mem) (dst : Nat) : List Nat → Mem
  | [] => m
  | b :: bs => memcpy (store8 m dst b) (add32 dst 1) bs

/-- Modelled from the spec: lib/string.c is not part of the sources. `strlcpy`
copies at most `size - 1` bytes of the string `src` to `dst` and terminates the
copy with a zero byte; with `size = 0` it stores nothing. -/
def strlcpy (m : Mem) (dst : Nat) (src : List Nat) (size : Nat) : Mem :=
  if 0 < size then
    let dst_len := if src.length < size - 1 then src.length else size - 1
    store8 (memcpy m dst (src.take dst_len)) (add32 dst dst_len) 0
  else m

/-- Modelled from the spec: lib/string.c is not part of the sources. One call
of `strtok_r` on the string that starts at the scan position: skip leading
delimiters; if the string ends there the result is NULL (`none`); otherwise the
token runs up to the next delimiter, which is overwritten by a zero byte, and
the saved position is the byte after it (or the end of the string). -/
def strtok_r (s : List Nat) (delimiters : List Nat) : Option (List Nat × List Nat) :=
  match s.dropWhile (fun c => decide (c ∈ delimiters)) with
  | [] => none
  | c :: s1 =>
    some ((c :: s1).takeWhile (fun c => !decide (c ∈ delimiters)),
          ((c :: s1).dropWhile (fun c => !decide (c ∈ delimiters))).drop 1)

/-! ## The address space of the loading process -/

/-- The part of the current thread's address space that process.c acts on. -/
structure AddrSpace where
  /-- user pages installed in the page directory, oldest first, with their writable flag -/
  mapped : List (Nat × Bool)
  /-- contents of user virtual memory -/
  mem : Mem
  /-- frames that the user pool can still hand out -/
  user_frames : Nat
  /-- whether pagedir_set_page can obtain memory for a page table -/
  pt_ok : Bool

/-- Modelled from the spec: threads/palloc.c is not part of the sources.
`palloc_get_page (PAL_USER ...)` takes one frame from the user pool, or returns
NULL (`none`) when the pool is empty. -/
def palloc_get_page (as : AddrSpace) : Option AddrSpace :=
  if as.user_frames = 0 then none else some { as with user_frames := as.user_frames - 1 }

/-- Modelled from the spec: threads/palloc.c is not part of the sources.
`palloc_free_page` gives a frame back to the user pool. -/
def palloc_free_page (as : AddrSpace) : AddrSpace :=
  { as with user_frames := as.user_frames + 1 }

/-- Modelled from the spec: userprog/pagedir.c is not part of the sources.
`pagedir_get_page` is non-NULL exactly for an installed user page. -/
def pagedir_get_page (as : AddrSpace) (upage : Nat) : Bool :=
  as.mapped.any (fun e => decide (e.1 = upage))

/-- Modelled from the spec: userprog/pagedir.c is not part of the sources.
`pagedir_set_page` maps `upage` to the frame whose contents are `kpage`; it
fails when no memory for a page table can be obtained. -/
def pagedir_set_page (as : AddrSpace) (upage : Nat) (kpage : Nat → Nat) (writable : Bool) :
    Option AddrSpace :=
  if as.pt_ok then
    some { as with
      mapped := as.mapped ++ [(upage, writable)],
      mem := fun a => if upage ≤ a ∧ a < upage + PGSIZE then kpage (a - upage) else as.mem a }
  else none

/-- The function `install_page`: fails (`none`) when `upage` is already mapped or
when `pagedir_set_page` fails. -/
def install_page (as : AddrSpace) (upage : Nat) (kpage : Nat → Nat) (writable : Bool) :
    Option AddrSpace :=
  if pagedir_get_page as upage then none else pagedir_set_page as upage kpage writable

/-! ## setup_stack -/

/-- Local variables of `setup_stack` that its token loop updates. -/
structure Builder where
  /-- user memory -/
  mem : Mem
  /-- the variable byte_page_ptr -/
  byte_page_ptr : Nat
  /-- the entries arg_addrs[0 .. token_count) -/
  arg_addrs : List Nat

/-- The first loop of `setup_stack` (lines 585-590): counts the tokens of the
command line. `token` is the result of the previous `strtok_r` call. -/
def count_loop : Nat → Option (List Nat × List Nat) → Nat → Nat
  | 0, _, token_count => token_count
  | _ + 1, none, token_count => token_count
  | fuel + 1, some (_, save_ptr), token_count =>
    count_loop fuel (strtok_r save_ptr [32]) (token_count + 1)

/-- One iteration of the body of the copy loop of `setup_stack` (lines 605-611). -/
def copy_token (b : Builder) (token : List Nat) : Builder :=
  let token_len := token.length
  let byte_page_ptr := sub32 b.byte_page_ptr (token_len + 1)
  { mem := strlcpy b.mem byte_page_ptr token (token_len + 1),
    byte_page_ptr := byte_page_ptr,
    arg_addrs := b.arg_addrs ++ [byte_page_ptr] }

/-- The copy loop of `setup_stack` (lines 603-613). `token` is the result of the
previous `strtok_r` call; every iteration consumes at least one byte of the
command line, so `fuel` larger than its length is never exhausted. -/
def copy_loop : Nat → Option (List Nat × List Nat) → Builder → Builder
  | 0, _, b => b
  | _ + 1, none, b => b
  | fuel + 1, some (token, save_ptr), b =>
    copy_loop fuel (strtok_r save_ptr [32]) (copy_token b token)

/-- The loop that stores argv[i] (lines 625-629): iteration `i` moves the word
pointer down and stores arg_addrs[token_count - i - 1]. -/
def push_args (arg_addrs : List Nat) (token_count : Nat) (is : List Nat) (wp : Nat) (m : Mem) :
    Nat × Mem :=
  is.foldl (fun s i => (sub32 s.1 4, store32 s.2 (sub32 s.1 4) (arg_addrs.getD (token_count - i - 1) 0)))
    (wp, m)

/-- Lines 566-574 of `setup_stack`: obtain a zeroed user frame and install it as
the page below PHYS_BASE. The result is the flag `success`, the value of `*esp`
and the address space. -/
def map_stack_page (phys_base esp : Nat) (as : AddrSpace) : Bool × Nat × AddrSpace :=
  match palloc_get_page as with
  | none => (false, esp, as)
  | some as0 =>
    match install_page as0 (sub32 phys_base PGSIZE) (fun _ => 0) true with
    | some as1 => (true, phys_base, as1)
    | none => (false, esp, palloc_free_page as0)

/-- Lines 576-643 of `setup_stack`: build the initial frame below `esp`, the
value of `*esp` at line 579. The result is the final word_page_ptr and the
memory. The array arg_addrs has as many entries as the first loop counts. -/
def push_frame (esp : Nat) (exec_cmd : List Nat) (mem : Mem) : Nat × Mem :=
  let b := copy_loop (exec_cmd.length + 1) (strtok_r exec_cmd [32])
    { mem := mem, byte_page_ptr := esp, arg_addrs := [] }
  let token_count := b.arg_addrs.length
  let byte_page_ptr := sub32 b.byte_page_ptr (b.byte_page_ptr % 4)
  let wp0 := sub32 byte_page_ptr 4
  let m0 := store32 b.mem wp0 0
  let s := push_args b.arg_addrs token_count (List.range token_count) wp0 m0
  let wp1 := sub32 s.1 4
  let m1 := store32 s.2 wp1 (add32 wp1 4)
  let wp2 := sub32 wp1 4
  let m2 := store32 m1 wp2 token_count
  let wp3 := sub32 wp2 4
  let m3 := store32 m2 wp3 0
  (wp3, m3)

/-- The function `setup_stack`. `esp` is the value of `*esp` on entry; the result
is the returned flag, the value of `*esp` on return and the address space. -/
def setup_stack (phys_base esp : Nat) (exec_cmd : List Nat) (as : AddrSpace) :
    Bool × Nat × AddrSpace :=
  let r := map_stack_page phys_base esp as
  let f := push_frame r.2.1 exec_cmd r.2.2.mem
  (r.1, f.1, { r.2.2 with mem := f.2 })

/-- The number of tokens that the first loop of `setup_stack` counts (lines
582-591) in its copy of the command line. -/
def count_tokens (exec_cmd : List Nat) : Nat :=
  let exec_cmd_tokens := exec_cmd.take (PGSIZE - 1)
  count_loop (exec_cmd_tokens.length + 1) (strtok_r exec_cmd_tokens [32]) 0

/-- A token of a command line: a non-empty string without a space. -/
def is_token (t : List Nat) : Prop := t ≠ [] ∧ ∀ c ∈ t, c ≠ 0 ∧ c ≠ 32 ∧ c < 256

instance (t : List Nat) : Decidable (is_token t) := by
  unfold is_token
  infer_instance

/-- The command line made of the given tokens separated by single spaces. -/
def join_tokens : List (List Nat) → List Nat
  | [] => []
  | [t] => t
  | t :: t2 :: ts => t ++ 32 :: join_tokens (t2 :: ts)

/-- The tokens of a command line read left to right: `cur` is the run of
non-space bytes read so far. -/
def split_spaces_aux : List Nat → List Nat → List (List Nat)
  | [], cur => if cur = [] then [] else [cur]
  | c :: s, cur =>
    if c = 32 then (if cur = [] then split_spaces_aux s [] else cur :: split_spaces_aux s [])
    else split_spaces_aux s (cur ++ [c])

/-- The tokens of a command line: its maximal runs of bytes other than the space
(byte 32), from left to right. -/
def split_spaces (s : List Nat) : List (List Nat) := split_spaces_aux s []

/-- Total size of the argument strings: each token with its terminating zero byte. -/
def strings_size : List (List Nat) → Nat
  | [] => 0
  | t :: ts => (t.length + 1) + strings_size ts

/-- Addresses at which the tokens are stored when copying starts below `p`. -/
def token_addrs (p : Nat) : List (List Nat) → List Nat
  | [] => []
  | t :: ts => (p - (t.length + 1)) :: token_addrs (p - (t.length + 1)) ts

/-- Round up to a multiple of 4. -/
def roundup4 (n : Nat) : Nat := (n + 3) / 4 * 4

/-- The bytes of a string literal. -/
def bytes (s : String) : List Nat := s.toList.map Char.toNat

/-- An address space with nothing mapped, zeroed memory and `n` free frames. -/
def fresh_space (n : Nat) : AddrSpace :=
  { mapped := [], mem := fun _ => 0, user_frames := n, pt_ok := true }

/-! ## Wait statuses: process_wait and process_exit -/

/-- The record `struct wait_status` shared by a process and its parent. Its
declaration (threads/thread.h) is not part of the sources; the fields are the
ones process.c reads and writes. The lock only serialises the decrement of
ref_count and carries no state of its own between two critical sections. -/
structure wait_status where
  /-- process id of the child -/
  pid : Int
  /-- exit code of the child -/
  exit_code : Int
  /-- whether an exit code has been recorded -/
  valid : Bool
  /-- whether the parent has already waited for the child -/
  parent_waited : Bool
  /-- number of parties that still use the record -/
  ref_count : Int
  /-- value of the semaphore `sema` -/
  sema : Nat

/-- The fields of `struct thread` that process_wait and process_exit use. -/
structure thread where
  /-- the list `children`: addresses of the wait statuses of the children -/
  children : List Nat
  /-- address of the thread's own wait status -/
  own_wait_status : Nat
  /-- current working directory, if any -/
  working_dir : Option Nat
  /-- page directory, if any -/
  pagedir : Option Nat

/-- Kernel state that process_wait and process_exit act on. -/
structure Kernel where
  /-- threads by thread id -/
  threads : Nat → thread
  /-- wait statuses by address -/
  heap : Nat → wait_status
  /-- addresses handed to `free`, in order -/
  freed : List Nat
  /-- the local array dead_children[0 .. free_count) of each thread's process_exit -/
  dead_children : Nat → List Nat
  /-- directories handed to `dir_close`, in order -/
  closed_dirs : List Nat
  /-- page directories handed to `pagedir_destroy`, in order -/
  destroyed : List Nat

/-- Update of the wait status at address `w`. -/
def Kernel.modify (k : Kernel) (w : Nat) (f : wait_status → wait_status) : Kernel :=
  { k with heap := fun x => if x = w then f (k.heap x) else k.heap x }

/-- The search loop of `process_wait` (lines 142-152): the first entry of the
children list whose pid is `child_tid`. -/
def find_child (k : Kernel) (child_tid : Int) : List Nat → Option Nat
  | [] => none
  | e :: es => if (k.heap e).pid = child_tid then some e else find_child k child_tid es

/-- Outcome of running `process_wait` as far as it can go. -/
inductive WaitResult where
  /-- the call returned `value` -/
  | returned (value : Int) (k : Kernel)
  /-- the caller sleeps in `sema_down` on the semaphore of `found_child` -/
  | blocked (found_child : Nat) (k : Kernel)

/-- Lines 158-159 of `process_wait`: `sema_down` (which sleeps while the value
of the semaphore is 0 and then decrements it) followed by the return of
exit_code. A woken caller continues here. -/
def process_wait_resume (found_child : Nat) (k : Kernel) : WaitResult :=
  if (k.heap found_child).sema = 0 then WaitResult.blocked found_child k
  else
    let k1 := k.modify found_child (fun s => { s with sema := s.sema - 1 })
    WaitResult.returned (k1.heap found_child).exit_code k1

/-- The function `process_wait`, called by thread `cur`. -/
def process_wait (cur : Nat) (child_tid : Int) (k : Kernel) : WaitResult :=
  match find_child k child_tid (k.threads cur).children with
  | none => WaitResult.returned (-1) k
  | some found_child =>
    if (k.heap found_child).parent_waited then WaitResult.returned (-1) k
    else
      process_wait_resume found_child
        (k.modify found_child (fun s => { s with parent_waited := true }))

/-- The steps of `process_exit`. A decrement of ref_count is one step because it
runs with the lock of the status held. -/
inductive ExitAction where
  /-- lines 169-173: record exit code -1 when none was recorded -/
  | publish
  /-- lines 175-177: decrement ref_count of the own status under its lock -/
  | dec_own
  /-- line 178: sema_up on the own status -/
  | sema_up_own
  /-- lines 180-181: free the own status if its ref_count reads 0 -/
  | check_own
  /-- lines 184-185: close the working directory -/
  | close_dir
  /-- lines 191-192: the array dead_children is empty, free_count = 0 -/
  | init_dead
  /-- lines 198-200: decrement ref_count of a child's status under its lock -/
  | dec_child (child : Nat)
  /-- lines 203-207: remember the child's status if its ref_count reads 0 -/
  | check_child (child : Nat)
  /-- lines 212-213: free the remembered statuses -/
  | free_dead
  /-- lines 217-231: destroy the page directory -/
  | teardown
  deriving DecidableEq

/-- Effect of one step of `process_exit` run by thread `cur`. -/
def exit_step (cur : Nat) (k : Kernel) : ExitAction → Kernel
  | .publish =>
    let w := (k.threads cur).own_wait_status
    if (k.heap w).valid then k
    else k.modify w (fun s => { s with exit_code := -1, valid := true })
  | .dec_own =>
    k.modify (k.threads cur).own_wait_status (fun s => { s with ref_count := s.ref_count - 1 })
  | .sema_up_own =>
    k.modify (k.threads cur).own_wait_status (fun s => { s with sema := s.sema + 1 })
  | .check_own =>
    let w := (k.threads cur).own_wait_status
    if (k.heap w).ref_count = 0 then { k with freed := k.freed ++ [w] } else k
  | .close_dir =>
    match (k.threads cur).working_dir with
    | some d => { k with closed_dirs := k.closed_dirs ++ [d] }
    | none => k
  | .init_dead =>
    { k with dead_children := fun t => if t = cur then [] else k.dead_children t }
  | .dec_child child =>
    k.modify child (fun s => { s with ref_count := s.ref_count - 1 })
  | .check_child child =>
    if (k.heap child).ref_count = 0 then
      { k with dead_children :=
          fun t => if t = cur then k.dead_children cur ++ [child] else k.dead_children t }
    else k
  | .free_dead => { k with freed := k.freed ++ k.dead_children cur }
  | .teardown =>
    match (k.threads cur).pagedir with
    | some pd =>
      { k with
        threads := fun t => if t = cur then { k.threads cur with pagedir := none } else k.threads t,
        destroyed := k.destroyed ++ [pd] }
    | none => k

/-- The steps of the loop over the children list (lines 194-208). -/
def exit_children : List Nat → List ExitAction
  | [] => []
  | c :: cs => ExitAction.dec_child c :: ExitAction.check_child c :: exit_children cs

/-- The steps of `process_exit` for a thread with the given children list, in
program order. -/
def exit_program (children : List Nat) : List ExitAction :=
  [ExitAction.publish, ExitAction.dec_own, ExitAction.sema_up_own, ExitAction.check_own,
    ExitAction.close_dir, ExitAction.init_dead] ++ exit_children children ++
  [ExitAction.free_dead, ExitAction.teardown]

/-- Run steps of `process_exit` of thread `cur` one after the other. -/
def run_exit (cur : Nat) (k : Kernel) (as : List ExitAction) : Kernel :=
  as.foldl (exit_step cur) k

/-- The function `process_exit`, run by thread `cur` without interruption. -/
def process_exit (cur : Nat) (k : Kernel) : Kernel :=
  run_exit cur k (exit_program (k.threads cur).children)

/-- Whether `zs` interleaves the step sequences `xs` and `ys`, each kept in its
own order. -/
def is_interleaving {α : Type} [DecidableEq α] : List α → List α → List α → Bool
  | xs, ys, z :: zs =>
    (match xs with
      | x :: xs1 => decide (x = z) && is_interleaving xs1 ys zs
      | [] => false) ||
    (match ys with
      | y :: ys1 => decide (y = z) && is_interleaving xs ys1 zs
      | [] => false)
  | [], [], [] => true
  | _ :: _, _, [] => false
  | [], _ :: _, [] => false

/-- Run a schedule: a sequence of steps, each tagged with the thread that runs it. -/
def run_schedule (k : Kernel) (sched : List (Nat × ExitAction)) : Kernel :=
  sched.foldl (fun k s => exit_step s.1 k s.2) k

/-- The steps of `process_exit` of thread `cur` in state `k`, tagged with `cur`. -/
def exit_steps_of (cur : Nat) (k : Kernel) : List (Nat × ExitAction) :=
  (exit_program (k.threads cur).children).map (fun a => (cur, a))

/-- The kernel state in which a run of `process_wait` stops. -/
def WaitResult.state : WaitResult → Kernel
  | WaitResult.returned _ k => k
  | WaitResult.blocked _ k => k

/-- What can happen between two calls of `process_wait` by the same parent. -/
inductive Event where
  /-- thread `t` runs process_exit -/
  | exit (t : Nat)
  /-- the parent calls process_wait, which returns or puts it to sleep -/
  | wait (child_tid : Int)
  /-- the sleeping parent is woken and goes on in process_wait -/
  | wake (found_child : Nat)

/-- Effect of one event; `p` is the parent. -/
def run_event (p : Nat) (k : Kernel) : Event → Kernel
  | Event.exit t => process_exit t k
  | Event.wait child_tid => (process_wait p child_tid k).state
  | Event.wake found_child => (process_wait_resume found_child k).state

/-- Effect of a sequence of events. -/
def run_events (p : Nat) (k : Kernel) (evs : List Event) : Kernel :=
  evs.foldl (run_event p) k

/-- What every step of process_wait and process_exit keeps: the children
lists, the pid of every wait status, and a parent_waited flag that is set. -/
def keeps (k k1 : Kernel) : Prop :=
  (∀ t, (k1.threads t).children = (k.threads t).children) ∧
  (∀ x, (k1.heap x).pid = (k.heap x).pid) ∧
  (∀ x, (k.heap x).parent_waited = true → (k1.heap x).parent_waited = true)

/-- A parent (thread 1) and its child (any other thread id, 2 say): the wait
status of the child is at address 100 with ref_count 2 and a fresh semaphore,
the parent's own wait status is at address 200. -/
def two_procs (valid : Bool) (exit_code : Int) : Kernel :=
  { threads := fun t =>
      if t = 1 then
        { children := [100], own_wait_status := 200, working_dir := none, pagedir := some 1 }
      else { children := [], own_wait_status := 100, working_dir := none, pagedir := some 2 },
    heap := fun x =>
      if x = 100 then
        { pid := 2, exit_code := exit_code, valid := valid, parent_waited := false,
          ref_count := 2, sema := 0 }
      else
        { pid := 1, exit_code := 0, valid := false, parent_waited := false,
          ref_count := 2, sema := 0 },
    freed := [], dead_children := fun _ => [], closed_dirs := [], destroyed := [] }

/-- A parent (thread 1) with two children: thread 3, whose wait status is at
address 300 and comes first in the children list, and thread 2, whose wait
status is at address 100 and has recorded `exit_code`; both have ref_count 2
and a fresh semaphore. The parent's own wait status is at address 200. -/
def three_procs (exit_code : Int) : Kernel :=
  { threads := fun t =>
      if t = 1 then
        { children := [300, 100], own_wait_status := 200, working_dir := none, pagedir := some 1 }
      else if t = 3 then
        { children := [], own_wait_status := 300, working_dir := none, pagedir := some 3 }
      else { children := [], own_wait_status := 100, working_dir := none, pagedir := some 2 },
    heap := fun x =>
      if x = 100 then
        { pid := 2, exit_code := exit_code, valid := true, parent_waited := false,
          ref_count := 2, sema := 0 }
      else if x = 300 then
        { pid := 3, exit_code := 0, valid := false, parent_waited := false,
          ref_count := 2, sema := 0 }
      else
        { pid := 1, exit_code := 0, valid := false, parent_waited := false,
          ref_count := 2, sema := 0 },
    freed := [], dead_children := fun _ => [], closed_dirs := [], destroyed := [] }

/-- A schedule of the two exits of `two_procs` running at the same time: the
child (thread 2) decrements ref_count of the status at 100 to 1 and is
preempted; the parent (thread 1) runs up to its decrement of the same status,
which brings it to 0; the child then reads ref_count and frees the status; the
parent reads ref_count, remembers the status and frees it once more. -/
def race_schedule : List (Nat × ExitAction) :=
  [(2, ExitAction.publish), (2, ExitAction.dec_own),
   (1, ExitAction.publish), (1, ExitAction.dec_own), (1, ExitAction.sema_up_own),
   (1, ExitAction.check_own), (1, ExitAction.close_dir), (1, ExitAction.init_dead),
   (1, ExitAction.dec_child 100),
   (2, ExitAction.sema_up_own), (2, ExitAction.check_own),
   (1, ExitAction.check_child 100), (1, ExitAction.free_dead),
   (2, ExitAction.close_dir), (2, ExitAction.init_dead), (2, ExitAction.free_dead),
   (2, ExitAction.teardown), (1, ExitAction.teardown)]

/-! ## The ELF loader -/

/-- Program header `struct Elf32_Phdr`; every field is a 32-bit word. -/
structure Elf32_Phdr where
  p_type : Nat
  p_offset : Nat
  p_vaddr : Nat
  p_paddr : Nat
  p_filesz : Nat
  p_memsz : Nat
  p_flags : Nat
  p_align : Nat

/-- Every field of the program header is a 32-bit word. -/
def Elf32_Phdr.wf (p : Elf32_Phdr) : Prop :=
  p.p_type < W32 ∧ p.p_offset < W32 ∧ p.p_vaddr < W32 ∧ p.p_paddr < W32 ∧
  p.p_filesz < W32 ∧ p.p_memsz < W32 ∧ p.p_flags < W32 ∧ p.p_align < W32

instance (p : Elf32_Phdr) : Decidable p.wf := by
  unfold Elf32_Phdr.wf
  infer_instance

/-- Modelled from the spec: threads/vaddr.h is not part of the sources. An
address is a user address when it lies below PHYS_BASE. -/
def is_user_vaddr (phys_base vaddr : Nat) : Bool := decide (vaddr < phys_base)

/-- The function `validate_segment`; `file_length` is the `off_t` that
file_length (file) returns, and the cast to Elf32_Off reduces it modulo 2^32. -/
def validate_segment (phys_base : Nat) (phdr : Elf32_Phdr) (file_length : Int) : Bool :=
  if (phdr.p_offset &&& PGMASK) ≠ (phdr.p_vaddr &&& PGMASK) then false
  else if phdr.p_offset > (file_length % (W32 : Int)).toNat then false
  else if phdr.p_memsz < phdr.p_filesz then false
  else if phdr.p_memsz = 0 then false
  else if !is_user_vaddr phys_base phdr.p_vaddr then false
  else if !is_user_vaddr phys_base (add32 phdr.p_vaddr phdr.p_memsz) then false
  else if add32 phdr.p_vaddr phdr.p_memsz < phdr.p_vaddr then false
  else if phdr.p_vaddr < PGSIZE then false
  else true

/-- Little-endian value of a list of bytes. -/
def le_bytes : List Nat → Nat
  | [] => 0
  | b :: bs => b + 256 * le_bytes bs

/-- The field of `len` bytes at offset `ofs` of a record read from a file. -/
def field (b : List Nat) (ofs len : Nat) : Nat := le_bytes ((b.drop ofs).take len)

/-- Executable header `struct Elf32_Ehdr` (52 bytes). -/
structure Elf32_Ehdr where
  e_ident : List Nat
  e_type : Nat
  e_machine : Nat
  e_version : Nat
  e_entry : Nat
  e_phoff : Nat
  e_shoff : Nat
  e_flags : Nat
  e_ehsize : Nat
  e_phentsize : Nat
  e_phnum : Nat
  e_shentsize : Nat
  e_shnum : Nat
  e_shstrndx : Nat

/-- The value of `sizeof (struct Elf32_Ehdr)`. -/
def sizeof_Ehdr : Nat := 52

/-- The value of `sizeof (struct Elf32_Phdr)`. -/
def sizeof_Phdr : Nat := 32

/-- The header as `file_read (file, &ehdr, sizeof ehdr)` leaves it in memory. -/
def read_Ehdr (b : List Nat) : Elf32_Ehdr :=
  { e_ident := b.take 16, e_type := field b 16 2, e_machine := field b 18 2,
    e_version := field b 20 4, e_entry := field b 24 4, e_phoff := field b 28 4,
    e_shoff := field b 32 4, e_flags := field b 36 4, e_ehsize := field b 40 2,
    e_phentsize := field b 42 2, e_phnum := field b 44 2, e_shentsize := field b 46 2,
    e_shnum := field b 48 2, e_shstrndx := field b 50 2 }

/-- The program header as `file_read (file, &phdr, sizeof phdr)` leaves it in memory. -/
def read_Phdr (b : List Nat) : Elf32_Phdr :=
  { p_type := field b 0 4, p_offset := field b 4 4, p_vaddr := field b 8 4,
    p_paddr := field b 12 4, p_filesz := field b 16 4, p_memsz := field b 20 4,
    p_flags := field b 24 4, p_align := field b 28 4 }

/-- An open file: the bytes of its inode and the current position. The
filesystem (filesys/file.c) is not part of the sources. -/
structure file where
  /-- contents -/
  data : List Nat
  /-- current position -/
  pos : Nat
  /-- whether writes are denied -/
  deny_write : Bool

/-- Modelled from the spec: filesys/file.c is not part of the sources.
`file_read` returns the bytes from the current position, at most `size` of
them, and advances the position by the number of bytes read. -/
def file_read (f : file) (size : Nat) : List Nat × file :=
  let bs := (f.data.drop f.pos).take size
  (bs, { f with pos := f.pos + bs.length })

/-- Modelled from the spec: filesys/file.c is not part of the sources.
`file_seek` sets the current position. -/
def file_seek (f : file) (pos : Nat) : file := { f with pos := pos }

/-- Modelled from the spec: filesys/file.c is not part of the sources.
`file_length` is the size of the file in bytes, an `off_t`. -/
def file_length (f : file) : Int := (f.data.length : Int)

/-- The constant PT_NULL. -/
def PT_NULL : Nat := 0
/-- The constant PT_LOAD. -/
def PT_LOAD : Nat := 1
/-- The constant PT_DYNAMIC. -/
def PT_DYNAMIC : Nat := 2
/-- The constant PT_INTERP. -/
def PT_INTERP : Nat := 3
/-- The constant PT_NOTE. -/
def PT_NOTE : Nat := 4
/-- The constant PT_SHLIB. -/
def PT_SHLIB : Nat := 5
/-- The constant PT_PHDR. -/
def PT_PHDR : Nat := 6
/-- The constant PT_STACK. -/
def PT_STACK : Nat := 1685382481
/-- The flag PF_W. -/
def PF_W : Nat := 2

/-- The macro ROUND_UP of lib/round.h on 32-bit unsigned operands. -/
def ROUND_UP (x step : Nat) : Nat := (add32 x (step - 1)) / step * step % W32

/-- A call that `load` makes to one of its two page-installing helpers. -/
inductive LoadCall where
  /-- load_segment (file, ofs, upage, read_bytes, zero_bytes, writable) -/
  | load_segment (ofs upage read_bytes zero_bytes : Nat) (writable : Bool)
  /-- setup_stack (esp, file_name2) -/
  | setup_stack (exec_cmd : List Nat)
  deriving DecidableEq

/-- State of `load` while it runs. -/
structure LoadState where
  /-- the executable -/
  file : file
  /-- the address space -/
  as : AddrSpace
  /-- calls of load_segment and setup_stack so far, oldest first -/
  calls : List LoadCall

/-- The loop of `load_segment` (lines 522-554). `none` stands for fuel that ran
out; the result otherwise is the returned flag and the state. -/
def load_segment_loop : Nat → file → AddrSpace → Nat → Nat → Nat → Bool →
    Option (Bool × file × AddrSpace)
  | fuel, f, as, upage, read_bytes, zero_bytes, writable =>
    if read_bytes = 0 ∧ zero_bytes = 0 then some (true, f, as)
    else
      match fuel with
      | 0 => none
      | fuel1 + 1 =>
        let page_read_bytes := if read_bytes < PGSIZE then read_bytes else PGSIZE
        let page_zero_bytes := PGSIZE - page_read_bytes
        match palloc_get_page as with
        | none => some (false, f, as)
        | some as0 =>
          let r := file_read f page_read_bytes
          if r.1.length ≠ page_read_bytes then some (false, r.2, palloc_free_page as0)
          else
            match install_page as0 upage (fun i => r.1.getD i 0) writable with
            | none => some (false, r.2, palloc_free_page as0)
            | some as1 =>
              load_segment_loop fuel1 r.2 as1 (add32 upage PGSIZE)
                (read_bytes - page_read_bytes) (sub32 zero_bytes page_zero_bytes) writable

/-- The function `load_segment`. The result is `none` when one of its three
assertions fails (the kernel panics); otherwise the returned flag and the
state. Every iteration handles one page, so the loop runs at most
`(read_bytes + zero_bytes) / PGSIZE` times once the assertions hold. -/
def load_segment (f : file) (as : AddrSpace) (ofs upage read_bytes zero_bytes : Nat)
    (writable : Bool) : Option (Bool × file × AddrSpace) :=
  if add32 read_bytes zero_bytes % PGSIZE ≠ 0 then none
  else if upage &&& PGMASK ≠ 0 then none
  else if ofs % PGSIZE ≠ 0 then none
  else
    load_segment_loop ((read_bytes + zero_bytes) / PGSIZE + 1) (file_seek f ofs) as upage
      read_bytes zero_bytes writable

/-- The arguments that `load` computes for `load_segment` from a program header
(lines 404-423): file page, memory page, read_bytes, zero_bytes, writable. -/
def segment_args (phdr : Elf32_Phdr) : Nat × Nat × Nat × Nat × Bool :=
  let writable := (phdr.p_flags &&& PF_W) ≠ 0
  let file_page := phdr.p_offset &&& (W32 - 1 - PGMASK)
  let mem_page := phdr.p_vaddr &&& (W32 - 1 - PGMASK)
  let page_offset := phdr.p_vaddr &&& PGMASK
  if 0 < phdr.p_filesz then
    let read_bytes := add32 page_offset phdr.p_filesz
    (file_page, mem_page, read_bytes,
      sub32 (ROUND_UP (add32 page_offset phdr.p_memsz) PGSIZE) read_bytes, decide writable)
  else
    (file_page, mem_page, 0, ROUND_UP (add32 page_offset phdr.p_memsz) PGSIZE, decide writable)

/-- The conversion of a 32-bit word to the signed type `off_t`. -/
def to_off_t (x : Nat) : Int := if x % W32 < 2147483648 then (x % W32 : Nat) else (x % W32 : Nat) - (W32 : Int)

/-- The loop over the program headers in `load` (lines 376-432); `n` headers are
left to read and `file_ofs` is the offset of the next one. The result is `none`
when an assertion of load_segment fails, otherwise whether the loop ran to its
end (`true`) or jumped to `done` (`false`), and the state. -/
def load_phdrs (phys_base : Nat) : Nat → Int → LoadState → Option (Bool × LoadState)
  | 0, _, s => some (true, s)
  | n + 1, file_ofs, s =>
    if file_ofs < 0 ∨ file_ofs > file_length s.file then some (false, s)
    else
      let r := file_read (file_seek s.file file_ofs.toNat) sizeof_Phdr
      let s1 : LoadState := { s with file := r.2 }
      if r.1.length ≠ sizeof_Phdr then some (false, s1)
      else
        let phdr := read_Phdr r.1
        let file_ofs1 := file_ofs + sizeof_Phdr
        if phdr.p_type = PT_DYNAMIC ∨ phdr.p_type = PT_INTERP ∨ phdr.p_type = PT_SHLIB then
          some (false, s1)
        else if phdr.p_type = PT_LOAD then
          if validate_segment phys_base phdr (file_length s1.file) then
            let a := segment_args phdr
            let s2 : LoadState :=
              { s1 with calls := s1.calls ++
                  [LoadCall.load_segment a.1 a.2.1 a.2.2.1 a.2.2.2.1 a.2.2.2.2] }
            match load_segment s2.file s2.as a.1 a.2.1 a.2.2.1 a.2.2.2.1 a.2.2.2.2 with
            | none => none
            | some (false, f, as) => some (false, { s2 with file := f, as := as })
            | some (true, f, as) =>
              load_phdrs phys_base n file_ofs1 { s2 with file := f, as := as }
          else some (false, s1)
        else load_phdrs phys_base n file_ofs1 s1

/-- What `load` hands back and leaves behind. -/
structure LoadResult where
  /-- the returned flag -/
  success : Bool
  /-- the value of `*eip` on return -/
  eip : Nat
  /-- the value of `*esp` on return -/
  esp : Nat
  /-- the address space of the thread -/
  as : AddrSpace
  /-- the executable, once it has been opened -/
  file : Option file
  /-- calls of load_segment and setup_stack, oldest first -/
  calls : List LoadCall

/-- The magic bytes that `load` compares e_ident with: "\177ELF\1\1\1". -/
def elf_magic : List Nat := [127, 69, 76, 70, 1, 1, 1]

/-- The test of lines 362-368: whether `load` rejects the executable header, given
the bytes that `file_read` returned for it. -/
def ehdr_rejected (b : List Nat) : Bool :=
  let ehdr := read_Ehdr b
  decide (b.length ≠ sizeof_Ehdr) || decide (ehdr.e_ident.take 7 ≠ elf_magic) ||
  decide (ehdr.e_type ≠ 2) || decide (ehdr.e_machine ≠ 3) || decide (ehdr.e_version ≠ 1) ||
  decide (ehdr.e_phentsize ≠ sizeof_Phdr) || decide (ehdr.e_phnum > 1024)

/-- The function `load`, run by a thread whose address space is `as` once
pagedir_create has succeeded (`pagedir_create_ok`). `filesys_open` maps the
result of strtok_r (a name or NULL) to the contents of the file if it can be
opened; `eip` and `esp` are the values of `*eip` and `*esp` on entry. The result
is `none` when an assertion of load_segment fails. -/
def load (phys_base : Nat) (filesys_open : Option (List Nat) → Option (List Nat))
    (pagedir_create_ok : Bool) (file_name_ : List Nat) (eip esp : Nat) (as : AddrSpace) :
    Option LoadResult :=
  let file_name := file_name_.take (PGSIZE - 1)
  let file_name2 := file_name_.take (PGSIZE - 1)
  let failed (f : Option file) (as : AddrSpace) (calls : List LoadCall) : LoadResult :=
    { success := false, eip := eip, esp := esp, as := as, file := f, calls := calls }
  if !pagedir_create_ok then some (failed none as [])
  else
    match filesys_open ((strtok_r file_name [32]).map Prod.fst) with
    | none => some (failed none as [])
    | some data =>
      let f : file := { data := data, pos := 0, deny_write := true }
      let r := file_read f sizeof_Ehdr
      if ehdr_rejected r.1 then some (failed (some r.2) as [])
      else
        let ehdr := read_Ehdr r.1
        match load_phdrs phys_base ehdr.e_phnum (to_off_t ehdr.e_phoff)
            { file := r.2, as := as, calls := [] } with
        | none => none
        | some (false, s) => some (failed (some s.file) s.as s.calls)
        | some (true, s) =>
          let st := setup_stack phys_base esp file_name2 s.as
          let calls := s.calls ++ [LoadCall.setup_stack file_name2]
          if !st.1 then
            some { success := false, eip := eip, esp := st.2.1, as := st.2.2,
                   file := some s.file, calls := calls }
          else
            some { success := true, eip := ehdr.e_entry, esp := st.2.1, as := st.2.2,
                   file := some s.file, calls := calls }

/-- How one iteration of the loop over the program headers ends. -/
inductive StepResult where
  /-- the iteration jumps to `done`: load fails -/
  | stop (s : LoadState)
  /-- the iteration reaches the end of the loop body: the next header is read -/
  | next (s : LoadState)

/-- The state in which an iteration ends. -/
def StepResult.state : StepResult → LoadState
  | StepResult.stop s => s
  | StepResult.next s => s

/-- One iteration of the loop over the program headers in `load` (lines
378-431), for the header at offset `file_ofs`. The result is `none` when an
assertion of load_segment fails. -/
def phdr_step (phys_base : Nat) (file_ofs : Int) (s : LoadState) : Option StepResult :=
  if file_ofs < 0 ∨ file_ofs > file_length s.file then some (StepResult.stop s)
  else
    let r := file_read (file_seek s.file file_ofs.toNat) sizeof_Phdr
    let s1 : LoadState := { s with file := r.2 }
    if r.1.length ≠ sizeof_Phdr then some (StepResult.stop s1)
    else
      let phdr := read_Phdr r.1
      if phdr.p_type = PT_DYNAMIC ∨ phdr.p_type = PT_INTERP ∨ phdr.p_type = PT_SHLIB then
        some (StepResult.stop s1)
      else if phdr.p_type = PT_LOAD then
        if validate_segment phys_base phdr (file_length s1.file) then
          let a := segment_args phdr
          let s2 : LoadState :=
            { s1 with calls := s1.calls ++
                [LoadCall.load_segment a.1 a.2.1 a.2.2.1 a.2.2.2.1 a.2.2.2.2] }
          match load_segment s2.file s2.as a.1 a.2.1 a.2.2.1 a.2.2.2.1 a.2.2.2.2 with
          | none => none
          | some (false, f, as) => some (StepResult.stop { s2 with file := f, as := as })
          | some (true, f, as) => some (StepResult.next { s2 with file := f, as := as })
        else some (StepResult.stop s1)
      else some (StepResult.next s1)

/-- The program header that the loop of `load` reads at offset `file_ofs`, when
the offset lies within the file and a whole header can be read there. -/
def phdr_at (f : file) (file_ofs : Int) : Option Elf32_Phdr :=
  if file_ofs < 0 ∨ file_ofs > file_length f then none
  else if (file_read (file_seek f file_ofs.toNat) sizeof_Phdr).1.length ≠ sizeof_Phdr then none
  else some (read_Phdr (file_read (file_seek f file_ofs.toNat) sizeof_Phdr).1)

/-- The loop over the program headers, started with `n0` headers to read at
offset `ofs0` in state `s0`, reaches the head of an iteration with `n` headers
left, at offset `ofs`, in state `s`. -/
inductive Reached (phys_base : Nat) (n0 : Nat) (ofs0 : Int) (s0 : LoadState) :
    Nat → Int → LoadState → Prop where
  /-- the first iteration -/
  | start : Reached phys_base n0 ofs0 s0 n0 ofs0 s0
  /-- the iteration after one that ran through the loop body -/
  | step (n : Nat) (ofs : Int) (s s1 : LoadState) :
      Reached phys_base n0 ofs0 s0 (n + 1) ofs s →
      phdr_step phys_base ofs s = some (StepResult.next s1) →
      Reached phys_base n0 ofs0 s0 n (ofs + sizeof_Phdr) s1

/-- The address of the page that iteration `k` of load_segment installs. -/
def page_addr (upage k : Nat) : Nat := (upage + k * PGSIZE) % W32

/-- The address space after one successful iteration of the loop of
load_segment: a frame has been taken from the user pool and installed at
`upage` with contents `kpage`. -/
def page_installed (as : AddrSpace) (upage : Nat) (kpage : Nat → Nat) (w : Bool) : AddrSpace :=
  { mapped := as.mapped ++ [(upage, w)],
    mem := fun a => if upage ≤ a ∧ a < upage + PGSIZE then kpage (a - upage) else as.mem a,
    user_frames := as.user_frames - 1,
    pt_ok := as.pt_ok }

/-- Round down to a multiple of 4. -/
def rounddown4 (n : Nat) : Nat := n - n % 4

/-- Whitespace in the wording of the specification: space, tab and newline. -/
def is_whitespace (c : Nat) : Bool := c == 32 || c == 9 || c == 10

/-- The number of maximal runs of non-whitespace bytes of a string, in the
wording of the specification; `in_run` tells whether the byte before was not
whitespace. -/
def whitespace_runs : List Nat → Bool → Nat
  | [], _ => 0
  | c :: s, in_run =>
    if is_whitespace c then whitespace_runs s false
    else (if in_run then 0 else 1) + whitespace_runs s true

/-- The token count of a command line in the wording of the specification:
tokens are delimited by whitespace. -/
def spec_token_count (s : List Nat) : Nat := whitespace_runs s false

/-! ## process_execute and start_process -/

/-- Modelled from the spec: threads/thread.h is not part of the sources.
`TID_ERROR` is the value that thread_create returns when no thread could be
created. -/
def TID_ERROR : Int := -1

/-- The record `struct load_synch` that process_execute hands to the new thread.
Its declaration is not part of the sources; the fields are the ones process.c
reads and writes. -/
structure load_synch where
  /-- copy of the command line -/
  filename : List Nat
  /-- value of the semaphore `sema` -/
  sema : Nat
  /-- whether the load succeeded -/
  success : Bool
  /-- working directory of the parent -/
  parent_working_dir : Option Nat

/-- How far `process_execute` gets before it waits for the load. -/
inductive ExecStart where
  /-- the call returned `tid` before thread_create (lines 40-58) -/
  | returned (tid : Int)
  /-- thread_create has been called for `fn_exec` and returned `tid` (lines 60-69);
  the caller is about to call sema_down on the semaphore of `load_info` -/
  | created (tid : Int) (fn_exec : Option (List Nat)) (load_info : load_synch)

/-- Lines 34-69 of `process_execute`. `kernel_pages` is the number of pages that
palloc_get_page (0) can hand out, `thread_create` the value that thread_create
returns for the thread name, `working_dir` the caller's working directory. -/
def process_execute_start (kernel_pages : Nat)
    (filesys_open : Option (List Nat) → Option (List Nat))
    (thread_create : Option (List Nat) → Int) (working_dir : Option Nat)
    (file_name : List Nat) : ExecStart :=
  if kernel_pages = 0 then ExecStart.returned TID_ERROR
  else
    let fn_copy := file_name.take (PGSIZE - 1)
    if kernel_pages - 1 = 0 then ExecStart.returned TID_ERROR
    else
      let fn_copy2 := fn_copy.take (PGSIZE - 1)
      let fn_exec := (strtok_r fn_copy2 [32]).map Prod.fst
      match filesys_open fn_exec with
      | none => ExecStart.returned TID_ERROR
      | some _ =>
        ExecStart.created (thread_create fn_exec) fn_exec
          { filename := fn_copy, sema := 0, success := true, parent_working_dir := working_dir }

/-- What `start_process` does to the load_synch record of its creator, up to and
including sema_up (lines 85-112): it loads the executable into the address
space `as` of the new thread, records the outcome and signals. The result is
the record and whether the thread goes on to user mode (`false`: thread_exit);
`none` when an assertion of load_segment fails. -/
def start_process (phys_base : Nat) (filesys_open : Option (List Nat) → Option (List Nat))
    (pagedir_create_ok : Bool) (as : AddrSpace) (load_info : load_synch) :
    Option (load_synch × Bool) :=
  match load phys_base filesys_open pagedir_create_ok load_info.filename 0 0 as with
  | none => none
  | some r =>
    if !r.success then
      some ({ load_info with success := false, sema := load_info.sema + 1 }, false)
    else some ({ load_info with success := true, sema := load_info.sema + 1 }, true)

/-- Outcome of running `process_execute` as far as it can go. -/
inductive ExecResult where
  /-- the call returned `tid` -/
  | returned (tid : Int)
  /-- the caller sleeps in sema_down on a semaphore that has value 0 -/
  | blocked
  deriving DecidableEq

/-- Lines 72-77 of `process_execute`: `sema_down` (which sleeps while the value
of the semaphore is 0) followed by the test of `tid` and of the success flag. -/
def process_execute_finish (tid : Int) (load_info : load_synch) : ExecResult :=
  if load_info.sema = 0 then ExecResult.blocked
  else if tid = TID_ERROR ∨ load_info.success = false then ExecResult.returned TID_ERROR
  else ExecResult.returned tid

/-- The function `process_execute` together with the thread it creates: when
thread_create returns TID_ERROR no thread exists and nobody runs start_process;
otherwise the new thread runs start_process in its address space `as` and the
caller goes on once the semaphore has been signalled. The result is `none` when
an assertion of load_segment fails in the new thread. -/
def process_execute (phys_base kernel_pages : Nat)
    (filesys_open : Option (List Nat) → Option (List Nat))
    (thread_create : Option (List Nat) → Int) (working_dir : Option Nat)
    (pagedir_create_ok : Bool) (as : AddrSpace) (file_name : List Nat) : Option ExecResult :=
  match process_execute_start kernel_pages filesys_open thread_create working_dir file_name with
  | ExecStart.returned tid => some (ExecResult.returned tid)
  | ExecStart.created tid _ load_info =>
    if tid = TID_ERROR then some (process_execute_finish tid load_info)
    else
      match start_process phys_base filesys_open pagedir_create_ok as load_info with
      | none => none
      | some r => some (process_execute_finish tid r.1)

/-- The `n` low bytes of `v`, least significant first. -/
def le_field (n v : Nat) : List Nat := (List.range n).map (fun i => v / 256 ^ i % 256)

/-- An executable of 84 bytes: a valid header for one program header, which
follows it at offset 52 with the given fields. -/
def sample_elf (p_type p_offset p_vaddr p_filesz p_memsz p_flags : Nat) : List Nat :=
  [127, 69, 76, 70, 1, 1, 1] ++ List.replicate 9 0 ++ le_field 2 2 ++ le_field 2 3 ++
  le_field 4 1 ++ le_field 4 134512640 ++ le_field 4 52 ++ le_field 4 0 ++ le_field 4 0 ++
  le_field 2 52 ++ le_field 2 32 ++ le_field 2 1 ++ le_field 2 0 ++ le_field 2 0 ++
  le_field 2 0 ++
  le_field 4 p_type ++ le_field 4 p_offset ++ le_field 4 p_vaddr ++ le_field 4 0 ++
  le_field 4 p_filesz ++ le_field 4 p_memsz ++ le_field 4 p_flags ++ le_field 4 4096

/-! ## Lemmas on machine arithmetic and memory -/

theorem sub32_eq (a b : Nat) (hb : b ≤ a) (ha : a < W32) : sub32 a b = a - b := by
  unfold sub32 W32 at *
  omega

theorem add32_eq (a b : Nat) (h : a + b < W32) : add32 a b = a + b := by
  unfold add32 W32 at *
  omega

theorem store8_same (m : Mem) (a b : Nat) : store8 m a b a = b % 256 := by
  simp [store8]

theorem store8_other (m : Mem) (a b x : Nat) (h : x ≠ a) : store8 m a b x = m x := by
  simp [store8, h]

theorem memcpy_outside (bs : List Nat) : ∀ (m : Mem) (dst x : Nat), dst + bs.length < W32 →
    (x < dst ∨ dst + bs.length ≤ x) → memcpy m dst bs x = m x := by
  induction bs with
  | nil => intro m dst x _ _; rfl
  | cons b bs ih =>
    intro m dst x hlen hx
    simp only [List.length_cons] at hlen hx
    have h1 : add32 dst 1 = dst + 1 := add32_eq _ _ (by omega)
    simp only [memcpy, h1]
    rw [ih _ _ _ (by omega) (by omega), store8_other _ _ _ _ (by omega)]

theorem memcpy_inside (bs : List Nat) : ∀ (m : Mem) (dst i : Nat), dst + bs.length < W32 →
    i < bs.length → memcpy m dst bs (dst + i) = bs.getD i 0 % 256 := by
  induction bs with
  | nil => intro m dst i _ hi; simp at hi
  | cons b bs ih =>
    intro m dst i hlen hi
    simp only [List.length_cons] at hlen hi
    have h1 : add32 dst 1 = dst + 1 := add32_eq _ _ (by omega)
    simp only [memcpy, h1]
    cases i with
    | zero =>
      rw [memcpy_outside _ _ _ _ (by omega) (by omega)]
      simp [store8_same]
    | succ i =>
      have := ih (store8 m dst b) (dst + 1) i (by omega) (by omega)
      rw [show dst + (i + 1) = dst + 1 + i by omega, this]
      simp

theorem read_bytes_eq (m : Mem) : ∀ (l : List Nat) (a : Nat),
    (∀ j, j < l.length → m (a + j) = l.getD j 0) → read_bytes m a l.length = l := by
  intro l
  induction l with
  | nil => intro a _; rfl
  | cons b bs ih =>
    intro a h
    simp only [List.length_cons, read_bytes]
    have h0 := h 0 (by simp)
    simp at h0
    rw [h0, ih (a + 1)]
    intro j hj
    have := h (j + 1) (by simp; omega)
    simpa [Nat.add_assoc, Nat.add_comm 1 j] using this

theorem read_bytes_congr (m1 m2 : Mem) : ∀ (n a : Nat),
    (∀ j, j < n → m1 (a + j) = m2 (a + j)) → read_bytes m1 a n = read_bytes m2 a n := by
  intro n
  induction n with
  | zero => intro a _; rfl
  | succ n ih =>
    intro a h
    simp only [read_bytes]
    rw [show m1 a = m2 a from h 0 (by omega), ih (a + 1)]
    intro j hj
    have := h (j + 1) (by omega)
    simpa [Nat.add_assoc, Nat.add_comm 1 j] using this

theorem strlcpy_full (m : Mem) (p : Nat) (t : List Nat) (hp : p + t.length + 1 < W32) :
    strlcpy m p t (t.length + 1) = store8 (memcpy m p t) (p + t.length) 0 := by
  have h1 : add32 p t.length = p + t.length := add32_eq _ _ (by omega)
  simp only [strlcpy, Nat.add_sub_cancel, Nat.lt_irrefl, if_false, Nat.succ_pos, if_true,
    List.take_length, h1]

theorem strlcpy_outside (m : Mem) (p x : Nat) (t : List Nat) (hp : p + t.length + 1 < W32)
    (hx : x < p ∨ p + t.length + 1 ≤ x) : strlcpy m p t (t.length + 1) x = m x := by
  rw [strlcpy_full m p t hp, store8_other _ _ _ _ (by omega),
    memcpy_outside _ _ _ _ (by omega) (by omega)]

theorem strlcpy_string (m : Mem) (p : Nat) (t : List Nat) (hp : p + t.length + 1 < W32)
    (ht : ∀ c ∈ t, c < 256) :
    read_bytes (strlcpy m p t (t.length + 1)) p (t.length + 1) = t ++ [0] := by
  have key := read_bytes_eq (strlcpy m p t (t.length + 1)) (t ++ [0]) p
  simp only [List.length_append, List.length_singleton] at key
  apply key
  intro j hj
  rw [strlcpy_full m p t hp]
  by_cases hjt : j < t.length
  · rw [store8_other _ _ _ _ (by omega), memcpy_inside _ _ _ _ (by omega) hjt]
    simp only [List.getD_eq_getElem?_getD, List.getElem?_append_left hjt]
    rw [List.getElem?_eq_getElem hjt]
    simp only [Option.getD_some]
    exact Nat.mod_eq_of_lt (ht _ (List.getElem_mem _))
  · have hje : j = t.length := by omega
    subst hje
    rw [store8_same]
    simp

theorem store32_outside (m : Mem) (a w x : Nat) (ha : a + 3 < W32) (hx : x < a ∨ a + 4 ≤ x) :
    store32 m a w x = m x := by
  have h1 : add32 a 1 = a + 1 := add32_eq _ _ (by omega)
  have h2 : add32 a 2 = a + 2 := add32_eq _ _ (by omega)
  have h3 : add32 a 3 = a + 3 := add32_eq _ _ (by omega)
  simp only [store32, h1, h2, h3]
  rw [store8_other _ _ _ _ (by omega), store8_other _ _ _ _ (by omega),
    store8_other _ _ _ _ (by omega), store8_other _ _ _ _ (by omega)]

theorem load32_store32 (m : Mem) (a w : Nat) (ha : a + 3 < W32) (hw : w < W32) :
    load32 (store32 m a w) a = w := by
  have h1 : add32 a 1 = a + 1 := add32_eq _ _ (by omega)
  have h2 : add32 a 2 = a + 2 := add32_eq _ _ (by omega)
  have h3 : add32 a 3 = a + 3 := add32_eq _ _ (by omega)
  simp only [load32, store32, h1, h2, h3]
  simp only [store8]
  simp
  unfold W32 at hw
  omega

theorem load32_congr (m1 m2 : Mem) (a : Nat) (ha : a + 3 < W32)
    (h : ∀ j, j < 4 → m1 (a + j) = m2 (a + j)) : load32 m1 a = load32 m2 a := by
  have h1 : add32 a 1 = a + 1 := add32_eq _ _ (by omega)
  have h2 : add32 a 2 = a + 2 := add32_eq _ _ (by omega)
  have h3 : add32 a 3 = a + 3 := add32_eq _ _ (by omega)
  simp only [load32, h1, h2, h3]
  rw [h 1 (by omega), h 2 (by omega), h 3 (by omega)]
  have := h 0 (by omega)
  simp only [Nat.add_zero] at this
  rw [this]

/-! ## Lemmas on setup_stack -/

theorem copy_list_spec (ts : List (List Nat)) : ∀ (b : Builder),
    (∀ t ∈ ts, ∀ c ∈ t, c < 256) → strings_size ts ≤ b.byte_page_ptr →
    b.byte_page_ptr < W32 →
    (ts.foldl copy_token b).byte_page_ptr = b.byte_page_ptr - strings_size ts ∧
    (ts.foldl copy_token b).arg_addrs = b.arg_addrs ++ token_addrs b.byte_page_ptr ts ∧
    (∀ x, x < b.byte_page_ptr - strings_size ts ∨ b.byte_page_ptr ≤ x →
      (ts.foldl copy_token b).mem x = b.mem x) ∧
    (∀ i, i < ts.length →
      read_bytes (ts.foldl copy_token b).mem ((token_addrs b.byte_page_ptr ts).getD i 0)
        ((ts.getD i []).length + 1) = ts.getD i [] ++ [0]) := by
  induction ts with
  | nil =>
    intro b _ _ _
    simp [strings_size, token_addrs]
  | cons t ts ih =>
    intro b hts hsz hlt
    simp only [strings_size] at hsz
    have hp : sub32 b.byte_page_ptr (t.length + 1) = b.byte_page_ptr - (t.length + 1) :=
      sub32_eq _ _ (by omega) hlt
    have hb1 : (copy_token b t).byte_page_ptr = b.byte_page_ptr - (t.length + 1) := by
      simp [copy_token, hp]
    have hm1 : (copy_token b t).mem =
        strlcpy b.mem (b.byte_page_ptr - (t.length + 1)) t (t.length + 1) := by
      simp [copy_token, hp]
    have ha1 : (copy_token b t).arg_addrs =
        b.arg_addrs ++ [b.byte_page_ptr - (t.length + 1)] := by
      simp [copy_token, hp]
    obtain ⟨i1, i2, i3, i4⟩ := ih (copy_token b t)
      (fun t1 h1 => hts t1 (List.mem_cons_of_mem _ h1)) (by rw [hb1]; omega) (by rw [hb1]; omega)
    rw [hb1] at i1 i2 i3 i4
    simp only [List.foldl_cons, strings_size, token_addrs]
    refine ⟨by rw [i1]; omega, by rw [i2, ha1]; simp, ?_, ?_⟩
    · intro x hx
      rw [i3 x (by omega), hm1]
      exact strlcpy_outside _ _ _ _ (by omega) (by omega)
    · intro i hi
      cases i with
      | zero =>
        simp only [List.getD_cons_zero]
        rw [read_bytes_congr _ (copy_token b t).mem _ _ (fun j hj => i3 _ (by omega)), hm1]
        exact strlcpy_string _ _ _ (by omega) (hts t (List.mem_cons_self _ _))
      | succ i =>
        simp only [List.getD_cons_succ]
        exact i4 i (by simpa using hi)

theorem load32_store32_other (m : Mem) (a w b : Nat) (ha : a + 3 < W32) (hb : b + 3 < W32)
    (h : b + 4 ≤ a ∨ a + 4 ≤ b) : load32 (store32 m a w) b = load32 m b :=
  load32_congr _ _ _ hb (fun _ _ => store32_outside _ _ _ _ ha (by omega))

theorem push_args_spec (addrs : List Nat) (tc : Nat) (haddrs : ∀ a ∈ addrs, a < W32) :
    ∀ (k wp : Nat) (m : Mem), 4 * k ≤ wp → wp < W32 →
    (push_args addrs tc (List.range k) wp m).1 = wp - 4 * k ∧
    (∀ x, x < wp - 4 * k ∨ wp ≤ x → (push_args addrs tc (List.range k) wp m).2 x = m x) ∧
    (∀ j, j < k → load32 (push_args addrs tc (List.range k) wp m).2 (wp - 4 * (j + 1)) =
      addrs.getD (tc - j - 1) 0) := by
  intro k
  induction k with
  | zero =>
    intro wp m _ _
    simp [push_args]
  | succ k ih =>
    intro wp m hk hwp
    obtain ⟨i1, i2, i3⟩ := ih wp m (by omega) hwp
    have hstep : push_args addrs tc (List.range (k + 1)) wp m =
        (sub32 (push_args addrs tc (List.range k) wp m).1 4,
          store32 (push_args addrs tc (List.range k) wp m).2
            (sub32 (push_args addrs tc (List.range k) wp m).1 4)
            (addrs.getD (tc - k - 1) 0)) := by
      simp [push_args, List.range_succ, List.foldl_append]
    have hs : sub32 (wp - 4 * k) 4 = wp - 4 * k - 4 := sub32_eq _ _ (by omega) (by omega)
    rw [hstep, i1, hs]
    have hval : addrs.getD (tc - k - 1) 0 < W32 := by
      rw [List.getD_eq_getElem?_getD]
      cases hget : addrs[tc - k - 1]? with
      | none => simp [W32]
      | some v =>
        simp only [Option.getD_some]
        exact haddrs v (List.getElem?_mem hget)
    refine ⟨by simp only; omega, ?_, ?_⟩
    · intro x hx
      simp only
      rw [store32_outside _ _ _ _ (by omega) (by omega)]
      exact i2 x (by omega)
    · intro j hj
      simp only
      by_cases hjk : j < k
      · rw [load32_store32_other _ _ _ _ (by omega) (by omega) (by omega)]
        exact i3 j hjk
      · have hje : j = k := by omega
        subst hje
        rw [show wp - 4 * (j + 1) = wp - 4 * j - 4 by omega]
        exact load32_store32 _ _ _ (by omega) hval

theorem scan_token (t rest : List Nat) (ht : ∀ c ∈ t, c ≠ 32) :
    (t ++ 32 :: rest).takeWhile (fun c => !decide (c ∈ [32])) = t ∧
    (t ++ 32 :: rest).dropWhile (fun c => !decide (c ∈ [32])) = 32 :: rest := by
  induction t with
  | nil => exact ⟨rfl, rfl⟩
  | cons c t ih =>
    have hc : c ≠ 32 := ht c (List.mem_cons_self _ _)
    obtain ⟨h1, h2⟩ := ih (fun c1 h => ht c1 (List.mem_cons_of_mem _ h))
    have hd : (!decide (c ∈ [32])) = true := by simp [hc]
    constructor
    · rw [List.cons_append, List.takeWhile_cons, hd, if_pos rfl, h1]
    · rw [List.cons_append, List.dropWhile_cons, hd, if_pos rfl, h2]

theorem scan_last_token (t : List Nat) (ht : ∀ c ∈ t, c ≠ 32) :
    t.takeWhile (fun c => !decide (c ∈ [32])) = t ∧
    t.dropWhile (fun c => !decide (c ∈ [32])) = [] := by
  induction t with
  | nil => exact ⟨rfl, rfl⟩
  | cons c t ih =>
    have hc : c ≠ 32 := ht c (List.mem_cons_self _ _)
    obtain ⟨h1, h2⟩ := ih (fun c1 h => ht c1 (List.mem_cons_of_mem _ h))
    have hd : (!decide (c ∈ [32])) = true := by simp [hc]
    constructor
    · rw [List.takeWhile_cons, hd, if_pos rfl, h1]
    · rw [List.dropWhile_cons, hd, if_pos rfl, h2]

theorem strtok_r_cons (c : Nat) (s : List Nat) (hc : c ≠ 32) :
    strtok_r (c :: s) [32] =
      some ((c :: s).takeWhile (fun c => !decide (c ∈ [32])),
        ((c :: s).dropWhile (fun c => !decide (c ∈ [32]))).drop 1) := by
  have hd : decide (c ∈ [32]) = false := by simp [hc]
  have h : (c :: s).dropWhile (fun c => decide (c ∈ [32])) = c :: s := by
    rw [List.dropWhile_cons, hd]
    rfl
  unfold strtok_r
  rw [h]

theorem strtok_r_join (t : List Nat) (ts : List (List Nat)) (ht : is_token t) :
    strtok_r (join_tokens (t :: ts)) [32] = some (t, join_tokens ts) := by
  obtain ⟨hne, hc⟩ := ht
  have h32 : ∀ c ∈ t, c ≠ 32 := fun c h => (hc c h).2.1
  cases t with
  | nil => exact absurd rfl hne
  | cons c t =>
    have hc32 : c ≠ 32 := h32 c (List.mem_cons_self _ _)
    cases ts with
    | nil =>
      obtain ⟨h3, h4⟩ := scan_last_token (c :: t) h32
      rw [show join_tokens [c :: t] = c :: t from rfl, strtok_r_cons c t hc32, h3, h4]
      rfl
    | cons t2 ts =>
      obtain ⟨h1, h2⟩ := scan_token (c :: t) (join_tokens (t2 :: ts)) h32
      rw [show join_tokens ((c :: t) :: t2 :: ts) = c :: (t ++ 32 :: join_tokens (t2 :: ts))
        from rfl, strtok_r_cons c _ hc32]
      rw [List.cons_append] at h1 h2
      rw [h1, h2]
      rfl

theorem split_aux_run (s : List Nat) : ∀ (cur : List Nat), cur ≠ [] →
    split_spaces_aux s cur =
      (cur ++ s.takeWhile (fun c => !decide (c ∈ [32]))) ::
        split_spaces_aux ((s.dropWhile (fun c => !decide (c ∈ [32]))).drop 1) [] := by
  induction s with
  | nil =>
    intro cur hcur
    simp [split_spaces_aux, hcur]
  | cons c s ih =>
    intro cur hcur
    by_cases hc : c = 32
    · subst hc
      simp [split_spaces_aux, hcur]
    · have hd : (!decide (c ∈ [32])) = true := by simp [hc]
      rw [List.takeWhile_cons, List.dropWhile_cons, hd, if_pos rfl, if_pos rfl]
      simp only [split_spaces_aux, hc, if_false]
      rw [ih (cur ++ [c]) (by simp)]
      simp

theorem split_aux_skip (s : List Nat) :
    split_spaces_aux s [] =
      split_spaces_aux (s.dropWhile (fun c => decide (c ∈ [32]))) [] := by
  induction s with
  | nil => rfl
  | cons c s ih =>
    by_cases hc : c = 32
    · subst hc
      have hd : decide (32 ∈ [32]) = true := by decide
      rw [List.dropWhile_cons, hd, if_pos rfl, ← ih]
      simp [split_spaces_aux]
    · have hd : decide (c ∈ [32]) = false := by simp [hc]
      rw [List.dropWhile_cons, hd]
      rfl

theorem dropWhile_head (q : Nat → Bool) (s : List Nat) (c : Nat) (r : List Nat)
    (h : s.dropWhile q = c :: r) : q c = false ∧ r.length < s.length := by
  induction s with
  | nil => simp at h
  | cons a s ih =>
    rw [List.dropWhile_cons] at h
    cases hq : q a with
    | true =>
      rw [hq, if_pos rfl] at h
      have := ih h
      exact ⟨this.1, by simp only [List.length_cons]; omega⟩
    | false =>
      rw [hq] at h
      simp only [Bool.false_eq_true, if_false, List.cons.injEq] at h
      obtain ⟨h1, h2⟩ := h
      subst h1 h2
      exact ⟨hq, by simp⟩

theorem dropWhile_length (q : Nat → Bool) (s : List Nat) : (s.dropWhile q).length ≤ s.length := by
  induction s with
  | nil => simp
  | cons a s ih =>
    rw [List.dropWhile_cons]
    split
    · simp only [List.length_cons]; omega
    · simp

/-- What one call of `strtok_r` with the delimiter " " does in terms of the
tokens of the string: NULL when there is none, else the first token, and the
rest of the tokens are those of the string at the saved position. -/
theorem strtok_r_spec (s : List Nat) :
    (strtok_r s [32] = none ∧ split_spaces s = []) ∨
    ∃ t save, strtok_r s [32] = some (t, save) ∧
      split_spaces s = t :: split_spaces save ∧ save.length < s.length := by
  unfold split_spaces
  rw [split_aux_skip s]
  unfold strtok_r
  cases hs : s.dropWhile (fun c => decide (c ∈ [32])) with
  | nil => left; exact ⟨rfl, rfl⟩
  | cons c s1 =>
    right
    obtain ⟨hq, hlen⟩ := dropWhile_head _ s c s1 hs
    have hc : c ≠ 32 := by simpa using hq
    have hd : (!decide (c ∈ [32])) = true := by simp [hc]
    refine ⟨_, _, rfl, ?_, ?_⟩
    · have h1 : split_spaces_aux (c :: s1) [] = split_spaces_aux s1 [c] := by
        simp [split_spaces_aux, hc]
      rw [h1, split_aux_run s1 [c] (by simp), List.takeWhile_cons, List.dropWhile_cons, hd,
        if_pos rfl, if_pos rfl]
      rfl
    · rw [List.dropWhile_cons, hd, if_pos rfl]
      have := dropWhile_length (fun c => !decide (c ∈ [32])) s1
      simp only [List.length_drop]
      omega

theorem copy_loop_split : ∀ (fuel : Nat) (s : List Nat) (b : Builder), s.length < fuel →
    copy_loop fuel (strtok_r s [32]) b = (split_spaces s).foldl copy_token b := by
  intro fuel
  induction fuel with
  | zero => intro s b h; omega
  | succ fuel ih =>
    intro s b h
    rcases strtok_r_spec s with ⟨h1, h2⟩ | ⟨t, save, h1, h2, h3⟩
    · rw [h1, h2]; rfl
    · rw [h1, h2]
      simp only [copy_loop, List.foldl_cons]
      exact ih save _ (by omega)

theorem count_loop_split : ∀ (fuel : Nat) (s : List Nat) (n : Nat), s.length < fuel →
    count_loop fuel (strtok_r s [32]) n = n + (split_spaces s).length := by
  intro fuel
  induction fuel with
  | zero => intro s n h; omega
  | succ fuel ih =>
    intro s n h
    rcases strtok_r_spec s with ⟨h1, h2⟩ | ⟨t, save, h1, h2, h3⟩
    · rw [h1, h2]; rfl
    · rw [h1, h2]
      simp only [count_loop, List.length_cons]
      rw [ih save _ (by omega)]
      omega

/-- The first loop of `setup_stack` counts the tokens that the second loop
copies, so the array arg_addrs has one entry for each of them. -/
theorem count_tokens_split (s : List Nat) (hlen : s.length < PGSIZE) :
    count_tokens s = (split_spaces s).length := by
  have htake : s.take (PGSIZE - 1) = s := List.take_of_length_le (by omega)
  unfold count_tokens
  simp only [htake]
  rw [count_loop_split _ s 0 (by omega)]
  omega

theorem split_spaces_join (ts : List (List Nat)) (hts : ∀ t ∈ ts, is_token t) :
    split_spaces (join_tokens ts) = ts := by
  induction ts with
  | nil => rfl
  | cons t ts ih =>
    have h := strtok_r_join t ts (hts t (List.mem_cons_self _ _))
    rcases strtok_r_spec (join_tokens (t :: ts)) with ⟨h1, _⟩ | ⟨t1, save, h1, h2, _⟩
    · rw [h] at h1; cases h1
    · rw [h] at h1
      simp only [Option.some.injEq, Prod.mk.injEq] at h1
      obtain ⟨e1, e2⟩ := h1
      subst e1 e2
      rw [h2, ih (fun t1 h => hts t1 (List.mem_cons_of_mem _ h))]

theorem split_aux_mem (s : List Nat) : ∀ (cur t : List Nat), t ∈ split_spaces_aux s cur →
    ∀ c ∈ t, c ∈ cur ∨ c ∈ s := by
  induction s with
  | nil =>
    intro cur t ht c hc
    by_cases hcur : cur = []
    · simp [split_spaces_aux, hcur] at ht
    · simp only [split_spaces_aux, hcur, if_false, List.mem_singleton] at ht
      subst ht
      exact Or.inl hc
  | cons a s ih =>
    intro cur t ht c hc
    by_cases ha : a = 32
    · by_cases hcur : cur = []
      · simp only [split_spaces_aux, ha, hcur, if_true] at ht
        rcases ih [] t ht c hc with h | h
        · simp at h
        · exact Or.inr (List.mem_cons_of_mem _ h)
      · simp only [split_spaces_aux, ha, hcur, if_true, if_false, List.mem_cons] at ht
        rcases ht with ht | ht
        · subst ht; exact Or.inl hc
        · rcases ih [] t ht c hc with h | h
          · simp at h
          · exact Or.inr (List.mem_cons_of_mem _ h)
    · simp only [split_spaces_aux, ha, if_false] at ht
      rcases ih (cur ++ [a]) t ht c hc with h | h
      · simp only [List.mem_append, List.mem_singleton] at h
        rcases h with h | h
        · exact Or.inl h
        · subst h; exact Or.inr (List.mem_cons_self _ _)
      · exact Or.inr (List.mem_cons_of_mem _ h)

theorem split_spaces_mem (s t : List Nat) (ht : t ∈ split_spaces s) : ∀ c ∈ t, c ∈ s := by
  intro c hc
  rcases split_aux_mem s [] t ht c hc with h | h
  · simp at h
  · exact h

theorem token_addrs_length (ts : List (List Nat)) : ∀ p, (token_addrs p ts).length = ts.length := by
  induction ts with
  | nil => intro p; rfl
  | cons t ts ih => intro p; simp [token_addrs, ih]

theorem token_addrs_bounds (ts : List (List Nat)) : ∀ (p i : Nat), strings_size ts ≤ p →
    i < ts.length →
    p - strings_size ts ≤ (token_addrs p ts).getD i 0 ∧
    (token_addrs p ts).getD i 0 + (ts.getD i []).length + 1 ≤ p := by
  induction ts with
  | nil => intro p i _ hi; simp at hi
  | cons t ts ih =>
    intro p i hsz hi
    simp only [strings_size] at hsz
    cases i with
    | zero =>
      simp only [token_addrs, strings_size, List.getD_cons_zero]
      omega
    | succ i =>
      simp only [token_addrs, strings_size, List.getD_cons_succ]
      have := ih (p - (t.length + 1)) i (by omega) (by simpa using hi)
      omega

theorem token_addrs_lt (ts : List (List Nat)) : ∀ (p : Nat), ∀ a ∈ token_addrs p ts, a ≤ p := by
  induction ts with
  | nil => intro p a h; simp [token_addrs] at h
  | cons t ts ih =>
    intro p a h
    simp only [token_addrs, List.mem_cons] at h
    rcases h with h | h
    · omega
    · have := ih _ a h
      omega

theorem roundup4_facts (n : Nat) : n ≤ roundup4 n ∧ roundup4 n ≤ n + 3 ∧ roundup4 n % 4 = 0 := by
  unfold roundup4
  omega

/-- Layout of the frame that `push_frame` builds for a command line whose tokens
are `ts`, when copying starts at a word-aligned address `p` with enough room
below it. -/
theorem push_frame_layout (p : Nat) (exec_cmd : List Nat) (ts : List (List Nat)) (m : Mem)
    (hsplit : split_spaces exec_cmd = ts) (hbytes : ∀ c ∈ exec_cmd, c < 256)
    (hp4 : p % 4 = 0) (hp : p < W32)
    (hfit : roundup4 (strings_size ts) + 4 * (ts.length + 4) ≤ p) :
    (push_frame p exec_cmd m).1 = p - roundup4 (strings_size ts) - 4 * (ts.length + 4) ∧
    load32 (push_frame p exec_cmd m).2
      (p - roundup4 (strings_size ts) - 4 * (ts.length + 4)) = 0 ∧
    load32 (push_frame p exec_cmd m).2
      (p - roundup4 (strings_size ts) - 4 * (ts.length + 4) + 4) = ts.length ∧
    load32 (push_frame p exec_cmd m).2
      (p - roundup4 (strings_size ts) - 4 * (ts.length + 4) + 8) =
      p - roundup4 (strings_size ts) - 4 * (ts.length + 4) + 12 ∧
    (∀ k, k < ts.length →
      load32 (push_frame p exec_cmd m).2
        (p - roundup4 (strings_size ts) - 4 * (ts.length + 4) + 12 + 4 * k) =
        (token_addrs p ts).getD k 0) ∧
    load32 (push_frame p exec_cmd m).2
      (p - roundup4 (strings_size ts) - 4 * (ts.length + 4) + 12 + 4 * ts.length) = 0 ∧
    (∀ x, p - roundup4 (strings_size ts) ≤ x →
      (push_frame p exec_cmd m).2 x =
        (ts.foldl copy_token { mem := m, byte_page_ptr := p, arg_addrs := [] }).mem x) ∧
    (∀ x, x < p - roundup4 (strings_size ts) - 4 * (ts.length + 4) →
      (push_frame p exec_cmd m).2 x = m x) := by
  obtain ⟨r1, r2, r3⟩ := roundup4_facts (strings_size ts)
  have hcl := copy_loop_split (exec_cmd.length + 1) exec_cmd
    { mem := m, byte_page_ptr := p, arg_addrs := [] } (by omega)
  rw [hsplit] at hcl
  have hts : ∀ t ∈ ts, ∀ c ∈ t, c < 256 := fun t ht c hc =>
    hbytes c (split_spaces_mem exec_cmd t (by rw [hsplit]; exact ht) c hc)
  obtain ⟨c1, c2, c3, _⟩ := copy_list_spec ts { mem := m, byte_page_ptr := p, arg_addrs := [] }
    hts (by simp only; omega) hp
  simp only [List.nil_append] at c1 c2 c3
  have hbp : sub32 (p - strings_size ts) ((p - strings_size ts) % 4) =
      p - roundup4 (strings_size ts) := by
    rw [sub32_eq _ _ (Nat.mod_le _ _) (by omega)]
    omega
  have hwp0 : sub32 (p - roundup4 (strings_size ts)) 4 = p - roundup4 (strings_size ts) - 4 :=
    sub32_eq _ _ (by omega) (by omega)
  have haddrs : ∀ a ∈ token_addrs p ts, a < W32 := fun a ha => by
    have := token_addrs_lt ts p a ha
    omega
  obtain ⟨a1, a2, a3⟩ := push_args_spec (token_addrs p ts) ts.length haddrs ts.length
    (p - roundup4 (strings_size ts) - 4)
    (store32 (ts.foldl copy_token { mem := m, byte_page_ptr := p, arg_addrs := [] }).mem
      (p - roundup4 (strings_size ts) - 4) 0) (by omega) (by omega)
  have hwp1 : sub32 (p - roundup4 (strings_size ts) - 4 - 4 * ts.length) 4 =
      p - roundup4 (strings_size ts) - 4 * (ts.length + 4) + 8 := by
    rw [sub32_eq _ _ (by omega) (by omega)]
    omega
  have hwp1a : add32 (p - roundup4 (strings_size ts) - 4 * (ts.length + 4) + 8) 4 =
      p - roundup4 (strings_size ts) - 4 * (ts.length + 4) + 12 := by
    rw [add32_eq _ _ (by omega)]
  have hwp2 : sub32 (p - roundup4 (strings_size ts) - 4 * (ts.length + 4) + 8) 4 =
      p - roundup4 (strings_size ts) - 4 * (ts.length + 4) + 4 := by
    rw [sub32_eq _ _ (by omega) (by omega)]
    omega
  have hwp3 : sub32 (p - roundup4 (strings_size ts) - 4 * (ts.length + 4) + 4) 4 =
      p - roundup4 (strings_size ts) - 4 * (ts.length + 4) := by
    rw [sub32_eq _ _ (by omega) (by omega)]
    omega
  have hn : ts.length < W32 := by omega
  simp only [push_frame, hcl, c1, c2, token_addrs_length, hbp, hwp0, a1, hwp1, hwp1a, hwp2, hwp3]
  generalize (push_args (token_addrs p ts) ts.length (List.range ts.length)
    (p - roundup4 (strings_size ts) - 4)
    (store32 (ts.foldl copy_token { mem := m, byte_page_ptr := p, arg_addrs := [] }).mem
      (p - roundup4 (strings_size ts) - 4) 0)).2 = M at a2 a3 ⊢
  generalize (ts.foldl copy_token { mem := m, byte_page_ptr := p, arg_addrs := [] }).mem = M0
    at a2 a3 c3 ⊢
  generalize hE : p - roundup4 (strings_size ts) - 4 * (ts.length + 4) = E
  have hEp : E + 4 * (ts.length + 4) + roundup4 (strings_size ts) = p := by omega
  refine ⟨trivial, ?_, ?_, ?_, ?_, ?_, ?_, ?_⟩
  · exact load32_store32 _ _ _ (by omega) (by unfold W32; omega)
  · rw [load32_store32_other _ _ _ _ (by omega) (by omega) (by omega)]
    exact load32_store32 _ _ _ (by omega) hn
  · rw [load32_store32_other _ _ _ _ (by omega) (by omega) (by omega),
      load32_store32_other _ _ _ _ (by omega) (by omega) (by omega)]
    exact load32_store32 _ _ _ (by omega) (by omega)
  · intro k hk
    rw [load32_store32_other _ _ _ _ (by omega) (by omega) (by omega),
      load32_store32_other _ _ _ _ (by omega) (by omega) (by omega),
      load32_store32_other _ _ _ _ (by omega) (by omega) (by omega)]
    have := a3 (ts.length - 1 - k) (by omega)
    rw [show p - roundup4 (strings_size ts) - 4 - 4 * (ts.length - 1 - k + 1) = E + 12 + 4 * k
      by omega, show ts.length - (ts.length - 1 - k) - 1 = k by omega] at this
    exact this
  · rw [load32_store32_other _ _ _ _ (by omega) (by omega) (by omega),
      load32_store32_other _ _ _ _ (by omega) (by omega) (by omega),
      load32_store32_other _ _ _ _ (by omega) (by omega) (by omega)]
    rw [load32_congr _ (store32 M0 (p - roundup4 (strings_size ts) - 4) 0) _ (by omega)
      (fun j hj => a2 _ (by omega))]
    rw [show E + 12 + 4 * ts.length = p - roundup4 (strings_size ts) - 4 by omega]
    exact load32_store32 _ _ _ (by omega) (by unfold W32; omega)
  · intro x hx
    rw [store32_outside _ _ _ _ (by omega) (by omega),
      store32_outside _ _ _ _ (by omega) (by omega),
      store32_outside _ _ _ _ (by omega) (by omega), a2 x (by omega),
      store32_outside _ _ _ _ (by omega) (by omega)]
  · intro x hx
    rw [store32_outside _ _ _ _ (by omega) (by omega),
      store32_outside _ _ _ _ (by omega) (by omega),
      store32_outside _ _ _ _ (by omega) (by omega), a2 x (by omega),
      store32_outside _ _ _ _ (by omega) (by omega)]
    exact c3 x (by omega)

theorem map_stack_page_ok (phys_base esp : Nat) (as : AddrSpace)
    (h : (map_stack_page phys_base esp as).1 = true) :
    (map_stack_page phys_base esp as).2.1 = phys_base := by
  unfold map_stack_page at h ⊢
  cases h1 : palloc_get_page as with
  | none => simp [h1] at h
  | some as0 =>
    simp only [h1] at h ⊢
    cases h2 : install_page as0 (sub32 phys_base PGSIZE) (fun _ => 0) true with
    | none => simp [h2] at h
    | some as1 => rfl

theorem setup_stack_eq (phys_base esp : Nat) (exec_cmd : List Nat) (as : AddrSpace) :
    setup_stack phys_base esp exec_cmd as =
      ((map_stack_page phys_base esp as).1,
        (push_frame (map_stack_page phys_base esp as).2.1 exec_cmd
          (map_stack_page phys_base esp as).2.2.mem).1,
        { (map_stack_page phys_base esp as).2.2 with
          mem := (push_frame (map_stack_page phys_base esp as).2.1 exec_cmd
            (map_stack_page phys_base esp as).2.2.mem).2 }) := by
  unfold setup_stack
  rfl

/-- The frame that `setup_stack` builds once the stack page is mapped, for a
command line whose tokens `ts` fit in the page. -/
theorem setup_stack_layout (phys_base esp : Nat) (exec_cmd : List Nat) (ts : List (List Nat))
    (as : AddrSpace) (hpb : phys_base % PGSIZE = 0) (hpb2 : phys_base < W32)
    (hsplit : split_spaces exec_cmd = ts) (hbytes : ∀ c ∈ exec_cmd, c < 256)
    (hfit : roundup4 (strings_size ts) + 4 * (ts.length + 4) ≤ PGSIZE)
    (hfit2 : PGSIZE ≤ phys_base)
    (hmap : (setup_stack phys_base esp exec_cmd as).1 = true) :
    (setup_stack phys_base esp exec_cmd as).2.1 =
      phys_base - roundup4 (strings_size ts) - 4 * (ts.length + 4) ∧
    (setup_stack phys_base esp exec_cmd as).2.2.mem =
      (push_frame phys_base exec_cmd (map_stack_page phys_base esp as).2.2.mem).2 := by
  rw [setup_stack_eq] at hmap ⊢
  have h2 := map_stack_page_ok phys_base esp as hmap
  have h4 : phys_base % 4 = 0 := by unfold PGSIZE at hpb; omega
  unfold PGSIZE at hfit hfit2
  have h3 := (push_frame_layout phys_base exec_cmd ts (map_stack_page phys_base esp as).2.2.mem
    hsplit hbytes h4 hpb2 (by omega)).1
  simp only [h2]
  exact ⟨h3, trivial⟩

/-- C1: for a command line (a C string) whose space-separated tokens are
t_0 .. t_(n-1), n >= 1, and fit in the stack page, once the stack page is
mapped, `setup_stack` leaves argc = n in the word at esp + 4, and for every
i < n the word at esp + 12 + 4 * i is the address of the bytes of t_i followed
by a zero byte: argv lists the tokens in their original order. -/
theorem setup_stack_argc_argv (phys_base esp : Nat) (exec_cmd : List Nat)
    (ts : List (List Nat)) (as : AddrSpace)
    (hpb : phys_base % PGSIZE = 0) (hpb1 : PGSIZE ≤ phys_base) (hpb2 : phys_base < W32)
    (hcmd : ∀ c ∈ exec_cmd, c ≠ 0 ∧ c < 256)
    (hsplit : split_spaces exec_cmd = ts) (_hn : 1 ≤ ts.length)
    (hfit : roundup4 (strings_size ts) + 4 * (ts.length + 4) ≤ PGSIZE)
    (hmap : (setup_stack phys_base esp exec_cmd as).1 = true) :
    load32 (setup_stack phys_base esp exec_cmd as).2.2.mem
      ((setup_stack phys_base esp exec_cmd as).2.1 + 4) = ts.length ∧
    ∀ i, i < ts.length →
      read_bytes (setup_stack phys_base esp exec_cmd as).2.2.mem
        (load32 (setup_stack phys_base esp exec_cmd as).2.2.mem
          ((setup_stack phys_base esp exec_cmd as).2.1 + 12 + 4 * i))
        ((ts.getD i []).length + 1) = ts.getD i [] ++ [0] := by
  have hbytes : ∀ c ∈ exec_cmd, c < 256 := fun c hc => (hcmd c hc).2
  have hts : ∀ t ∈ ts, ∀ c ∈ t, c < 256 := fun t ht c hc =>
    hbytes c (split_spaces_mem exec_cmd t (by rw [hsplit]; exact ht) c hc)
  obtain ⟨e1, e2⟩ := setup_stack_layout phys_base esp exec_cmd ts as hpb hpb2 hsplit hbytes
    hfit hpb1 hmap
  have h4 : phys_base % 4 = 0 := by unfold PGSIZE at hpb; omega
  unfold PGSIZE at hfit hpb1
  obtain ⟨_, _, l2, _, l4, _, l6, _⟩ :=
    push_frame_layout phys_base exec_cmd ts (map_stack_page phys_base esp as).2.2.mem hsplit
      hbytes h4 hpb2 (by omega)
  obtain ⟨r1, _, _⟩ := roundup4_facts (strings_size ts)
  obtain ⟨_, _, _, c4⟩ := copy_list_spec ts
    { mem := (map_stack_page phys_base esp as).2.2.mem, byte_page_ptr := phys_base,
      arg_addrs := [] }
    hts (by simp only; omega) hpb2
  rw [e1, e2]
  refine ⟨l2, fun i hi => ?_⟩
  rw [l4 i hi]
  have hb := token_addrs_bounds ts phys_base i (by omega) hi
  rw [read_bytes_congr _ _ _ _ (fun j _ => l6 _ (by omega))]
  exact c4 i hi

/-- C1 at "prog arg1 arg2" with PHYS_BASE = 0xc0000000: argc is 3 and argv
points to "prog", "arg1", "arg2" in this order. -/
theorem setup_stack_argc_argv_witness :
    load32 (setup_stack 3221225472 0 (bytes "prog arg1 arg2") (fresh_space 1)).2.2.mem
      ((setup_stack 3221225472 0 (bytes "prog arg1 arg2") (fresh_space 1)).2.1 + 4) = 3 ∧
    read_bytes (setup_stack 3221225472 0 (bytes "prog arg1 arg2") (fresh_space 1)).2.2.mem
      (load32 (setup_stack 3221225472 0 (bytes "prog arg1 arg2") (fresh_space 1)).2.2.mem
        ((setup_stack 3221225472 0 (bytes "prog arg1 arg2") (fresh_space 1)).2.1 + 12))
      5 = bytes "prog" ++ [0] ∧
    read_bytes (setup_stack 3221225472 0 (bytes "prog arg1 arg2") (fresh_space 1)).2.2.mem
      (load32 (setup_stack 3221225472 0 (bytes "prog arg1 arg2") (fresh_space 1)).2.2.mem
        ((setup_stack 3221225472 0 (bytes "prog arg1 arg2") (fresh_space 1)).2.1 + 12 + 4))
      5 = bytes "arg1" ++ [0] ∧
    read_bytes (setup_stack 3221225472 0 (bytes "prog arg1 arg2") (fresh_space 1)).2.2.mem
      (load32 (setup_stack 3221225472 0 (bytes "prog arg1 arg2") (fresh_space 1)).2.2.mem
        ((setup_stack 3221225472 0 (bytes "prog arg1 arg2") (fresh_space 1)).2.1 + 12 + 8))
      5 = bytes "arg2" ++ [0] := by
  have h := setup_stack_argc_argv 3221225472 0 (bytes "prog arg1 arg2")
    [bytes "prog", bytes "arg1", bytes "arg2"] (fresh_space 1) (by decide) (by decide)
    (by decide) (by decide) (by decide) (by decide) (by decide) (by decide)
  exact ⟨h.1, h.2 0 (by decide), h.2 1 (by decide), h.2 2 (by decide)⟩

/-- C2: for a command line (a C string) whose n >= 1 space-separated tokens
fit in the stack page, the frame that `setup_stack` builds in the mapped stack page
reads, from the returned esp upward: the word 0 (dummy return address), the
argument count n, the address esp + 12 of the argument-pointer vector, the n
words of the vector from esp + 12, and the null pointer 0 at esp + 12 + 4 * n;
every word of the vector points to a string that lies above that null pointer
and ends at or below PHYS_BASE. -/
theorem setup_stack_frame (phys_base esp : Nat) (exec_cmd : List Nat)
    (ts : List (List Nat)) (as : AddrSpace)
    (hpb : phys_base % PGSIZE = 0) (hpb1 : PGSIZE ≤ phys_base) (hpb2 : phys_base < W32)
    (hcmd : ∀ c ∈ exec_cmd, c ≠ 0 ∧ c < 256)
    (hsplit : split_spaces exec_cmd = ts) (_hn : 1 ≤ ts.length)
    (hfit : roundup4 (strings_size ts) + 4 * (ts.length + 4) ≤ PGSIZE)
    (hmap : (setup_stack phys_base esp exec_cmd as).1 = true) :
    load32 (setup_stack phys_base esp exec_cmd as).2.2.mem
      (setup_stack phys_base esp exec_cmd as).2.1 = 0 ∧
    load32 (setup_stack phys_base esp exec_cmd as).2.2.mem
      ((setup_stack phys_base esp exec_cmd as).2.1 + 4) = ts.length ∧
    load32 (setup_stack phys_base esp exec_cmd as).2.2.mem
      ((setup_stack phys_base esp exec_cmd as).2.1 + 8) =
      (setup_stack phys_base esp exec_cmd as).2.1 + 12 ∧
    load32 (setup_stack phys_base esp exec_cmd as).2.2.mem
      ((setup_stack phys_base esp exec_cmd as).2.1 + 12 + 4 * ts.length) = 0 ∧
    ∀ i, i < ts.length →
      (setup_stack phys_base esp exec_cmd as).2.1 + 12 + 4 * ts.length + 4 ≤
        load32 (setup_stack phys_base esp exec_cmd as).2.2.mem
          ((setup_stack phys_base esp exec_cmd as).2.1 + 12 + 4 * i) ∧
      load32 (setup_stack phys_base esp exec_cmd as).2.2.mem
          ((setup_stack phys_base esp exec_cmd as).2.1 + 12 + 4 * i) +
        ((ts.getD i []).length + 1) ≤ phys_base := by
  have hbytes : ∀ c ∈ exec_cmd, c < 256 := fun c hc => (hcmd c hc).2
  have hts : ∀ t ∈ ts, ∀ c ∈ t, c < 256 := fun t ht c hc =>
    hbytes c (split_spaces_mem exec_cmd t (by rw [hsplit]; exact ht) c hc)
  obtain ⟨e1, e2⟩ := setup_stack_layout phys_base esp exec_cmd ts as hpb hpb2 hsplit hbytes
    hfit hpb1 hmap
  have h4 : phys_base % 4 = 0 := by unfold PGSIZE at hpb; omega
  unfold PGSIZE at hfit hpb1
  obtain ⟨_, l1, l2, l3, l4, l5, _, _⟩ :=
    push_frame_layout phys_base exec_cmd ts (map_stack_page phys_base esp as).2.2.mem hsplit
      hbytes h4 hpb2 (by omega)
  obtain ⟨r1, _, _⟩ := roundup4_facts (strings_size ts)
  rw [e1, e2]
  refine ⟨l1, l2, l3, l5, fun i hi => ?_⟩
  rw [l4 i hi]
  have hb := token_addrs_bounds ts phys_base i (by omega) hi
  omega

/-- C2 at "prog arg1 arg2" with PHYS_BASE = 0xc0000000: esp is 0xbfffffd4 and
the frame holds 0, 3, esp + 12, three pointers above the frame, 0. -/
theorem setup_stack_frame_witness :
    load32 (setup_stack 3221225472 0 (bytes "prog arg1 arg2") (fresh_space 1)).2.2.mem
      (setup_stack 3221225472 0 (bytes "prog arg1 arg2") (fresh_space 1)).2.1 = 0 ∧
    load32 (setup_stack 3221225472 0 (bytes "prog arg1 arg2") (fresh_space 1)).2.2.mem
      ((setup_stack 3221225472 0 (bytes "prog arg1 arg2") (fresh_space 1)).2.1 + 4) = 3 ∧
    load32 (setup_stack 3221225472 0 (bytes "prog arg1 arg2") (fresh_space 1)).2.2.mem
      ((setup_stack 3221225472 0 (bytes "prog arg1 arg2") (fresh_space 1)).2.1 + 8) =
      (setup_stack 3221225472 0 (bytes "prog arg1 arg2") (fresh_space 1)).2.1 + 12 ∧
    load32 (setup_stack 3221225472 0 (bytes "prog arg1 arg2") (fresh_space 1)).2.2.mem
      ((setup_stack 3221225472 0 (bytes "prog arg1 arg2") (fresh_space 1)).2.1 + 12 + 12) = 0 :=
  have h := setup_stack_frame 3221225472 0 (bytes "prog arg1 arg2")
    [bytes "prog", bytes "arg1", bytes "arg2"] (fresh_space 1) (by decide) (by decide)
    (by decide) (by decide) (by decide) (by decide) (by decide) (by decide)
  ⟨h.1, h.2.1, h.2.2.1, h.2.2.2.1⟩

theorem setup_stack_example :
    (setup_stack 3221225472 0 (bytes "prog arg1 arg2") (fresh_space 1)).1 = true ∧
    (setup_stack 3221225472 0 (bytes "prog arg1 arg2") (fresh_space 1)).2.1 = 3221225428 ∧
    read_bytes (setup_stack 3221225472 0 (bytes "prog arg1 arg2") (fresh_space 1)).2.2.mem
      3221225428 44 =
      [0, 0, 0, 0, 3, 0, 0, 0, 224, 255, 255, 191, 251, 255, 255, 191, 246, 255, 255, 191,
       241, 255, 255, 191, 0, 0, 0, 0, 0, 97, 114, 103, 50, 0, 97, 114, 103, 49, 0,
       112, 114, 111, 103, 0] := by
  decide

/-! ## Lemmas on process_wait and process_exit -/

theorem modify_heap_same (k : Kernel) (w : Nat) (f : wait_status → wait_status) :
    (k.modify w f).heap w = f (k.heap w) := by
  simp [Kernel.modify]

theorem modify_heap_other (k : Kernel) (w x : Nat) (f : wait_status → wait_status)
    (h : x ≠ w) : (k.modify w f).heap x = k.heap x := by
  simp [Kernel.modify, h]

theorem run_exit_append (cur : Nat) (k : Kernel) (xs ys : List ExitAction) :
    run_exit cur k (xs ++ ys) = run_exit cur (run_exit cur k xs) ys := by
  simp [run_exit, List.foldl_append]

theorem check_child_fields (cur : Nat) (k : Kernel) (c : Nat) :
    (exit_step cur k (ExitAction.check_child c)).threads = k.threads ∧
    (exit_step cur k (ExitAction.check_child c)).heap = k.heap ∧
    (exit_step cur k (ExitAction.check_child c)).freed = k.freed ∧
    (exit_step cur k (ExitAction.check_child c)).dead_children cur =
      if (k.heap c).ref_count = 0 then k.dead_children cur ++ [c] else k.dead_children cur := by
  simp only [exit_step]
  by_cases h : (k.heap c).ref_count = 0 <;> simp [h]

theorem dec_child_fields (cur : Nat) (k : Kernel) (c : Nat) :
    (exit_step cur k (ExitAction.dec_child c)).threads = k.threads ∧
    (exit_step cur k (ExitAction.dec_child c)).freed = k.freed ∧
    (exit_step cur k (ExitAction.dec_child c)).dead_children = k.dead_children ∧
    (exit_step cur k (ExitAction.dec_child c)).heap c =
      { k.heap c with ref_count := (k.heap c).ref_count - 1 } ∧
    ∀ x, x ≠ c → (exit_step cur k (ExitAction.dec_child c)).heap x = k.heap x := by
  refine ⟨rfl, rfl, rfl, ?_, ?_⟩
  · simp [exit_step, Kernel.modify]
  · intro x hx
    simp [exit_step, Kernel.modify, hx]

/-- Effect of the loop of `process_exit` over the children list. -/
theorem exit_children_spec (cur : Nat) (cs : List Nat) : ∀ (k : Kernel),
    (run_exit cur k (exit_children cs)).threads = k.threads ∧
    (run_exit cur k (exit_children cs)).freed = k.freed ∧
    (∀ x, (run_exit cur k (exit_children cs)).heap x =
      { k.heap x with ref_count := (k.heap x).ref_count - (cs.count x : Int) }) ∧
    (∀ w, (((run_exit cur k (exit_children cs)).dead_children cur).count w : Int) =
      ((k.dead_children cur).count w : Int) +
        (if 0 < (k.heap w).ref_count ∧ (k.heap w).ref_count ≤ (cs.count w : Int) then 1 else 0))
    := by
  induction cs with
  | nil =>
    intro k
    refine ⟨rfl, rfl, fun x => by simp [run_exit, exit_children], fun w => ?_⟩
    have : ¬ (0 < (k.heap w).ref_count ∧ (k.heap w).ref_count ≤ 0) := by omega
    simp [run_exit, exit_children, this]
  | cons c cs ih =>
    intro k
    have hrun : run_exit cur k (exit_children (c :: cs)) =
        run_exit cur (exit_step cur (exit_step cur k (ExitAction.dec_child c))
          (ExitAction.check_child c)) (exit_children cs) := rfl
    rw [hrun]
    obtain ⟨i1, i2, i3, i4⟩ := ih (exit_step cur (exit_step cur k (ExitAction.dec_child c))
      (ExitAction.check_child c))
    obtain ⟨d1, d2, d3, d4, d5⟩ := dec_child_fields cur k c
    obtain ⟨e1, e2, e3, e4⟩ := check_child_fields cur (exit_step cur k (ExitAction.dec_child c)) c
    have hheap : ∀ x, (exit_step cur (exit_step cur k (ExitAction.dec_child c))
        (ExitAction.check_child c)).heap x =
        if x = c then { k.heap x with ref_count := (k.heap x).ref_count - 1 } else k.heap x := by
      intro x
      rw [e2]
      by_cases hx : x = c
      · subst hx; simp [d4]
      · simp [hx, d5 x hx]
    have hdead : (exit_step cur (exit_step cur k (ExitAction.dec_child c))
        (ExitAction.check_child c)).dead_children cur =
        if (k.heap c).ref_count - 1 = 0 then k.dead_children cur ++ [c]
        else k.dead_children cur := by
      rw [e4, d4, d3]
    refine ⟨?_, ?_, ?_, ?_⟩
    · rw [i1, e1, d1]
    · rw [i2, e3, d2]
    · intro x
      rw [i3 x, hheap x]
      by_cases hx : x = c
      · subst hx
        simp only [if_true, List.count_cons_self]
        congr 1
        push_cast
        omega
      · have hcx : (c == x) = false := by simpa using fun h => hx h.symm
        simp only [hx, if_false, List.count_cons, hcx]
        simp
    · intro w
      rw [i4 w, hheap w, hdead]
      by_cases hw : w = c
      · subst hw
        simp only [if_true, List.count_cons_self]
        push_cast
        by_cases h0 : (k.heap w).ref_count - 1 = 0
        · have e1 : (k.heap w).ref_count = 1 := by omega
          simp only [h0, if_true, List.count_append, List.count_singleton_self, e1]
          have : ¬ ((0 : Int) < 1 - 1 ∧ (1 : Int) - 1 ≤ (List.count w cs : Int)) := by omega
          have h2 : ((0 : Int) < 1 ∧ (1 : Int) ≤ (List.count w cs : Int) + 1) := by omega
          have hc : List.count w (k.dead_children cur ++ [w]) =
              List.count w (k.dead_children cur) + 1 := by simp
          simp only [this, h2, if_false, if_true, and_self]
          push_cast
          omega
        · simp only [h0, if_false]
          by_cases h3 : 0 < (k.heap w).ref_count - 1 ∧
              (k.heap w).ref_count - 1 ≤ (List.count w cs : Int)
          · have h4 : 0 < (k.heap w).ref_count ∧
                (k.heap w).ref_count ≤ (List.count w cs : Int) + 1 := by omega
            simp only [h3, h4, and_self, if_true]
          · have h4 : ¬ (0 < (k.heap w).ref_count ∧
                (k.heap w).ref_count ≤ (List.count w cs : Int) + 1) := by omega
            simp only [h3, h4, if_false]
      · have hcw : (c == w) = false := by simpa using fun h => hw h.symm
        simp only [hw, if_false, List.count_cons, hcw]
        have hcnt : (if (k.heap c).ref_count - 1 = 0 then k.dead_children cur ++ [c]
            else k.dead_children cur).count w = (k.dead_children cur).count w := by
          split
          · rw [List.count_append]
            simp [List.count_singleton, hcw]
          · rfl
        rw [hcnt]
        simp

/-- State of `process_exit` when it reaches the loop over the children list. -/
theorem exit_head_spec (cur : Nat) (k : Kernel) :
    (run_exit cur k [ExitAction.publish, ExitAction.dec_own, ExitAction.sema_up_own,
      ExitAction.check_own, ExitAction.close_dir, ExitAction.init_dead]).threads = k.threads ∧
    (∀ x, (run_exit cur k [ExitAction.publish, ExitAction.dec_own, ExitAction.sema_up_own,
      ExitAction.check_own, ExitAction.close_dir, ExitAction.init_dead]).heap x =
      if x = (k.threads cur).own_wait_status then
        { pid := (k.heap x).pid,
          exit_code := if (k.heap x).valid then (k.heap x).exit_code else -1,
          valid := true,
          parent_waited := (k.heap x).parent_waited,
          ref_count := (k.heap x).ref_count - 1,
          sema := (k.heap x).sema + 1 }
      else k.heap x) ∧
    (run_exit cur k [ExitAction.publish, ExitAction.dec_own, ExitAction.sema_up_own,
      ExitAction.check_own, ExitAction.close_dir, ExitAction.init_dead]).freed =
      (if (k.heap (k.threads cur).own_wait_status).ref_count - 1 = 0
        then k.freed ++ [(k.threads cur).own_wait_status] else k.freed) ∧
    (run_exit cur k [ExitAction.publish, ExitAction.dec_own, ExitAction.sema_up_own,
      ExitAction.check_own, ExitAction.close_dir, ExitAction.init_dead]).dead_children cur = []
    := by
  generalize hw : (k.threads cur).own_wait_status = w
  cases hv : (k.heap w).valid <;>
  by_cases hr : (k.heap w).ref_count - 1 = 0 <;>
  cases hd : (k.threads cur).working_dir <;>
  refine ⟨?_, ?_, ?_, ?_⟩ <;>
  first
    | (intro x
       by_cases hx : x = w
       · subst hx
         simp [run_exit, exit_step, Kernel.modify, hw, hv, hr, hd]
       · simp [run_exit, exit_step, Kernel.modify, hw, hv, hr, hd, hx])
    | simp [run_exit, exit_step, Kernel.modify, hw, hv, hr, hd]

theorem exit_tail_spec (cur : Nat) (k : Kernel) :
    (∀ t, ((run_exit cur k [ExitAction.free_dead, ExitAction.teardown]).threads t).children =
        (k.threads t).children ∧
      ((run_exit cur k [ExitAction.free_dead, ExitAction.teardown]).threads t).own_wait_status =
        (k.threads t).own_wait_status) ∧
    (run_exit cur k [ExitAction.free_dead, ExitAction.teardown]).heap = k.heap ∧
    (run_exit cur k [ExitAction.free_dead, ExitAction.teardown]).freed =
      k.freed ++ k.dead_children cur := by
  cases hp : (k.threads cur).pagedir
  · simp [run_exit, exit_step, hp]
  · refine ⟨fun t => ?_, ?_, ?_⟩
    · by_cases ht : t = cur
      · subst ht; simp [run_exit, exit_step, hp]
      · simp [run_exit, exit_step, hp, ht]
    · simp [run_exit, exit_step, hp]
    · simp [run_exit, exit_step, hp]

/-- Effect of `process_exit` on the children lists, the wait statuses and the
list of freed addresses. -/
theorem process_exit_spec (cur : Nat) (k : Kernel) :
    (∀ t, ((process_exit cur k).threads t).children = (k.threads t).children ∧
      ((process_exit cur k).threads t).own_wait_status = (k.threads t).own_wait_status) ∧
    (∀ x, (process_exit cur k).heap x =
      { pid := (k.heap x).pid,
        exit_code := if x = (k.threads cur).own_wait_status ∧ (k.heap x).valid = false then -1
          else (k.heap x).exit_code,
        valid := if x = (k.threads cur).own_wait_status then true else (k.heap x).valid,
        parent_waited := (k.heap x).parent_waited,
        ref_count := (k.heap x).ref_count -
          (if x = (k.threads cur).own_wait_status then 1 else 0) -
          ((k.threads cur).children.count x : Int),
        sema := (k.heap x).sema + (if x = (k.threads cur).own_wait_status then 1 else 0) }) ∧
    (∀ x, ((process_exit cur k).freed.count x : Int) = (k.freed.count x : Int) +
      (if x = (k.threads cur).own_wait_status ∧ (k.heap x).ref_count - 1 = 0 then 1 else 0) +
      (if 0 < (k.heap x).ref_count - (if x = (k.threads cur).own_wait_status then 1 else 0) ∧
          (k.heap x).ref_count - (if x = (k.threads cur).own_wait_status then 1 else 0) ≤
            ((k.threads cur).children.count x : Int) then 1 else 0)) := by
  obtain ⟨h1, h2, h3, h4⟩ := exit_head_spec cur k
  have hsplit : process_exit cur k =
      run_exit cur (run_exit cur (run_exit cur k [ExitAction.publish, ExitAction.dec_own,
        ExitAction.sema_up_own, ExitAction.check_own, ExitAction.close_dir,
        ExitAction.init_dead]) (exit_children (k.threads cur).children))
        [ExitAction.free_dead, ExitAction.teardown] := by
    unfold process_exit exit_program
    rw [run_exit_append, run_exit_append]
  generalize run_exit cur k [ExitAction.publish, ExitAction.dec_own,
    ExitAction.sema_up_own, ExitAction.check_own, ExitAction.close_dir,
    ExitAction.init_dead] = kh at h1 h2 h3 h4 hsplit
  obtain ⟨c1, c2, c3, c4⟩ := exit_children_spec cur (k.threads cur).children kh
  obtain ⟨t1, t2, t3⟩ := exit_tail_spec cur (run_exit cur kh (exit_children (k.threads cur).children))
  rw [hsplit]
  generalize (k.threads cur).own_wait_status = w at *
  refine ⟨fun t => ?_, fun x => ?_, fun x => ?_⟩
  · rw [(t1 t).1, (t1 t).2, c1, h1]
    exact ⟨rfl, rfl⟩
  · rw [t2, c3 x, h2 x]
    by_cases hx : x = w
    · subst hx
      cases hv : (k.heap x).valid <;> simp [hv]
    · simp [hx]
  · rw [t3, List.count_append, c2, h3]
    push_cast
    rw [c4 x, h4, h2 x]
    by_cases hx : x = w
    · subst hx
      by_cases hr : (k.heap x).ref_count - 1 = 0
      · simp [hr]
      · simp [hr]
    · have hc : List.count x [w] = 0 := by
        simp [List.count_singleton, Ne.symm hx]
      by_cases hr : (k.heap w).ref_count - 1 = 0
      · simp [hx, hr, List.count_append, hc]
      · simp [hx, hr]

theorem find_child_congr (k k1 : Kernel) (child_tid : Int)
    (h : ∀ x, (k1.heap x).pid = (k.heap x).pid) (l : List Nat) :
    find_child k1 child_tid l = find_child k child_tid l := by
  induction l with
  | nil => rfl
  | cons e es ih => simp only [find_child, h e, ih]

theorem find_child_mem (k : Kernel) (child_tid : Int) (l : List Nat) (c : Nat)
    (h : find_child k child_tid l = some c) : c ∈ l ∧ (k.heap c).pid = child_tid := by
  induction l with
  | nil => simp [find_child] at h
  | cons e es ih =>
    simp only [find_child] at h
    by_cases he : (k.heap e).pid = child_tid
    · simp only [he, if_true, Option.some.injEq] at h
      subst h
      exact ⟨List.mem_cons_self _ _, he⟩
    · simp only [he, if_false] at h
      exact ⟨List.mem_cons_of_mem _ (ih h).1, (ih h).2⟩

theorem find_child_none (k : Kernel) (child_tid : Int) (l : List Nat)
    (h : ∀ e ∈ l, (k.heap e).pid ≠ child_tid) : find_child k child_tid l = none := by
  induction l with
  | nil => rfl
  | cons e es ih =>
    simp only [find_child, h e (List.mem_cons_self _ _), if_false]
    exact ih (fun e1 h1 => h e1 (List.mem_cons_of_mem _ h1))

/-- The search of `process_wait` finds the first entry of the list whose pid is
`child_tid`: it passes over the entries before it, whose pid differs. -/
theorem find_child_first (k : Kernel) (child_tid : Int) (c : Nat) (post : List Nat) :
    ∀ (pre : List Nat), (∀ e ∈ pre, (k.heap e).pid ≠ child_tid) →
      (k.heap c).pid = child_tid →
      find_child k child_tid (pre ++ c :: post) = some c := by
  intro pre
  induction pre with
  | nil =>
    intro _ hpid
    simp only [List.nil_append, find_child, hpid, if_true]
  | cons e es ih =>
    intro hpre hpid
    simp only [List.cons_append, find_child, hpre e (List.mem_cons_self _ _), if_false]
    exact ih (fun e1 h1 => hpre e1 (List.mem_cons_of_mem _ h1)) hpid

theorem keeps_refl (k : Kernel) : keeps k k :=
  ⟨fun _ => rfl, fun _ => rfl, fun _ h => h⟩

theorem keeps_trans (k k1 k2 : Kernel) (h1 : keeps k k1) (h2 : keeps k1 k2) : keeps k k2 :=
  ⟨fun t => (h2.1 t).trans (h1.1 t), fun x => (h2.2.1 x).trans (h1.2.1 x),
    fun x h => h2.2.2 x (h1.2.2 x h)⟩

theorem keeps_modify_pw (k : Kernel) (c : Nat) :
    keeps k (k.modify c (fun s => { s with parent_waited := true })) := by
  refine ⟨fun _ => rfl, fun x => ?_, fun x h => ?_⟩
  · by_cases hx : x = c <;> simp [Kernel.modify, hx]
  · by_cases hx : x = c
    · simp [Kernel.modify, hx]
    · simpa [Kernel.modify, hx] using h

theorem keeps_resume (k : Kernel) (c : Nat) : keeps k (process_wait_resume c k).state := by
  unfold process_wait_resume
  by_cases hs : (k.heap c).sema = 0
  · simp only [hs, if_true, WaitResult.state]
    exact keeps_refl k
  · simp only [hs, if_false, WaitResult.state]
    refine ⟨fun _ => rfl, fun x => ?_, fun x h => ?_⟩
    · by_cases hx : x = c <;> simp [Kernel.modify, hx]
    · by_cases hx : x = c
      · subst hx; simpa [Kernel.modify] using h
      · simpa [Kernel.modify, hx] using h

theorem keeps_wait (p : Nat) (child_tid : Int) (k : Kernel) :
    keeps k (process_wait p child_tid k).state := by
  unfold process_wait
  cases find_child k child_tid (k.threads p).children with
  | none => exact keeps_refl k
  | some c =>
    simp only
    by_cases hw : (k.heap c).parent_waited = true
    · simp only [hw, if_true, WaitResult.state]
      exact keeps_refl k
    · simp only [hw]
      exact keeps_trans _ _ _ (keeps_modify_pw k c) (keeps_resume _ c)

theorem keeps_exit (t : Nat) (k : Kernel) : keeps k (process_exit t k) := by
  obtain ⟨h1, h2, _⟩ := process_exit_spec t k
  refine ⟨fun u => (h1 u).1, fun x => by rw [h2 x], fun x h => by rw [h2 x]; exact h⟩

theorem keeps_events (p : Nat) (evs : List Event) : ∀ k, keeps k (run_events p k evs) := by
  induction evs with
  | nil => intro k; exact keeps_refl k
  | cons e es ih =>
    intro k
    have hstep : keeps k (run_event p k e) := by
      cases e with
      | exit t => exact keeps_exit t k
      | wait tid => exact keeps_wait p tid k
      | wake c => exact keeps_resume k c
    exact keeps_trans _ _ _ hstep (ih _)

theorem process_wait_waited (p : Nat) (child_tid : Int) (k : Kernel) (c : Nat)
    (hfind : find_child k child_tid (k.threads p).children = some c)
    (hw : (k.heap c).parent_waited = true) :
    process_wait p child_tid k = WaitResult.returned (-1) k := by
  simp [process_wait, hfind, hw]

theorem process_wait_blocks (p : Nat) (child_tid : Int) (k : Kernel) (c : Nat)
    (hfind : find_child k child_tid (k.threads p).children = some c)
    (hw : (k.heap c).parent_waited = false) (hs : (k.heap c).sema = 0) :
    process_wait p child_tid k =
      WaitResult.blocked c (k.modify c (fun s => { s with parent_waited := true })) := by
  simp [process_wait, process_wait_resume, hfind, hw, hs, Kernel.modify]

theorem process_wait_returns (p : Nat) (child_tid : Int) (k : Kernel) (c : Nat)
    (hfind : find_child k child_tid (k.threads p).children = some c)
    (hw : (k.heap c).parent_waited = false) (hs : (k.heap c).sema ≠ 0) :
    ∃ k1, process_wait p child_tid k = WaitResult.returned (k.heap c).exit_code k1 := by
  simp [process_wait, process_wait_resume, hfind, hw, hs, Kernel.modify]

theorem process_wait_resume_returns (k : Kernel) (c : Nat) (hs : (k.heap c).sema ≠ 0) :
    ∃ k1, process_wait_resume c k = WaitResult.returned (k.heap c).exit_code k1 := by
  simp [process_wait_resume, hs, Kernel.modify]

theorem process_wait_sets_flag (p : Nat) (child_tid : Int) (k : Kernel) (c : Nat)
    (hfind : find_child k child_tid (k.threads p).children = some c) :
    ((process_wait p child_tid k).state.heap c).parent_waited = true := by
  by_cases hw : (k.heap c).parent_waited = true
  · rw [process_wait_waited p child_tid k c hfind hw]
    exact hw
  · have : process_wait p child_tid k = process_wait_resume c
        (k.modify c (fun s => { s with parent_waited := true })) := by
      simp [process_wait, hfind, hw]
    rw [this]
    exact (keeps_resume _ c).2.2 c (by simp [Kernel.modify])

/-- C3: let `c` be the wait status of the child `child_tid` in the caller's
children list, that is the first entry of the list whose pid is `child_tid`
(the entries `pre` before it have another pid), not waited on yet (fresh
semaphore, ref_count 2). Then `process_wait (child_tid)` returns the exit
code that the child's `process_exit` records in `c`, in both orders: when
process_exit has run to completion first (the semaphore then holds one signal
and the status has not been freed, so the wait does not sleep), and when
process_wait runs first, sleeps in sema_down, and goes on after the child's
process_exit. -/
theorem process_wait_exit_order (k : Kernel) (p ch : Nat) (child_tid : Int) (c : Nat)
    (pre post : List Nat)
    (hlist : (k.threads p).children = pre ++ c :: post)
    (hpre : ∀ e ∈ pre, (k.heap e).pid ≠ child_tid)
    (hpid : (k.heap c).pid = child_tid)
    (hw : (k.heap c).parent_waited = false)
    (hown : (k.threads ch).own_wait_status = c)
    (hrc : (k.heap c).ref_count = 2)
    (hs : (k.heap c).sema = 0)
    (hnc : c ∉ (k.threads ch).children)
    (hfr : c ∉ k.freed) :
    ((process_exit ch k).heap c).exit_code =
      (if (k.heap c).valid then (k.heap c).exit_code else -1) ∧
    ((process_exit ch k).heap c).sema = 1 ∧
    c ∉ (process_exit ch k).freed ∧
    (∃ kA, process_wait p child_tid (process_exit ch k) =
      WaitResult.returned ((process_exit ch k).heap c).exit_code kA) ∧
    (∃ kB, process_wait p child_tid k = WaitResult.blocked c kB ∧
      ∃ kB1, process_wait_resume c (process_exit ch kB) =
        WaitResult.returned ((process_exit ch k).heap c).exit_code kB1) := by
  have hfind : find_child k child_tid (k.threads p).children = some c := by
    rw [hlist]
    exact find_child_first k child_tid c post pre hpre hpid
  obtain ⟨t1, h1, f1⟩ := process_exit_spec ch k
  have hcnt : (k.threads ch).children.count c = 0 := List.count_eq_zero.mpr hnc
  have hcode : ((process_exit ch k).heap c).exit_code =
      (if (k.heap c).valid then (k.heap c).exit_code else -1) := by
    rw [h1 c]
    cases hv : (k.heap c).valid <;> simp [hown, hv]
  have hsema : ((process_exit ch k).heap c).sema = 1 := by
    rw [h1 c]
    simp [hown, hs]
  refine ⟨hcode, hsema, ?_, ?_, ?_⟩
  · have hf := f1 c
    rw [hown, hrc, hcnt, List.count_eq_zero.mpr hfr] at hf
    simp at hf
    exact List.count_eq_zero.mp hf
  · have hfind1 : find_child (process_exit ch k) child_tid
        ((process_exit ch k).threads p).children = some c := by
      rw [(t1 p).1, find_child_congr k (process_exit ch k) child_tid (fun x => by rw [h1 x])]
      exact hfind
    exact process_wait_returns p child_tid _ c hfind1 (by rw [h1 c]; exact hw)
      (by rw [hsema]; decide)
  · refine ⟨_, process_wait_blocks p child_tid k c hfind hw hs, ?_⟩
    obtain ⟨_, h2, _⟩ := process_exit_spec ch
      (k.modify c (fun s => { s with parent_waited := true }))
    have hthr : ((k.modify c (fun s => { s with parent_waited := true })).threads
        ch).own_wait_status = c := hown
    have hkb := modify_heap_same k c (fun s => { s with parent_waited := true })
    have hsema2 : ((process_exit ch
        (k.modify c (fun s => { s with parent_waited := true }))).heap c).sema ≠ 0 := by
      rw [h2 c, hthr]
      simp
    obtain ⟨kB1, hB1⟩ := process_wait_resume_returns _ c hsema2
    refine ⟨kB1, ?_⟩
    rw [hB1, hcode, h2 c, hthr, hkb]
    cases hv : (k.heap c).valid <;> simp [hv]

/-- C3 for a parent with two children, where the child waited for (thread 2,
status at address 100) is the second entry of the children list and recorded
exit code 7: whether the child exits before the parent waits or after the
parent went to sleep in process_wait, the value that process_wait returns is
the exit code that process_exit left in the status of that child. -/
theorem process_wait_exit_order_witness :
    ((process_exit 2 (three_procs 7)).heap 100).exit_code = 7 ∧
    (∃ kA, process_wait 1 2 (process_exit 2 (three_procs 7)) =
      WaitResult.returned ((process_exit 2 (three_procs 7)).heap 100).exit_code kA) ∧
    (∃ kB, process_wait 1 2 (three_procs 7) = WaitResult.blocked 100 kB ∧
      ∃ kB1, process_wait_resume 100 (process_exit 2 kB) =
        WaitResult.returned ((process_exit 2 (three_procs 7)).heap 100).exit_code kB1) :=
  have h := process_wait_exit_order (three_procs 7) 1 2 2 100 [300] [] (by decide) (by decide)
    (by decide) (by decide) (by decide) (by decide) (by decide) (by decide) (by decide)
  ⟨h.1, h.2.2.2.1, h.2.2.2.2⟩

/-- C4: when `child_tid` is the pid of an entry `c` of the caller's children
list and one `process_wait` on it has returned (at once, or after sleeping in
sema_down and being woken), every later `process_wait` on the same id by the
same parent, whatever exits and waits happen in between, returns -1 and leaves
the kernel state as it found it (so no sema_down is performed); the flag
parent_waited of the entry is set and the entry is still in the children list. -/
theorem process_wait_twice (k : Kernel) (p : Nat) (child_tid : Int) (c : Nat) (v : Int)
    (k1 : Kernel) (evs : List Event)
    (hfind : find_child k child_tid (k.threads p).children = some c)
    (hfirst : process_wait p child_tid k = WaitResult.returned v k1 ∨
      ∃ kb evs0, process_wait p child_tid k = WaitResult.blocked c kb ∧
        process_wait_resume c (run_events p kb evs0) = WaitResult.returned v k1) :
    process_wait p child_tid (run_events p k1 evs) =
      WaitResult.returned (-1) (run_events p k1 evs) ∧
    ((run_events p k1 evs).heap c).parent_waited = true ∧
    ((run_events p k1 evs).threads p).children = (k.threads p).children ∧
    c ∈ ((run_events p k1 evs).threads p).children := by
  have hflag := process_wait_sets_flag p child_tid k c hfind
  have hk := keeps_wait p child_tid k
  have hk1 : keeps k k1 ∧ (k1.heap c).parent_waited = true := by
    rcases hfirst with h | ⟨kb, evs0, hb, hr⟩
    · rw [h] at hflag hk
      exact ⟨hk, hflag⟩
    · rw [hb] at hflag hk
      have he := keeps_events p evs0 kb
      have hres := keeps_resume (run_events p kb evs0) c
      rw [hr] at hres
      exact ⟨keeps_trans _ _ _ hk (keeps_trans _ _ _ he hres),
        hres.2.2 c (he.2.2 c hflag)⟩
  have h2 := keeps_trans _ _ _ hk1.1 (keeps_events p evs k1)
  have hpw : ((run_events p k1 evs).heap c).parent_waited = true :=
    (keeps_events p evs k1).2.2 c hk1.2
  have hfind2 : find_child (run_events p k1 evs) child_tid
      ((run_events p k1 evs).threads p).children = some c := by
    rw [h2.1 p, find_child_congr k _ child_tid h2.2.1]
    exact hfind
  refine ⟨process_wait_waited p child_tid _ c hfind2 hpw, hpw, h2.1 p, ?_⟩
  rw [h2.1 p]
  exact (find_child_mem k child_tid _ c hfind).1

/-- C4 for the parent 1 and its child 2: the child exits, the parent waits (the
call returns), the parent waits for an unknown id in between, and waits again. -/
theorem process_wait_twice_witness :
    process_wait 1 2 (run_events 1
        (process_wait 1 2 (process_exit 2 (two_procs true 7))).state [Event.wait 5]) =
      WaitResult.returned (-1) (run_events 1
        (process_wait 1 2 (process_exit 2 (two_procs true 7))).state [Event.wait 5]) ∧
    ((run_events 1 (process_wait 1 2 (process_exit 2 (two_procs true 7))).state
        [Event.wait 5]).threads 1).children = [100] :=
  have h := process_wait_twice (process_exit 2 (two_procs true 7)) 1 2 100 7
    (process_wait 1 2 (process_exit 2 (two_procs true 7))).state [Event.wait 5]
    (by decide) (Or.inl (by rfl))
  ⟨h.1, h.2.2.1⟩

/-- C5: when `child_tid` is the pid of no wait status in the caller's children
list, `process_wait` returns -1 at once and the kernel state is the one it was
called in: no semaphore is touched and every wait status is unchanged. -/
theorem process_wait_not_child (k : Kernel) (p : Nat) (child_tid : Int)
    (h : ∀ e ∈ (k.threads p).children, (k.heap e).pid ≠ child_tid) :
    process_wait p child_tid k = WaitResult.returned (-1) k := by
  simp [process_wait, find_child_none k child_tid _ h]

/-- C5 for the parent 1, whose only child has pid 2, waiting for pid 3. -/
theorem process_wait_not_child_witness :
    process_wait 1 3 (two_procs true 7) = WaitResult.returned (-1) (two_procs true 7) :=
  process_wait_not_child (two_procs true 7) 1 3 (by decide)

/-- C6: when the own wait status of the exiting process has valid = false,
`process_exit` has set exit_code to -1 and valid to true by the time it reaches
sema_up (its third step), the semaphore being still untouched, and a parent
woken afterwards reads -1; when valid is true on entry, exit_code is left as
recorded and that is what the parent reads. -/
theorem process_exit_fault_code (k : Kernel) (cur : Nat) :
    exit_program (k.threads cur).children =
      [ExitAction.publish, ExitAction.dec_own] ++ ExitAction.sema_up_own ::
        (exit_program (k.threads cur).children).drop 3 ∧
    ((k.heap (k.threads cur).own_wait_status).valid = false →
      ((run_exit cur k [ExitAction.publish, ExitAction.dec_own]).heap
        (k.threads cur).own_wait_status).exit_code = -1 ∧
      ((run_exit cur k [ExitAction.publish, ExitAction.dec_own]).heap
        (k.threads cur).own_wait_status).valid = true ∧
      ((run_exit cur k [ExitAction.publish, ExitAction.dec_own]).heap
        (k.threads cur).own_wait_status).sema = (k.heap (k.threads cur).own_wait_status).sema ∧
      ((process_exit cur k).heap (k.threads cur).own_wait_status).exit_code = -1 ∧
      ((process_exit cur k).heap (k.threads cur).own_wait_status).valid = true ∧
      ∃ k1, process_wait_resume (k.threads cur).own_wait_status (process_exit cur k) =
        WaitResult.returned (-1) k1) ∧
    ((k.heap (k.threads cur).own_wait_status).valid = true →
      ((process_exit cur k).heap (k.threads cur).own_wait_status).exit_code =
        (k.heap (k.threads cur).own_wait_status).exit_code ∧
      ∃ k1, process_wait_resume (k.threads cur).own_wait_status (process_exit cur k) =
        WaitResult.returned (k.heap (k.threads cur).own_wait_status).exit_code k1) := by
  obtain ⟨_, h1, _⟩ := process_exit_spec cur k
  have hsema : ((process_exit cur k).heap (k.threads cur).own_wait_status).sema ≠ 0 := by
    rw [h1]
    simp
  obtain ⟨k1, hk1⟩ := process_wait_resume_returns _ _ hsema
  refine ⟨rfl, fun hv => ?_, fun hv => ?_⟩
  · have hc : ((process_exit cur k).heap (k.threads cur).own_wait_status).exit_code = -1 := by
      rw [h1]
      simp [hv]
    refine ⟨?_, ?_, ?_, hc, ?_, k1, ?_⟩
    · simp [run_exit, exit_step, Kernel.modify, hv]
    · simp [run_exit, exit_step, Kernel.modify, hv]
    · simp [run_exit, exit_step, Kernel.modify, hv]
    · rw [h1]
      simp
    · rw [hk1, hc]
  · have hc : ((process_exit cur k).heap (k.threads cur).own_wait_status).exit_code =
        (k.heap (k.threads cur).own_wait_status).exit_code := by
      rw [h1]
      simp [hv]
    exact ⟨hc, k1, by rw [hk1, hc]⟩

/-- A child killed by a fault (valid = false) leaves exit code -1 in its status; a
child that recorded exit code 7 leaves 7. -/
theorem fault_exit_example :
    ((process_exit 2 (two_procs false 0)).heap 100).exit_code = -1 ∧
    ((process_exit 2 (two_procs false 0)).heap 100).valid = true ∧
    ((process_exit 2 (two_procs true 7)).heap 100).exit_code = 7 := by
  decide

/-- C7: a wait status `w` with ref_count = 2 is shared by a parent `p` (it is
once in p's children list) and its child `c` (it is c's own status). When both
run `process_exit` one after the other, in either order, the first exit leaves
ref_count = 1 and does not free `w`, the second leaves ref_count = 0 and `w` has
then been passed to free exactly once; and no process_exit raises a ref_count. -/
theorem wait_status_freed_once (k : Kernel) (p c w : Nat)
    (hown_c : (k.threads c).own_wait_status = w)
    (hch_p : (k.threads p).children.count w = 1)
    (hown_p : (k.threads p).own_wait_status ≠ w)
    (hch_c : (k.threads c).children.count w = 0)
    (hrc : (k.heap w).ref_count = 2)
    (hfr : k.freed.count w = 0) :
    (((process_exit p k).heap w).ref_count = 1 ∧ (process_exit p k).freed.count w = 0 ∧
      ((process_exit c (process_exit p k)).heap w).ref_count = 0 ∧
      (process_exit c (process_exit p k)).freed.count w = 1) ∧
    (((process_exit c k).heap w).ref_count = 1 ∧ (process_exit c k).freed.count w = 0 ∧
      ((process_exit p (process_exit c k)).heap w).ref_count = 0 ∧
      (process_exit p (process_exit c k)).freed.count w = 1) ∧
    (∀ (t x : Nat) (k0 : Kernel),
      ((process_exit t k0).heap x).ref_count ≤ (k0.heap x).ref_count) := by
  obtain ⟨tp, hp, fp⟩ := process_exit_spec p k
  obtain ⟨tc, hc, fc⟩ := process_exit_spec c k
  obtain ⟨_, hpc, fpc⟩ := process_exit_spec c (process_exit p k)
  obtain ⟨_, hcp, fcp⟩ := process_exit_spec p (process_exit c k)
  have hwp : ¬ w = (k.threads p).own_wait_status := fun h => hown_p h.symm
  have rp : ((process_exit p k).heap w).ref_count = 1 := by
    rw [hp w]
    simp [hwp, hch_p, hrc]
  have rc : ((process_exit c k).heap w).ref_count = 1 := by
    rw [hc w]
    simp [hown_c, hch_c, hrc]
  have f1 : (process_exit p k).freed.count w = 0 := by
    have h := fp w
    simp [hwp, hch_p, hrc, hfr] at h
    exact_mod_cast h
  have f2 : (process_exit c k).freed.count w = 0 := by
    have h := fc w
    simp [hown_c, hch_c, hrc, hfr] at h
    exact_mod_cast h
  refine ⟨⟨rp, f1, ?_, ?_⟩, ⟨rc, f2, ?_, ?_⟩, ?_⟩
  · rw [hpc w, rp, (tp c).1, (tp c).2]
    simp [hown_c, hch_c]
  · have h := fpc w
    rw [rp, (tp c).1, (tp c).2, f1] at h
    simp [hown_c, hch_c] at h
    exact_mod_cast h
  · rw [hcp w, rc, (tc p).1, (tc p).2]
    simp [hwp, hch_p]
  · have h := fcp w
    rw [rc, (tc p).1, (tc p).2, f2] at h
    simp [hwp, hch_p] at h
    exact_mod_cast h
  · intro t x k0
    rw [(process_exit_spec t k0).2.1 x]
    simp only
    split <;> omega

/-- C7 for the parent 1 and its child 2 sharing the status at address 100. -/
theorem wait_status_freed_once_witness :
    ((process_exit 2 (process_exit 1 (two_procs true 7))).heap 100).ref_count = 0 ∧
    (process_exit 2 (process_exit 1 (two_procs true 7))).freed.count 100 = 1 ∧
    ((process_exit 1 (process_exit 2 (two_procs true 7))).heap 100).ref_count = 0 ∧
    (process_exit 1 (process_exit 2 (two_procs true 7))).freed.count 100 = 1 :=
  have h := wait_status_freed_once (two_procs true 7) 1 2 100 (by decide) (by decide)
    (by decide) (by decide) (by decide) (by decide)
  ⟨h.1.2.2.1, h.1.2.2.2, h.2.1.2.2.1, h.2.1.2.2.2⟩

/-- C8 evaluated on the code: in `two_procs`, where the status at address 100
has ref_count = 2, `race_schedule` interleaves the steps of the child's
process_exit with those of the parent's, each in program order, and the status
is passed to free twice: both exits read ref_count = 0 after the two
decrements, since the read that decides on the free comes after lock_release. -/
theorem exit_race_double_free :
    is_interleaving (exit_steps_of 2 (two_procs true 7)) (exit_steps_of 1 (two_procs true 7))
      race_schedule = true ∧
    ((two_procs true 7).heap 100).ref_count = 2 ∧
    (two_procs true 7).freed = [] ∧
    (run_schedule (two_procs true 7) race_schedule).freed = [100, 100] := by
  decide

/-! ## Lemmas on the loader -/

theorem land_PGMASK (x : Nat) : x &&& PGMASK = x % 4096 := by
  have h : x &&& (2 ^ 12 - 1) = x % 2 ^ 12 := Nat.and_pow_two_sub_one_eq_mod x 12
  exact h

/-- C9: for a program header of 32-bit fields and a file length that is a
non-negative `off_t`, `validate_segment` returns true exactly when p_offset and
p_vaddr agree in their low 12 bits, p_offset <= file length, p_memsz >=
p_filesz, p_memsz != 0, p_vaddr and p_vaddr + p_memsz (as computed, modulo
2^32) are below PHYS_BASE, p_vaddr + p_memsz does not wrap, and p_vaddr >=
PGSIZE; in particular a header with p_vaddr < PGSIZE is rejected whatever its
other fields are. -/
theorem validate_segment_iff (phys_base : Nat) (phdr : Elf32_Phdr) (flen : Int)
    (hwf : phdr.wf) (hlen0 : 0 ≤ flen) (hlen1 : flen < 2147483648) :
    (validate_segment phys_base phdr flen = true ↔
      phdr.p_offset % 4096 = phdr.p_vaddr % 4096 ∧
      (phdr.p_offset : Int) ≤ flen ∧
      phdr.p_filesz ≤ phdr.p_memsz ∧
      phdr.p_memsz ≠ 0 ∧
      phdr.p_vaddr < phys_base ∧
      (phdr.p_vaddr + phdr.p_memsz) % W32 < phys_base ∧
      phdr.p_vaddr + phdr.p_memsz < W32 ∧
      PGSIZE ≤ phdr.p_vaddr) ∧
    (phdr.p_vaddr < PGSIZE → validate_segment phys_base phdr flen = false) := by
  obtain ⟨_, h2, h3, _, h5, h6, _, _⟩ := hwf
  have hcast : (flen % (W32 : Int)).toNat = flen.toNat := by
    unfold W32
    omega
  unfold validate_segment
  rw [land_PGMASK, land_PGMASK, hcast]
  simp only [is_user_vaddr, add32, PGSIZE, W32, Bool.not_eq_true', decide_eq_false_iff_not,
    ne_eq, gt_iff_lt, not_lt] at *
  by_cases c1 : phdr.p_offset % 4096 = phdr.p_vaddr % 4096
  swap
  · rw [if_pos c1]
    exact ⟨⟨fun h => (by cases h), fun h => absurd h.1 c1⟩, fun _ => rfl⟩
  rw [if_neg (not_not.mpr c1)]
  by_cases c2 : flen.toNat < phdr.p_offset
  · rw [if_pos c2]
    exact ⟨⟨fun h => (by cases h), fun h => (by omega)⟩, fun _ => rfl⟩
  rw [if_neg c2]
  by_cases c3 : phdr.p_memsz < phdr.p_filesz
  · rw [if_pos c3]
    exact ⟨⟨fun h => (by cases h), fun h => (by omega)⟩, fun _ => rfl⟩
  rw [if_neg c3]
  by_cases c4 : phdr.p_memsz = 0
  · rw [if_pos c4]
    exact ⟨⟨fun h => (by cases h), fun h => (by omega)⟩, fun _ => rfl⟩
  rw [if_neg c4]
  by_cases c5 : phys_base ≤ phdr.p_vaddr
  · rw [if_pos c5]
    exact ⟨⟨fun h => (by cases h), fun h => (by omega)⟩, fun _ => rfl⟩
  rw [if_neg c5]
  by_cases c6 : phys_base ≤ (phdr.p_vaddr + phdr.p_memsz) % 4294967296
  · rw [if_pos c6]
    exact ⟨⟨fun h => (by cases h), fun h => (by omega)⟩, fun _ => rfl⟩
  rw [if_neg c6]
  by_cases c7 : (phdr.p_vaddr + phdr.p_memsz) % 4294967296 < phdr.p_vaddr
  · rw [if_pos c7]
    exact ⟨⟨fun h => (by cases h), fun h => (by omega)⟩, fun _ => rfl⟩
  rw [if_neg c7]
  by_cases c8 : phdr.p_vaddr < 4096
  · rw [if_pos c8]
    exact ⟨⟨fun h => (by cases h), fun h => (by omega)⟩, fun _ => rfl⟩
  rw [if_neg c8]
  exact ⟨⟨fun _ => ⟨c1, by omega, by omega, c4, by omega, by omega, by omega, by omega⟩,
    fun _ => rfl⟩, fun h => absurd h c8⟩

/-- C9 at a segment of a typical executable and at the same segment moved into
page 0. -/
theorem validate_segment_iff_witness :
    validate_segment 3221225472
      { p_type := 1, p_offset := 4096, p_vaddr := 134516736, p_paddr := 0, p_filesz := 100,
        p_memsz := 200, p_flags := 5, p_align := 4096 } 8192 = true ∧
    validate_segment 3221225472
      { p_type := 1, p_offset := 4096, p_vaddr := 0, p_paddr := 0, p_filesz := 100,
        p_memsz := 200, p_flags := 5, p_align := 4096 } 8192 = false :=
  ⟨(validate_segment_iff 3221225472
      { p_type := 1, p_offset := 4096, p_vaddr := 134516736, p_paddr := 0, p_filesz := 100,
        p_memsz := 200, p_flags := 5, p_align := 4096 } 8192
      (by decide) (by decide) (by decide)).1.mpr (by decide),
   (validate_segment_iff 3221225472
      { p_type := 1, p_offset := 4096, p_vaddr := 0, p_paddr := 0, p_filesz := 100,
        p_memsz := 200, p_flags := 5, p_align := 4096 } 8192
      (by decide) (by decide) (by decide)).2 (by decide)⟩

theorem ehdr_rejected_of_bad (data : List Nat)
    (hbad : data.length < sizeof_Ehdr ∨ data.take 7 ≠ elf_magic ∨
      (read_Ehdr (data.take sizeof_Ehdr)).e_type ≠ 2 ∨
      (read_Ehdr (data.take sizeof_Ehdr)).e_machine ≠ 3 ∨
      (read_Ehdr (data.take sizeof_Ehdr)).e_version ≠ 1 ∨
      (read_Ehdr (data.take sizeof_Ehdr)).e_phentsize ≠ 32 ∨
      (read_Ehdr (data.take sizeof_Ehdr)).e_phnum > 1024) :
    ehdr_rejected (data.take sizeof_Ehdr) = true := by
  have hid : (read_Ehdr (data.take sizeof_Ehdr)).e_ident.take 7 = data.take 7 := by
    simp [read_Ehdr, sizeof_Ehdr, List.take_take]
  unfold ehdr_rejected
  simp only [hid, Bool.or_eq_true, decide_eq_true_eq]
  rcases hbad with h | h | h | h | h | h | h
  · left; left; left; left; left; left
    simp only [List.length_take, sizeof_Ehdr] at h ⊢
    omega
  · left; left; left; left; left; right; exact h
  · left; left; left; left; right; exact h
  · left; left; left; right; exact h
  · left; left; right; exact h
  · left; right; exact h
  · right; exact h

/-- C10: when the executable can be opened but its header fails validation
(fewer than 52 bytes can be read, the first 7 bytes are not 0x7f 'E' 'L' 'F' 1
1 1, e_type != 2, e_machine != 3, e_version != 1, e_phentsize != 32, or e_phnum
> 1024), `load` returns false, with the address space exactly as it was on
entry (no page installed, no frame taken, no byte stored), without any call of
load_segment or setup_stack, and with `*eip` and `*esp` untouched. -/
theorem load_rejects_bad_header (phys_base : Nat)
    (filesys_open : Option (List Nat) → Option (List Nat)) (file_name_ : List Nat)
    (eip esp : Nat) (as : AddrSpace) (data : List Nat)
    (hopen : filesys_open ((strtok_r (file_name_.take (PGSIZE - 1)) [32]).map Prod.fst) =
      some data)
    (hbad : data.length < sizeof_Ehdr ∨ data.take 7 ≠ elf_magic ∨
      (read_Ehdr (data.take sizeof_Ehdr)).e_type ≠ 2 ∨
      (read_Ehdr (data.take sizeof_Ehdr)).e_machine ≠ 3 ∨
      (read_Ehdr (data.take sizeof_Ehdr)).e_version ≠ 1 ∨
      (read_Ehdr (data.take sizeof_Ehdr)).e_phentsize ≠ 32 ∨
      (read_Ehdr (data.take sizeof_Ehdr)).e_phnum > 1024) :
    ∃ r, load phys_base filesys_open true file_name_ eip esp as = some r ∧
      r.success = false ∧ r.as = as ∧ r.calls = [] ∧ r.eip = eip ∧ r.esp = esp := by
  have hrej := ehdr_rejected_of_bad data hbad
  have hread : (file_read { data := data, pos := 0, deny_write := true } sizeof_Ehdr).1 =
      data.take sizeof_Ehdr := by
    simp [file_read]
  unfold load
  simp only [Bool.not_true, Bool.false_eq_true, if_false, hopen, hread, hrej, if_true]
  exact ⟨_, rfl, rfl, rfl, rfl, rfl, rfl⟩

/-- C10 for a file of 52 zero bytes (wrong magic bytes). -/
theorem load_rejects_bad_header_witness :
    ∃ r, load 3221225472 (fun _ => some (List.replicate 52 0)) true (bytes "prog arg1") 0 0
        (fresh_space 8) = some r ∧
      r.success = false ∧ r.as = fresh_space 8 ∧ r.calls = [] ∧ r.eip = 0 ∧ r.esp = 0 :=
  load_rejects_bad_header 3221225472 (fun _ => some (List.replicate 52 0)) (bytes "prog arg1")
    0 0 (fresh_space 8) (List.replicate 52 0) rfl (Or.inr (Or.inl (by decide)))

theorem load_phdrs_succ (phys_base n : Nat) (file_ofs : Int) (s : LoadState) :
    load_phdrs phys_base (n + 1) file_ofs s =
      match phdr_step phys_base file_ofs s with
      | none => none
      | some (StepResult.stop s1) => some (false, s1)
      | some (StepResult.next s1) => load_phdrs phys_base n (file_ofs + sizeof_Phdr) s1 := by
  simp only [load_phdrs, phdr_step]
  split_ifs
  · rfl
  · rfl
  · rfl
  · cases h : load_segment (file_read (file_seek s.file file_ofs.toNat) sizeof_Phdr).2 s.as
        (segment_args (read_Phdr (file_read (file_seek s.file file_ofs.toNat) sizeof_Phdr).1)).1
        (segment_args (read_Phdr (file_read (file_seek s.file file_ofs.toNat) sizeof_Phdr).1)).2.1
        (segment_args (read_Phdr (file_read (file_seek s.file file_ofs.toNat) sizeof_Phdr).1)).2.2.1
        (segment_args
          (read_Phdr (file_read (file_seek s.file file_ofs.toNat) sizeof_Phdr).1)).2.2.2.1
        (segment_args
          (read_Phdr (file_read (file_seek s.file file_ofs.toNat) sizeof_Phdr).1)).2.2.2.2 with
    | none => rfl
    | some r =>
      obtain ⟨b, f, as⟩ := r
      cases b <;> rfl
  · rfl
  · rfl

theorem reached_result (phys_base n0 : Nat) (ofs0 : Int) (s0 : LoadState) (n : Nat) (ofs : Int)
    (s : LoadState) (h : Reached phys_base n0 ofs0 s0 n ofs s) :
    load_phdrs phys_base n0 ofs0 s0 = load_phdrs phys_base n ofs s := by
  induction h with
  | start => rfl
  | step n ofs s s1 _ hstep ih =>
    rw [ih, load_phdrs_succ, hstep]

theorem load_of_phdrs_stop (phys_base : Nat)
    (filesys_open : Option (List Nat) → Option (List Nat)) (file_name_ : List Nat)
    (eip esp : Nat) (as : AddrSpace) (data : List Nat) (s1 : LoadState)
    (hopen : filesys_open ((strtok_r (file_name_.take (PGSIZE - 1)) [32]).map Prod.fst) =
      some data)
    (hhdr : ehdr_rejected (data.take sizeof_Ehdr) = false)
    (hloop : load_phdrs phys_base (read_Ehdr (data.take sizeof_Ehdr)).e_phnum
      (to_off_t (read_Ehdr (data.take sizeof_Ehdr)).e_phoff)
      { file := (file_read { data := data, pos := 0, deny_write := true } sizeof_Ehdr).2,
        as := as, calls := [] } = some (false, s1)) :
    load phys_base filesys_open true file_name_ eip esp as =
      some { success := false, eip := eip, esp := esp, as := s1.as, file := some s1.file,
             calls := s1.calls } := by
  have hread : (file_read { data := data, pos := 0, deny_write := true } sizeof_Ehdr).1 =
      data.take sizeof_Ehdr := by
    simp [file_read]
  unfold load
  simp only [Bool.not_true, Bool.false_eq_true, if_false, hopen, hread, hhdr, hloop]

theorem phdr_step_at (phys_base : Nat) (file_ofs : Int) (s : LoadState) (phdr : Elf32_Phdr)
    (h : phdr_at s.file file_ofs = some phdr) :
    phdr = read_Phdr (file_read (file_seek s.file file_ofs.toNat) sizeof_Phdr).1 ∧
    phdr_step phys_base file_ofs s =
      if phdr.p_type = PT_DYNAMIC ∨ phdr.p_type = PT_INTERP ∨ phdr.p_type = PT_SHLIB then
        some (StepResult.stop
          { s with file := (file_read (file_seek s.file file_ofs.toNat) sizeof_Phdr).2 })
      else if phdr.p_type = PT_LOAD then
        if validate_segment phys_base phdr (file_length s.file) then
          match load_segment (file_read (file_seek s.file file_ofs.toNat) sizeof_Phdr).2 s.as
              (segment_args phdr).1 (segment_args phdr).2.1 (segment_args phdr).2.2.1
              (segment_args phdr).2.2.2.1 (segment_args phdr).2.2.2.2 with
          | none => none
          | some (false, f, as) =>
            some (StepResult.stop { file := f, as := as, calls := s.calls ++
              [LoadCall.load_segment (segment_args phdr).1 (segment_args phdr).2.1
                (segment_args phdr).2.2.1 (segment_args phdr).2.2.2.1
                (segment_args phdr).2.2.2.2] })
          | some (true, f, as) =>
            some (StepResult.next { file := f, as := as, calls := s.calls ++
              [LoadCall.load_segment (segment_args phdr).1 (segment_args phdr).2.1
                (segment_args phdr).2.2.1 (segment_args phdr).2.2.2.1
                (segment_args phdr).2.2.2.2] })
        else
          some (StepResult.stop
            { s with file := (file_read (file_seek s.file file_ofs.toNat) sizeof_Phdr).2 })
      else
        some (StepResult.next
          { s with file := (file_read (file_seek s.file file_ofs.toNat) sizeof_Phdr).2 }) := by
  unfold phdr_at at h
  split_ifs at h with h1 h2
  simp only [Option.some.injEq] at h
  subst h
  refine ⟨rfl, ?_⟩
  have hlen : file_length (file_read (file_seek s.file file_ofs.toNat) sizeof_Phdr).2 =
      file_length s.file := rfl
  simp only [phdr_step, h1, h2, if_false, hlen]

/-- C11: in `load`, once the executable header has passed validation, let the
loop over the program headers reach a header `phdr` (it lies within the file and
can be read in full). If its type is PT_DYNAMIC, PT_INTERP or PT_SHLIB, load
returns false. If its type is PT_NULL, PT_NOTE, PT_PHDR or PT_STACK, the
iteration installs no page, calls neither helper, and the loop reaches the next
header. If its type is PT_LOAD and validate_segment rejects it, load returns
false with nothing mapped for it; and an iteration for a PT_LOAD header that
calls load_segment or changes the mapped pages is one whose header
validate_segment accepted. -/
theorem load_phdr_kinds (phys_base : Nat)
    (filesys_open : Option (List Nat) → Option (List Nat)) (file_name_ : List Nat)
    (eip esp : Nat) (as : AddrSpace) (data : List Nat) (n : Nat) (ofs : Int) (s : LoadState)
    (phdr : Elf32_Phdr)
    (hopen : filesys_open ((strtok_r (file_name_.take (PGSIZE - 1)) [32]).map Prod.fst) =
      some data)
    (hhdr : ehdr_rejected (data.take sizeof_Ehdr) = false)
    (hreach : Reached phys_base (read_Ehdr (data.take sizeof_Ehdr)).e_phnum
      (to_off_t (read_Ehdr (data.take sizeof_Ehdr)).e_phoff)
      { file := (file_read { data := data, pos := 0, deny_write := true } sizeof_Ehdr).2,
        as := as, calls := [] } (n + 1) ofs s)
    (hphdr : phdr_at s.file ofs = some phdr) :
    ((phdr.p_type = PT_DYNAMIC ∨ phdr.p_type = PT_INTERP ∨ phdr.p_type = PT_SHLIB) →
      ∃ r, load phys_base filesys_open true file_name_ eip esp as = some r ∧
        r.success = false ∧ r.as = s.as ∧ r.calls = s.calls) ∧
    ((phdr.p_type = PT_NULL ∨ phdr.p_type = PT_NOTE ∨ phdr.p_type = PT_PHDR ∨
        phdr.p_type = PT_STACK) →
      ∃ s1, phdr_step phys_base ofs s = some (StepResult.next s1) ∧
        s1.as = s.as ∧ s1.calls = s.calls ∧
        Reached phys_base (read_Ehdr (data.take sizeof_Ehdr)).e_phnum
          (to_off_t (read_Ehdr (data.take sizeof_Ehdr)).e_phoff)
          { file := (file_read { data := data, pos := 0, deny_write := true } sizeof_Ehdr).2,
            as := as, calls := [] } n (ofs + sizeof_Phdr) s1) ∧
    (phdr.p_type = PT_LOAD → validate_segment phys_base phdr (file_length s.file) = false →
      ∃ r, load phys_base filesys_open true file_name_ eip esp as = some r ∧
        r.success = false ∧ r.as = s.as ∧ r.calls = s.calls) ∧
    (phdr.p_type = PT_LOAD → ∀ r, phdr_step phys_base ofs s = some r →
      (r.state.calls ≠ s.calls ∨ r.state.as.mapped ≠ s.as.mapped) →
      validate_segment phys_base phdr (file_length s.file) = true) := by
  obtain ⟨_, hstep⟩ := phdr_step_at phys_base ofs s phdr hphdr
  have hres := reached_result _ _ _ _ _ _ _ hreach
  rw [load_phdrs_succ] at hres
  refine ⟨fun h => ?_, fun h => ?_, fun h hv => ?_, fun h r hr hch => ?_⟩
  · rw [if_pos h] at hstep
    rw [hstep] at hres
    exact ⟨_, load_of_phdrs_stop _ _ _ _ _ _ _ _ hopen hhdr hres, rfl, rfl, rfl⟩
  · have h1 : ¬ (phdr.p_type = PT_DYNAMIC ∨ phdr.p_type = PT_INTERP ∨ phdr.p_type = PT_SHLIB) := by
      simp only [PT_NULL, PT_NOTE, PT_PHDR, PT_STACK, PT_DYNAMIC, PT_INTERP, PT_SHLIB] at h ⊢
      omega
    have h2 : ¬ phdr.p_type = PT_LOAD := by
      simp only [PT_NULL, PT_NOTE, PT_PHDR, PT_STACK, PT_LOAD] at h ⊢
      omega
    rw [if_neg h1, if_neg h2] at hstep
    exact ⟨_, hstep, rfl, rfl, Reached.step n ofs s _ hreach hstep⟩
  · have h1 : ¬ (phdr.p_type = PT_DYNAMIC ∨ phdr.p_type = PT_INTERP ∨ phdr.p_type = PT_SHLIB) := by
      simp only [PT_LOAD, PT_DYNAMIC, PT_INTERP, PT_SHLIB] at h ⊢
      omega
    rw [if_neg h1, if_pos h, hv] at hstep
    simp only [Bool.false_eq_true, if_false] at hstep
    rw [hstep] at hres
    exact ⟨_, load_of_phdrs_stop _ _ _ _ _ _ _ _ hopen hhdr hres, rfl, rfl, rfl⟩
  · have h1 : ¬ (phdr.p_type = PT_DYNAMIC ∨ phdr.p_type = PT_INTERP ∨ phdr.p_type = PT_SHLIB) := by
      simp only [PT_LOAD, PT_DYNAMIC, PT_INTERP, PT_SHLIB] at h ⊢
      omega
    cases hv : validate_segment phys_base phdr (file_length s.file) with
    | true => rfl
    | false =>
      rw [if_neg h1, if_pos h, hv] at hstep
      simp only [Bool.false_eq_true, if_false] at hstep
      rw [hstep] at hr
      simp only [Option.some.injEq] at hr
      subst hr
      simp [StepResult.state] at hch

/-- C11 on an executable whose only program header has type PT_DYNAMIC: load
returns false and maps nothing. -/
theorem load_phdr_kinds_witness :
    ∃ r, load 3221225472 (fun _ => some (sample_elf 2 0 134512640 84 84 5)) true
        (bytes "prog") 0 0 (fresh_space 8) = some r ∧
      r.success = false ∧ r.as = fresh_space 8 ∧ r.calls = [] :=
  (load_phdr_kinds 3221225472 (fun _ => some (sample_elf 2 0 134512640 84 84 5)) (bytes "prog")
    0 0 (fresh_space 8) (sample_elf 2 0 134512640 84 84 5) 0 52
    { file :=
        (file_read { data := sample_elf 2 0 134512640 84 84 5, pos := 0, deny_write := true }
          sizeof_Ehdr).2,
      as := fresh_space 8, calls := [] }
    { p_type := 2, p_offset := 0, p_vaddr := 134512640, p_paddr := 0, p_filesz := 84,
      p_memsz := 84, p_flags := 5, p_align := 4096 }
    rfl (by decide) (Reached.start) rfl).1 (Or.inl rfl)

/-! ## Lemmas on process_execute -/

theorem strtok_r_head (s : List Nat) :
    (strtok_r s [32]).map Prod.fst = (split_spaces s).head? := by
  rcases strtok_r_spec s with ⟨h1, h2⟩ | ⟨t, save, h1, h2, _⟩
  · rw [h1, h2]; rfl
  · rw [h1, h2]; rfl

theorem take_take_page (s : List Nat) :
    (s.take (PGSIZE - 1)).take (PGSIZE - 1) = s.take (PGSIZE - 1) := by
  rw [List.take_take, Nat.min_self]

/-- C12: when filesys_open cannot open the file named by the leading
space-delimited token of the command line, `process_execute` returns TID_ERROR
from the part of its body that precedes thread_create: thread_create is not
called and the semaphore of load_info is not waited on. -/
theorem process_execute_no_file (phys_base kernel_pages : Nat)
    (filesys_open : Option (List Nat) → Option (List Nat))
    (thread_create : Option (List Nat) → Int) (working_dir : Option Nat)
    (pagedir_create_ok : Bool) (as : AddrSpace) (file_name : List Nat)
    (h : filesys_open (split_spaces (file_name.take (PGSIZE - 1))).head? = none) :
    process_execute_start kernel_pages filesys_open thread_create working_dir file_name =
      ExecStart.returned TID_ERROR ∧
    process_execute phys_base kernel_pages filesys_open thread_create working_dir
      pagedir_create_ok as file_name = some (ExecResult.returned TID_ERROR) := by
  have h1 : process_execute_start kernel_pages filesys_open thread_create working_dir
      file_name = ExecStart.returned TID_ERROR := by
    unfold process_execute_start
    simp only [take_take_page, strtok_r_head, h]
    split_ifs <;> rfl
  refine ⟨h1, ?_⟩
  unfold process_execute
  rw [h1]

/-- C12 for a file system without the file "prog". -/
theorem process_execute_no_file_witness :
    process_execute_start 2 (fun _ => none) (fun _ => 3) none (bytes "prog arg1") =
      ExecStart.returned TID_ERROR ∧
    process_execute 3221225472 2 (fun _ => none) (fun _ => 3) none true (fresh_space 8)
      (bytes "prog arg1") = some (ExecResult.returned TID_ERROR) :=
  process_execute_no_file 3221225472 2 (fun _ => none) (fun _ => 3) none true (fresh_space 8)
    (bytes "prog arg1") rfl

/-- Once the new thread exists and has run start_process, `process_execute`
returns TID_ERROR when the load failed and the thread id when it succeeded. -/
theorem process_execute_created (phys_base kernel_pages : Nat)
    (filesys_open : Option (List Nat) → Option (List Nat))
    (thread_create : Option (List Nat) → Int) (working_dir : Option Nat)
    (pagedir_create_ok : Bool) (as : AddrSpace) (file_name : List Nat) (tid : Int)
    (fn_exec : Option (List Nat)) (load_info : load_synch) (r : LoadResult)
    (hstart : process_execute_start kernel_pages filesys_open thread_create working_dir
      file_name = ExecStart.created tid fn_exec load_info)
    (htid : tid ≠ TID_ERROR)
    (hload : load phys_base filesys_open pagedir_create_ok load_info.filename 0 0 as = some r) :
    process_execute phys_base kernel_pages filesys_open thread_create working_dir
      pagedir_create_ok as file_name =
      some (ExecResult.returned (if r.success then tid else TID_ERROR)) := by
  unfold process_execute
  rw [hstart]
  simp only [htid, if_false, start_process, hload]
  cases hs : r.success <;> simp [process_execute_finish, htid]

/-- C13 evaluated on the code: the command line names an existing file and
thread_create returns TID_ERROR. No thread runs start_process, the semaphore of
load_info keeps the value 0, and `process_execute` sleeps in sema_down instead
of returning TID_ERROR. -/
theorem process_execute_create_fails :
    process_execute_start 2 (fun _ => some (sample_elf 1 0 134512640 84 84 5))
      (fun _ => TID_ERROR) none (bytes "prog arg1") =
      ExecStart.created TID_ERROR (some (bytes "prog"))
        { filename := bytes "prog arg1", sema := 0, success := true,
          parent_working_dir := none } ∧
    process_execute 3221225472 2 (fun _ => some (sample_elf 1 0 134512640 84 84 5))
      (fun _ => TID_ERROR) none true (fresh_space 8) (bytes "prog arg1") =
      some ExecResult.blocked := by
  constructor
  · rfl
  · rfl

/-! ## Lemmas on the arguments of load_segment -/

theorem land_not_PGMASK (x : Nat) (hx : x < W32) : x &&& (W32 - 1 - PGMASK) = x - x % 4096 := by
  have hm : W32 - 1 - PGMASK = (2 ^ 20 - 1) <<< 12 := by decide
  have hr : x - x % 4096 = (x >>> 12) <<< 12 := by
    rw [Nat.shiftLeft_eq, Nat.shiftRight_eq_div_pow]
    have : (2 : Nat) ^ 12 = 4096 := by norm_num
    rw [this]
    omega
  rw [hm, hr]
  apply Nat.eq_of_testBit_eq
  intro i
  rw [Nat.testBit_and, Nat.testBit_shiftLeft, Nat.testBit_shiftLeft, Nat.testBit_shiftRight,
    Nat.testBit_two_pow_sub_one]
  by_cases h12 : 12 ≤ i
  · have e1 : 12 + (i - 12) = i := by omega
    rw [e1]
    by_cases h32 : i < 32
    · have : i - 12 < 20 := by omega
      simp [h12, this]
    · have hxi : x < 2 ^ i := by
        have h2 : (2 : Nat) ^ 32 ≤ 2 ^ i := Nat.pow_le_pow_right (by norm_num) (by omega)
        have h3 : (2 : Nat) ^ 32 = 4294967296 := by norm_num
        unfold W32 at hx
        omega
      rw [Nat.testBit_lt_two_pow hxi]
      simp
  · simp [h12]

theorem validate_segment_true (phys_base : Nat) (phdr : Elf32_Phdr) (flen : Int)
    (hwf : phdr.wf) (h : validate_segment phys_base phdr flen = true) :
    phdr.p_offset % 4096 = phdr.p_vaddr % 4096 ∧
    phdr.p_offset ≤ (flen % (W32 : Int)).toNat ∧
    phdr.p_filesz ≤ phdr.p_memsz ∧ phdr.p_memsz ≠ 0 ∧
    phdr.p_vaddr < phys_base ∧ phdr.p_vaddr + phdr.p_memsz < phys_base ∧
    phdr.p_vaddr + phdr.p_memsz < W32 ∧ 4096 ≤ phdr.p_vaddr := by
  obtain ⟨_, h2, h3, _, h5, h6, _, _⟩ := hwf
  unfold validate_segment at h
  rw [land_PGMASK, land_PGMASK] at h
  generalize (flen % (W32 : Int)).toNat = F at h ⊢
  simp only [is_user_vaddr, add32, PGSIZE, W32, Bool.not_eq_true', decide_eq_false_iff_not,
    ne_eq, gt_iff_lt, not_lt] at *
  by_cases c1 : phdr.p_offset % 4096 = phdr.p_vaddr % 4096
  swap
  · rw [if_pos c1] at h; cases h
  rw [if_neg (not_not.mpr c1)] at h
  by_cases c2 : F < phdr.p_offset
  · rw [if_pos c2] at h; cases h
  rw [if_neg c2] at h
  by_cases c3 : phdr.p_memsz < phdr.p_filesz
  · rw [if_pos c3] at h; cases h
  rw [if_neg c3] at h
  by_cases c4 : phdr.p_memsz = 0
  · rw [if_pos c4] at h; cases h
  rw [if_neg c4] at h
  by_cases c5 : phys_base ≤ phdr.p_vaddr
  · rw [if_pos c5] at h; cases h
  rw [if_neg c5] at h
  by_cases c6 : phys_base ≤ (phdr.p_vaddr + phdr.p_memsz) % 4294967296
  · rw [if_pos c6] at h; cases h
  rw [if_neg c6] at h
  by_cases c7 : (phdr.p_vaddr + phdr.p_memsz) % 4294967296 < phdr.p_vaddr
  · rw [if_pos c7] at h; cases h
  rw [if_neg c7] at h
  by_cases c8 : phdr.p_vaddr < 4096
  · rw [if_pos c8] at h; cases h
  exact ⟨c1, by omega, by omega, c4, by omega, by omega, by omega, by omega⟩

/-- The arguments that `load` computes for an accepted segment, in plain
arithmetic: none of the 32-bit operations wraps. -/
theorem segment_args_spec (phys_base : Nat) (phdr : Elf32_Phdr) (flen : Int)
    (hwf : phdr.wf) (h : validate_segment phys_base phdr flen = true) :
    segment_args phdr =
      (phdr.p_offset - phdr.p_offset % 4096, phdr.p_vaddr - phdr.p_vaddr % 4096,
        (if 0 < phdr.p_filesz then phdr.p_vaddr % 4096 + phdr.p_filesz else 0),
        (phdr.p_vaddr % 4096 + phdr.p_memsz + 4095) / 4096 * 4096 -
          (if 0 < phdr.p_filesz then phdr.p_vaddr % 4096 + phdr.p_filesz else 0),
        decide ((phdr.p_flags &&& PF_W) ≠ 0)) ∧
    phdr.p_vaddr % 4096 + phdr.p_memsz + 4095 < W32 ∧
    (if 0 < phdr.p_filesz then phdr.p_vaddr % 4096 + phdr.p_filesz else 0) ≤
      (phdr.p_vaddr % 4096 + phdr.p_memsz + 4095) / 4096 * 4096 := by
  obtain ⟨v1, _, v3, v4, _, _, v7, v8⟩ := validate_segment_true phys_base phdr flen hwf h
  obtain ⟨_, w2, w3, _, w5, w6, _, _⟩ := hwf
  have hx : phdr.p_vaddr % 4096 + phdr.p_memsz + 4095 < W32 := by
    unfold W32 at *
    omega
  have hround : ROUND_UP (add32 (phdr.p_vaddr % 4096) phdr.p_memsz) PGSIZE =
      (phdr.p_vaddr % 4096 + phdr.p_memsz + 4095) / 4096 * 4096 := by
    unfold ROUND_UP add32 PGSIZE W32 at *
    omega
  refine ⟨?_, hx, ?_⟩
  · unfold segment_args
    rw [land_not_PGMASK _ w2, land_not_PGMASK _ w3, land_PGMASK]
    dsimp only
    rw [hround]
    by_cases hf : 0 < phdr.p_filesz
    · have hadd : add32 (phdr.p_vaddr % 4096) phdr.p_filesz =
          phdr.p_vaddr % 4096 + phdr.p_filesz := by
        unfold add32 W32 at *
        omega
      have hsub : sub32 ((phdr.p_vaddr % 4096 + phdr.p_memsz + 4095) / 4096 * 4096)
          (phdr.p_vaddr % 4096 + phdr.p_filesz) =
          (phdr.p_vaddr % 4096 + phdr.p_memsz + 4095) / 4096 * 4096 -
            (phdr.p_vaddr % 4096 + phdr.p_filesz) := by
        unfold sub32 W32 at *
        omega
      simp only [hf, if_true, hadd, hsub]
    · simp only [hf, if_false, Nat.sub_zero]
  · split <;> omega

theorem load_segment_loop_zero (fuel : Nat) (f : file) (as : AddrSpace) (upage : Nat)
    (writable : Bool) : load_segment_loop fuel f as upage 0 0 writable = some (true, f, as) := by
  unfold load_segment_loop
  simp

/-- One iteration of the loop of load_segment. -/
theorem load_segment_loop_step (fuel : Nat) (f : file) (as : AddrSpace)
    (upage rb zb : Nat) (w : Bool) (h0 : ¬ (rb = 0 ∧ zb = 0)) :
    load_segment_loop (fuel + 1) f as upage rb zb w =
      match palloc_get_page as with
      | none => some (false, f, as)
      | some as0 =>
        if (file_read f (min rb PGSIZE)).1.length ≠ min rb PGSIZE then
          some (false, (file_read f (min rb PGSIZE)).2, palloc_free_page as0)
        else
          match install_page as0 upage (fun i => (file_read f (min rb PGSIZE)).1.getD i 0) w with
          | none => some (false, (file_read f (min rb PGSIZE)).2, palloc_free_page as0)
          | some as1 =>
            load_segment_loop fuel (file_read f (min rb PGSIZE)).2 as1 (add32 upage PGSIZE)
              (rb - min rb PGSIZE) (sub32 zb (PGSIZE - min rb PGSIZE)) w := by
  have hmin : (if rb < PGSIZE then rb else PGSIZE) = min rb PGSIZE := by
    split <;> omega
  rw [load_segment_loop]
  simp only [h0, if_false, hmin]

/-- With byte counts that add up to a multiple of PGSIZE, the loop of
load_segment ends within `(read_bytes + zero_bytes) / PGSIZE` iterations. -/
theorem load_segment_loop_some : ∀ (fuel : Nat) (f : file) (as : AddrSpace)
    (upage read_bytes zero_bytes : Nat) (writable : Bool),
    (read_bytes + zero_bytes) % PGSIZE = 0 → zero_bytes < W32 →
    (read_bytes + zero_bytes) / PGSIZE < fuel →
    ∃ r, load_segment_loop fuel f as upage read_bytes zero_bytes writable = some r := by
  intro fuel
  induction fuel with
  | zero => intro f as upage rb zb w _ _ h; exact absurd h (Nat.not_lt_zero _)
  | succ fuel ih =>
    intro f as upage rb zb w hmod hzb hfuel
    by_cases h0 : rb = 0 ∧ zb = 0
    · rw [h0.1, h0.2, load_segment_loop_zero]; exact ⟨_, rfl⟩
    · rw [load_segment_loop_step _ _ _ _ _ _ _ h0]
      cases hp : palloc_get_page as with
      | none => exact ⟨_, rfl⟩
      | some as0 =>
        simp only
        by_cases hlen : (file_read f (min rb PGSIZE)).1.length ≠ min rb PGSIZE
        · rw [if_pos hlen]; exact ⟨_, rfl⟩
        · rw [if_neg hlen]
          cases hi : install_page as0 upage
              (fun i => (file_read f (min rb PGSIZE)).1.getD i 0) w with
          | none => exact ⟨_, rfl⟩
          | some as1 =>
            simp only
            apply ih
            · unfold sub32 PGSIZE W32 at *
              omega
            · unfold sub32 W32
              omega
            · unfold sub32 PGSIZE W32 at *
              omega

theorem load_segment_some (f : file) (as : AddrSpace) (ofs upage read_bytes zero_bytes : Nat)
    (writable : Bool) (hsum : read_bytes + zero_bytes < W32)
    (h1 : (read_bytes + zero_bytes) % PGSIZE = 0) (h2 : upage % 4096 = 0)
    (h3 : ofs % PGSIZE = 0) :
    ∃ r, load_segment f as ofs upage read_bytes zero_bytes writable = some r := by
  have ha : add32 read_bytes zero_bytes = read_bytes + zero_bytes := add32_eq _ _ hsum
  unfold load_segment
  rw [ha, land_PGMASK]
  simp only [h1, h2, h3, ne_eq, not_true_eq_false, if_false]
  exact load_segment_loop_some _ _ _ _ _ _ _ h1 (by omega) (by omega)

/-- The arguments that `load` computes for an accepted segment satisfy what
load_segment asserts, and their sum does not wrap. -/
theorem segment_args_asserts (phys_base : Nat) (phdr : Elf32_Phdr) (flen : Int)
    (hwf : phdr.wf) (h : validate_segment phys_base phdr flen = true) :
    (segment_args phdr).2.2.1 + (segment_args phdr).2.2.2.1 < W32 ∧
    ((segment_args phdr).2.2.1 + (segment_args phdr).2.2.2.1) % PGSIZE = 0 ∧
    (segment_args phdr).2.1 % 4096 = 0 ∧
    (segment_args phdr).1 % PGSIZE = 0 := by
  obtain ⟨e, hx, hle⟩ := segment_args_spec phys_base phdr flen hwf h
  rw [e]
  simp only
  unfold PGSIZE W32 at *
  refine ⟨?_, ?_, ?_, ?_⟩ <;> omega

/-- C14 as amended: for a PT_LOAD program header (of 32-bit fields) that the
loop of `load` reads and validate_segment accepts, load calls load_segment with
the file offset and the virtual address both rounded down to a page boundary
and with these byte counts: when p_filesz > 0, read_bytes = (p_vaddr mod
PGSIZE) + p_filesz and zero_bytes = ROUND_UP ((p_vaddr mod PGSIZE) + p_memsz,
PGSIZE) - read_bytes; when p_filesz = 0, read_bytes = 0 and zero_bytes =
ROUND_UP ((p_vaddr mod PGSIZE) + p_memsz, PGSIZE). -/
theorem load_segment_byte_counts (phys_base : Nat) (ofs : Int) (s : LoadState)
    (phdr : Elf32_Phdr) (hwf : phdr.wf) (hphdr : phdr_at s.file ofs = some phdr)
    (htype : phdr.p_type = PT_LOAD)
    (hacc : validate_segment phys_base phdr (file_length s.file) = true) :
    ∃ r, phdr_step phys_base ofs s = some r ∧
      r.state.calls = s.calls ++
        [LoadCall.load_segment (phdr.p_offset - phdr.p_offset % PGSIZE)
          (phdr.p_vaddr - phdr.p_vaddr % PGSIZE)
          (if 0 < phdr.p_filesz then phdr.p_vaddr % PGSIZE + phdr.p_filesz else 0)
          (ROUND_UP (phdr.p_vaddr % PGSIZE + phdr.p_memsz) PGSIZE -
            (if 0 < phdr.p_filesz then phdr.p_vaddr % PGSIZE + phdr.p_filesz else 0))
          (decide ((phdr.p_flags &&& PF_W) ≠ 0))] := by
  obtain ⟨e, hx, _⟩ := segment_args_spec phys_base phdr _ hwf hacc
  obtain ⟨a1, a2, a3, a4⟩ := segment_args_asserts phys_base phdr _ hwf hacc
  obtain ⟨_, hstep⟩ := phdr_step_at phys_base ofs s phdr hphdr
  have h1 : ¬ (phdr.p_type = PT_DYNAMIC ∨ phdr.p_type = PT_INTERP ∨ phdr.p_type = PT_SHLIB) := by
    simp only [PT_LOAD, PT_DYNAMIC, PT_INTERP, PT_SHLIB] at htype ⊢
    omega
  have hround : ROUND_UP (phdr.p_vaddr % PGSIZE + phdr.p_memsz) PGSIZE =
      (phdr.p_vaddr % 4096 + phdr.p_memsz + 4095) / 4096 * 4096 := by
    unfold ROUND_UP add32 PGSIZE W32 at *
    omega
  have hargs : LoadCall.load_segment (phdr.p_offset - phdr.p_offset % PGSIZE)
      (phdr.p_vaddr - phdr.p_vaddr % PGSIZE)
      (if 0 < phdr.p_filesz then phdr.p_vaddr % PGSIZE + phdr.p_filesz else 0)
      (ROUND_UP (phdr.p_vaddr % PGSIZE + phdr.p_memsz) PGSIZE -
        (if 0 < phdr.p_filesz then phdr.p_vaddr % PGSIZE + phdr.p_filesz else 0))
      (decide ((phdr.p_flags &&& PF_W) ≠ 0)) =
      LoadCall.load_segment (segment_args phdr).1 (segment_args phdr).2.1
        (segment_args phdr).2.2.1 (segment_args phdr).2.2.2.1 (segment_args phdr).2.2.2.2 := by
    rw [hround, e]
    rfl
  rw [if_neg h1, if_pos htype, hacc] at hstep
  simp only [if_true] at hstep
  obtain ⟨r, hr⟩ := load_segment_some
    (file_read (file_seek s.file ofs.toNat) sizeof_Phdr).2 s.as (segment_args phdr).1
    (segment_args phdr).2.1 (segment_args phdr).2.2.1 (segment_args phdr).2.2.2.1
    (segment_args phdr).2.2.2.2 a1 a2 a3 a4
  rw [hr] at hstep
  obtain ⟨b, f, as1⟩ := r
  rw [hargs]
  cases b
  · exact ⟨_, hstep, rfl⟩
  · exact ⟨_, hstep, rfl⟩

/-- C14 as amended, on the program header of `sample_elf` with p_vaddr =
0x08048000, p_filesz = p_memsz = 84: load_segment is called with offset 0,
address 0x08048000, read_bytes = 84 and zero_bytes = 4012. -/
theorem load_segment_byte_counts_witness :
    ∃ r, phdr_step 3221225472 52
        { file := { data := sample_elf 1 0 134512640 84 84 5, pos := 52, deny_write := true },
          as := fresh_space 8, calls := [] } = some r ∧
      r.state.calls = [LoadCall.load_segment 0 134512640 84 4012 false] :=
  load_segment_byte_counts 3221225472 52
    { file := { data := sample_elf 1 0 134512640 84 84 5, pos := 52, deny_write := true },
      as := fresh_space 8, calls := [] }
    { p_type := 1, p_offset := 0, p_vaddr := 134512640, p_paddr := 0, p_filesz := 84,
      p_memsz := 84, p_flags := 5, p_align := 4096 }
    (by decide) rfl rfl (by decide)

/-- C14 fails as stated: the header with p_offset = 16, p_vaddr = 0x08048010,
p_filesz = 0 and p_memsz = 100 is accepted by validate_segment, and load
computes read_bytes = 0 and zero_bytes = 4096 for it, not (p_vaddr mod PGSIZE) +
p_filesz = 16 and ROUND_UP (...) - 16 = 4080. -/
theorem load_segment_byte_counts_counterexample :
    validate_segment 3221225472
      { p_type := 1, p_offset := 16, p_vaddr := 134512656, p_paddr := 0, p_filesz := 0,
        p_memsz := 100, p_flags := 6, p_align := 4096 } 8192 = true ∧
    (segment_args
      { p_type := 1, p_offset := 16, p_vaddr := 134512656, p_paddr := 0, p_filesz := 0,
        p_memsz := 100, p_flags := 6, p_align := 4096 }).2.2.1 = 0 ∧
    (segment_args
      { p_type := 1, p_offset := 16, p_vaddr := 134512656, p_paddr := 0, p_filesz := 0,
        p_memsz := 100, p_flags := 6, p_align := 4096 }).2.2.2.1 = 4096 ∧
    134512656 % PGSIZE + 0 = 16 ∧
    ROUND_UP (134512656 % PGSIZE + 100) PGSIZE - (134512656 % PGSIZE + 0) = 4080 := by
  decide

/-- C19: for a PT_LOAD program header of 32-bit fields that validate_segment
accepts against a file whose length is a non-negative 32-bit off_t, the
arguments that `load` computes satisfy the three assertions of load_segment
((read_bytes + zero_bytes) mod PGSIZE = 0 in 32-bit arithmetic, upage
page-aligned, ofs mod PGSIZE = 0 with ofs non-negative as an off_t), so that
load_segment does not stop at an assertion; and no 32-bit computation wraps:
neither page_offset + p_filesz, nor page_offset + p_memsz, nor the addition
inside ROUND_UP, nor the subtraction that gives zero_bytes, nor read_bytes +
zero_bytes. -/
theorem segment_args_safe (phys_base : Nat) (phdr : Elf32_Phdr) (flen : Int)
    (hwf : phdr.wf) (hlen0 : 0 ≤ flen) (hlen1 : flen < 2147483648)
    (hacc : validate_segment phys_base phdr flen = true) :
    (add32 (segment_args phdr).2.2.1 (segment_args phdr).2.2.2.1 % PGSIZE = 0 ∧
      (segment_args phdr).2.1 &&& PGMASK = 0 ∧
      (segment_args phdr).1 % PGSIZE = 0 ∧
      to_off_t (segment_args phdr).1 = ((segment_args phdr).1 : Int)) ∧
    (∀ (f : file) (as : AddrSpace),
      load_segment f as (segment_args phdr).1 (segment_args phdr).2.1 (segment_args phdr).2.2.1
        (segment_args phdr).2.2.2.1 (segment_args phdr).2.2.2.2 ≠ none) ∧
    ((phdr.p_vaddr &&& PGMASK) + phdr.p_filesz < W32 ∧
      (phdr.p_vaddr &&& PGMASK) + phdr.p_memsz < W32 ∧
      (phdr.p_vaddr &&& PGMASK) + phdr.p_memsz + (PGSIZE - 1) < W32 ∧
      (segment_args phdr).2.2.1 ≤ ROUND_UP ((phdr.p_vaddr &&& PGMASK) + phdr.p_memsz) PGSIZE ∧
      (segment_args phdr).2.2.1 + (segment_args phdr).2.2.2.1 =
        ROUND_UP ((phdr.p_vaddr &&& PGMASK) + phdr.p_memsz) PGSIZE ∧
      (segment_args phdr).2.2.1 + (segment_args phdr).2.2.2.1 < W32) := by
  obtain ⟨e, hx, hle⟩ := segment_args_spec phys_base phdr flen hwf hacc
  obtain ⟨a1, a2, a3, a4⟩ := segment_args_asserts phys_base phdr flen hwf hacc
  obtain ⟨_, v2, v3, _, _, _, _, _⟩ := validate_segment_true phys_base phdr flen hwf hacc
  have hround : ROUND_UP (phdr.p_vaddr % 4096 + phdr.p_memsz) PGSIZE =
      (phdr.p_vaddr % 4096 + phdr.p_memsz + 4095) / 4096 * 4096 := by
    unfold ROUND_UP add32 PGSIZE W32 at *
    omega
  have hcast : (flen % (W32 : Int)).toNat = flen.toNat := by
    unfold W32
    omega
  rw [hcast] at v2
  refine ⟨⟨?_, ?_, a4, ?_⟩, ?_, ?_⟩
  · rw [add32_eq _ _ a1]; exact a2
  · rw [land_PGMASK]; exact a3
  · have hofs : (segment_args phdr).1 ≤ phdr.p_offset := by
      rw [e]
      exact Nat.sub_le _ _
    unfold to_off_t W32
    have : (segment_args phdr).1 < 2147483648 := by omega
    rw [Nat.mod_eq_of_lt (by omega), if_pos this]
  · intro f as hnone
    obtain ⟨r, hr⟩ := load_segment_some f as _ _ _ _ (segment_args phdr).2.2.2.2 a1 a2 a3 a4
    rw [hr] at hnone
    cases hnone
  · rw [land_PGMASK, hround]
    rw [e] at a1 ⊢
    simp only at a1 ⊢
    unfold PGSIZE W32 at *
    refine ⟨?_, ?_, ?_, ?_, ?_, ?_⟩ <;> omega

/-- C19 on the program header of `sample_elf` with p_vaddr = 0x08048000 and
p_filesz = p_memsz = 84 in a file of 84 bytes. -/
theorem segment_args_safe_witness :
    add32 84 4012 % PGSIZE = 0 ∧ 134512640 &&& PGMASK = 0 ∧ 0 % PGSIZE = 0 ∧
    (segment_args { p_type := 1, p_offset := 0, p_vaddr := 134512640, p_paddr := 0,
                    p_filesz := 84, p_memsz := 84, p_flags := 5, p_align := 4096 }).2.2.1 +
      (segment_args { p_type := 1, p_offset := 0, p_vaddr := 134512640, p_paddr := 0,
                      p_filesz := 84, p_memsz := 84, p_flags := 5, p_align := 4096 }).2.2.2.1 =
      4096 :=
  have h := segment_args_safe 3221225472
    { p_type := 1, p_offset := 0, p_vaddr := 134512640, p_paddr := 0, p_filesz := 84,
      p_memsz := 84, p_flags := 5, p_align := 4096 } 84
    (by decide) (by decide) (by decide) (by decide)
  ⟨h.1.1, h.1.2.1, h.1.2.2.1, h.2.2.2.2.2.2.1⟩

/-! ## Lemmas on load_segment -/

theorem file_read_bytes (f : file) (size j : Nat) (h : f.pos + size ≤ f.data.length) :
    (file_read f size).1.length = size ∧ (file_read f size).2.pos = f.pos + size ∧
    (file_read f size).2.data = f.data ∧
    (file_read f size).1.getD j 0 = if j < size then f.data.getD (f.pos + j) 0 else 0 := by
  have hlen : ((f.data.drop f.pos).take size).length = size := by
    rw [List.length_take, List.length_drop]
    omega
  refine ⟨hlen, ?_, rfl, ?_⟩
  · simp only [file_read, hlen]
  · simp only [file_read, List.getD_eq_getElem?_getD]
    by_cases hj : j < size
    · rw [List.getElem?_take_of_lt hj, List.getElem?_drop, if_pos hj]
    · rw [List.getElem?_take_eq_none (by omega), if_neg hj]
      rfl

theorem page_addr_facts (upage k : Nat) (hal : upage % PGSIZE = 0) (hu : upage < W32) :
    page_addr upage 0 = upage ∧
    page_addr (add32 upage PGSIZE) k = page_addr upage (k + 1) ∧
    page_addr upage k % PGSIZE = 0 ∧ page_addr upage k < W32 ∧
    add32 upage PGSIZE % PGSIZE = 0 ∧ add32 upage PGSIZE < W32 := by
  unfold page_addr add32 PGSIZE W32 at *
  refine ⟨?_, ?_, ?_, ?_, ?_, ?_⟩ <;> omega

theorem page_addr_disjoint (upage k j : Nat) (hk : (k + 1) * PGSIZE < W32) (hj : j < PGSIZE) :
    ¬ (page_addr upage (k + 1) ≤ upage + j ∧ upage + j < page_addr upage (k + 1) + PGSIZE) := by
  unfold page_addr PGSIZE W32 at *
  omega

theorem install_page_ok (as : AddrSpace) (upage : Nat) (kpage : Nat → Nat) (w : Bool)
    (hpt : as.pt_ok = true) (hfree : pagedir_get_page as upage = false) :
    install_page as upage kpage w =
      some { as with
        mapped := as.mapped ++ [(upage, w)],
        mem := fun a => if upage ≤ a ∧ a < upage + PGSIZE then kpage (a - upage) else as.mem a }
    := by
  simp [install_page, pagedir_set_page, hpt, hfree]

theorem pagedir_get_page_installed (as : AddrSpace) (upage x : Nat) (kpage : Nat → Nat)
    (w : Bool) (h1 : pagedir_get_page as x = false) (h2 : upage ≠ x) :
    pagedir_get_page (page_installed as upage kpage w) x = false := by
  unfold pagedir_get_page at h1 ⊢
  simp only [page_installed, List.any_append, h1, List.any_cons, List.any_nil, Bool.or_false,
    Bool.false_or, decide_eq_false_iff_not]
  exact h2

/-- One iteration of the loop of load_segment in which nothing fails. -/
theorem load_segment_loop_succ_ok (fuel : Nat) (f : file) (as : AddrSpace)
    (upage rb zb : Nat) (w : Bool) (h0 : ¬ (rb = 0 ∧ zb = 0)) (hzb : zb < W32)
    (hz : PGSIZE - min rb PGSIZE ≤ zb) (hfr : 0 < as.user_frames) (hpt : as.pt_ok = true)
    (hfree : pagedir_get_page as upage = false) (hfile : f.pos + rb ≤ f.data.length) :
    load_segment_loop (fuel + 1) f as upage rb zb w =
      load_segment_loop fuel (file_read f (min rb PGSIZE)).2
        (page_installed as upage (fun i => (file_read f (min rb PGSIZE)).1.getD i 0) w)
        (add32 upage PGSIZE) (rb - min rb PGSIZE) (zb - (PGSIZE - min rb PGSIZE)) w := by
  have hmin : min rb PGSIZE ≤ rb := Nat.min_le_left _ _
  obtain ⟨r1, _, _, _⟩ := file_read_bytes f (min rb PGSIZE) 0 (by omega)
  have hpalloc : palloc_get_page as = some { as with user_frames := as.user_frames - 1 } := by
    have : as.user_frames ≠ 0 := by omega
    simp [palloc_get_page, this]
  have hinst := install_page_ok { as with user_frames := as.user_frames - 1 } upage
    (fun i => (file_read f (min rb PGSIZE)).1.getD i 0) w hpt hfree
  have hsub : sub32 zb (PGSIZE - min rb PGSIZE) = zb - (PGSIZE - min rb PGSIZE) :=
    sub32_eq _ _ hz hzb
  rw [load_segment_loop_step _ _ _ _ _ _ _ h0, hpalloc]
  simp only [r1, ne_eq, not_true_eq_false, if_false, hinst, hsub]
  rfl

/-- The loop of load_segment when nothing fails: `N` iterations, one page each. -/
theorem load_segment_loop_pages : ∀ (N fuel : Nat) (f : file) (as : AddrSpace)
    (upage rb zb : Nat) (w : Bool),
    rb + zb = N * PGSIZE → zb < W32 → N * PGSIZE ≤ W32 → upage % PGSIZE = 0 → upage < W32 →
    N < fuel → N ≤ as.user_frames → as.pt_ok = true →
    (∀ k, k < N → pagedir_get_page as (page_addr upage k) = false) →
    f.pos + rb ≤ f.data.length →
    ∃ f1 as1, load_segment_loop fuel f as upage rb zb w = some (true, f1, as1) ∧
      as1.mapped = as.mapped ++ (List.range N).map (fun k => (page_addr upage k, w)) ∧
      as1.user_frames + N = as.user_frames ∧
      f1.pos = f.pos + rb ∧ f1.data = f.data ∧
      (∀ k j, k < N → j < PGSIZE →
        as1.mem (page_addr upage k + j) =
          if k * PGSIZE + j < rb then f.data.getD (f.pos + k * PGSIZE + j) 0 else 0) ∧
      (∀ x, (∀ k, k < N → ¬ (page_addr upage k ≤ x ∧ x < page_addr upage k + PGSIZE)) →
        as1.mem x = as.mem x) := by
  intro N
  induction N with
  | zero =>
    intro fuel f as upage rb zb w hsum _ _ _ _ _ _ _ _ _
    have hrb : rb = 0 := by omega
    have hzb : zb = 0 := by omega
    subst hrb hzb
    rw [load_segment_loop_zero]
    exact ⟨f, as, rfl, by simp, by simp, by simp, rfl, fun k j hk => absurd hk (Nat.not_lt_zero _),
      fun x _ => rfl⟩
  | succ N ih =>
    intro fuel f as upage rb zb w hsum hzb hN hal hu hfuel hfr hpt hfree hfile
    obtain ⟨fuel, rfl⟩ : ∃ fl, fuel = fl + 1 := ⟨fuel - 1, by omega⟩
    have hsum1 : rb + zb = (N + 1) * 4096 := hsum
    have hzb1 : zb < 4294967296 := hzb
    have hN1 : (N + 1) * 4096 ≤ 4294967296 := hN
    have hal1 : upage % 4096 = 0 := hal
    have hu1 : upage < 4294967296 := hu
    have h0 : ¬ (rb = 0 ∧ zb = 0) := by omega
    have hz : PGSIZE - min rb PGSIZE ≤ zb := by
      show 4096 - min rb 4096 ≤ zb
      omega
    obtain ⟨pa0, _, _, _, pa5, pa6⟩ := page_addr_facts upage 0 hal hu
    have hfree0 : pagedir_get_page as upage = false := by
      have := hfree 0 (by omega)
      rw [pa0] at this
      exact this
    obtain ⟨_, r2, r3, _⟩ := file_read_bytes f (min rb PGSIZE) 0
      (by have := Nat.min_le_left rb PGSIZE; omega)
    have r2' : (file_read f (min rb PGSIZE)).2.pos = f.pos + min rb 4096 := r2
    rw [load_segment_loop_succ_ok fuel f as upage rb zb w h0 hzb hz (by omega) hpt hfree0 hfile]
    obtain ⟨f1, as1, hloop, i1, i2, i3, i4, i5, i6⟩ := ih fuel (file_read f (min rb PGSIZE)).2
      (page_installed as upage (fun i => (file_read f (min rb PGSIZE)).1.getD i 0) w)
      (add32 upage PGSIZE) (rb - min rb PGSIZE) (zb - (PGSIZE - min rb PGSIZE)) w
      (by show rb - min rb 4096 + (zb - (4096 - min rb 4096)) = N * 4096; omega)
      (by show zb - (4096 - min rb 4096) < 4294967296; omega)
      (by show N * 4096 ≤ 4294967296; omega) pa5 pa6 (by omega)
      (by show N ≤ as.user_frames - 1; omega) hpt
      (by
        intro k hk
        rw [(page_addr_facts upage k hal hu).2.1]
        apply pagedir_get_page_installed _ _ _ _ _ (hfree (k + 1) (by omega))
        show upage ≠ (upage + (k + 1) * 4096) % 4294967296
        omega)
      (by rw [r2', r3]; show f.pos + min rb 4096 + (rb - min rb 4096) ≤ f.data.length; omega)
    have i2' : as1.user_frames + N = as.user_frames - 1 := i2
    have i3' : f1.pos = f.pos + min rb 4096 + (rb - min rb 4096) := by rw [i3, r2']; rfl
    refine ⟨f1, as1, hloop, ?_, by omega, by omega, by rw [i4, r3], ?_, ?_⟩
    · have hmap : List.map (fun k => (page_addr (add32 upage PGSIZE) k, w)) (List.range N) =
          List.map ((fun k => (page_addr upage k, w)) ∘ Nat.succ) (List.range N) := by
        apply List.map_congr_left
        intro k _
        simp only [Function.comp, Nat.succ_eq_add_one]
        rw [(page_addr_facts upage k hal hu).2.1]
      rw [i1, List.range_succ_eq_map, List.map_cons, List.map_map, pa0, hmap]
      show as.mapped ++ [(upage, w)] ++ _ = _
      rw [List.append_assoc, List.singleton_append]
    · intro k j hk hj
      have hj1 : j < 4096 := hj
      show as1.mem (page_addr upage k + j) =
        if k * 4096 + j < rb then f.data.getD (f.pos + k * 4096 + j) 0 else 0
      cases k with
      | zero =>
        rw [pa0, i6 (upage + j)]
        · have hin : upage ≤ upage + j ∧ upage + j < upage + PGSIZE :=
            ⟨by omega, by show upage + j < upage + 4096; omega⟩
          show (if upage ≤ upage + j ∧ upage + j < upage + PGSIZE
            then (file_read f (min rb PGSIZE)).1.getD (upage + j - upage) 0
            else as.mem (upage + j)) = _
          rw [if_pos hin, Nat.add_sub_cancel_left,
            (file_read_bytes f (min rb PGSIZE) j
              (by have := Nat.min_le_left rb PGSIZE; omega)).2.2.2]
          show (if j < min rb 4096 then f.data.getD (f.pos + j) 0 else 0) = _
          by_cases h1 : j < rb
          · have h2 : j < min rb 4096 := by omega
            have h3 : 0 * 4096 + j < rb := by omega
            rw [if_pos h2, if_pos h3, show f.pos + 0 * 4096 + j = f.pos + j by omega]
          · have h2 : ¬ j < min rb 4096 := by omega
            have h3 : ¬ 0 * 4096 + j < rb := by omega
            rw [if_neg h2, if_neg h3]
        · intro k' hk'
          rw [(page_addr_facts upage k' hal hu).2.1]
          exact page_addr_disjoint upage k' j (by show (k' + 1) * 4096 < 4294967296; omega) hj
      | succ k =>
        have h5 := i5 k j (by omega) hj
        rw [(page_addr_facts upage k hal hu).2.1, r2', r3] at h5
        rw [h5]
        show (if k * 4096 + j < rb - min rb 4096
          then f.data.getD (f.pos + min rb 4096 + k * 4096 + j) 0 else 0) = _
        by_cases hrb : rb < 4096
        · have c1 : ¬ k * 4096 + j < rb - min rb 4096 := by omega
          have c2 : ¬ (k + 1) * 4096 + j < rb := by omega
          rw [if_neg c1, if_neg c2]
        · have e1 : min rb 4096 = 4096 := by omega
          rw [e1]
          by_cases c : k * 4096 + j < rb - 4096
          · have c2 : (k + 1) * 4096 + j < rb := by omega
            rw [if_pos c, if_pos c2,
              show f.pos + 4096 + k * 4096 + j = f.pos + (k + 1) * 4096 + j by omega]
          · have c2 : ¬ (k + 1) * 4096 + j < rb := by omega
            rw [if_neg c, if_neg c2]
    · intro x hx
      rw [i6 x]
      · have h0' := hx 0 (by omega)
        rw [pa0] at h0'
        show (if upage ≤ x ∧ x < upage + PGSIZE then _ else as.mem x) = as.mem x
        rw [if_neg h0']
      · intro k hk
        rw [(page_addr_facts upage k hal hu).2.1]
        exact hx (k + 1) (by omega)

/-- C15: for a call of `load_segment` with read_bytes + zero_bytes a multiple
of PGSIZE, a page-aligned upage and a page-aligned file offset, in which every
frame allocation succeeds (the user pool holds enough frames), every file read
succeeds (the file holds read_bytes bytes from ofs) and every page installation
succeeds (the pages are not mapped yet and page tables can be allocated), the
loop ends with result true after N = (read_bytes + zero_bytes) / PGSIZE
iterations: N frames are taken and N pages installed, the k-th at upage + k *
PGSIZE (modulo 2^32) with the flag `writable`; byte j of page k is the byte of
the file at ofs + k * PGSIZE + j when k * PGSIZE + j < read_bytes and zero
otherwise; no other byte of memory changes. -/
theorem load_segment_pages (f : file) (as : AddrSpace) (ofs upage rb zb : Nat) (w : Bool)
    (hmod : (rb + zb) % PGSIZE = 0) (hzb : zb < W32) (hsum : rb + zb ≤ W32)
    (hup : upage &&& PGMASK = 0) (hu : upage < W32) (hofs : ofs % PGSIZE = 0)
    (hfr : (rb + zb) / PGSIZE ≤ as.user_frames) (hpt : as.pt_ok = true)
    (hfree : ∀ k, k < (rb + zb) / PGSIZE → pagedir_get_page as (page_addr upage k) = false)
    (hfile : ofs + rb ≤ f.data.length) :
    ∃ f1 as1, load_segment f as ofs upage rb zb w = some (true, f1, as1) ∧
      as1.mapped = as.mapped ++
        (List.range ((rb + zb) / PGSIZE)).map (fun k => (page_addr upage k, w)) ∧
      as1.user_frames + (rb + zb) / PGSIZE = as.user_frames ∧
      (∀ k j, k < (rb + zb) / PGSIZE → j < PGSIZE →
        as1.mem (page_addr upage k + j) =
          if k * PGSIZE + j < rb then f.data.getD (ofs + k * PGSIZE + j) 0 else 0) ∧
      (∀ x, (∀ k, k < (rb + zb) / PGSIZE →
          ¬ (page_addr upage k ≤ x ∧ x < page_addr upage k + PGSIZE)) →
        as1.mem x = as.mem x) ∧
      (upage + rb + zb ≤ W32 → ∀ k, k < (rb + zb) / PGSIZE →
        page_addr upage k = upage + k * PGSIZE) := by
  have hmod1 : (rb + zb) % 4096 = 0 := hmod
  have hsum1 : rb + zb ≤ 4294967296 := hsum
  have hal : upage % PGSIZE = 0 := by
    rw [land_PGMASK] at hup
    exact hup
  have hN : rb + zb = (rb + zb) / PGSIZE * PGSIZE := by
    show rb + zb = (rb + zb) / 4096 * 4096
    omega
  have hassert : add32 rb zb % PGSIZE = 0 := by
    show (rb + zb) % 4294967296 % 4096 = 0
    omega
  obtain ⟨f1, as1, hloop, i1, i2, _, _, i5, i6⟩ := load_segment_loop_pages
    ((rb + zb) / PGSIZE) ((rb + zb) / PGSIZE + 1) (file_seek f ofs) as upage rb zb w hN hzb
    (by rw [← hN]; exact hsum) hal hu (by omega) hfr hpt hfree hfile
  refine ⟨f1, as1, ?_, i1, i2, i5, i6, ?_⟩
  · unfold load_segment
    rw [if_neg (not_not.mpr hassert), if_neg (not_not.mpr hup), if_neg (not_not.mpr hofs)]
    exact hloop
  · intro hnw k hk
    have hk1 : k < (rb + zb) / 4096 := hk
    have hnw1 : upage + rb + zb ≤ 4294967296 := hnw
    show (upage + k * 4096) % 4294967296 = upage + k * 4096
    omega

/-- C15 on a segment of one page: 84 bytes read from an 84-byte file at offset
0 and 4012 bytes zeroed, at address 0x08048000. -/
theorem load_segment_pages_witness :
    ∃ f1 as1,
      load_segment { data := sample_elf 1 0 134512640 84 84 5, pos := 84, deny_write := true }
        (fresh_space 8) 0 134512640 84 4012 false = some (true, f1, as1) ∧
      as1.mapped = [(134512640, false)] ∧ as1.user_frames + 1 = 8 ∧
      as1.mem (134512640 + 1) = 69 ∧ as1.mem (134512640 + 84) = 0 :=
  have h := load_segment_pages
    { data := sample_elf 1 0 134512640 84 84 5, pos := 84, deny_write := true }
    (fresh_space 8) 0 134512640 84 4012 false
    (by decide) (by decide) (by decide) (by decide) (by decide) (by decide) (by decide)
    (by decide) (by decide) (by decide)
  h.elim fun f1 h1 => h1.elim fun as1 h2 =>
    ⟨f1, as1, h2.1, h2.2.1, h2.2.2.1, h2.2.2.2.1 0 1 (by decide) (by decide),
      h2.2.2.2.1 0 84 (by decide) (by decide)⟩

/-! ## More on the frame built by setup_stack -/

theorem strings_size_take_succ (ts : List (List Nat)) : ∀ (i : Nat), i < ts.length →
    strings_size (ts.take (i + 1)) =
      strings_size (ts.take i) + ((ts.getD i []).length + 1) := by
  induction ts with
  | nil => intro i hi; simp at hi
  | cons t ts ih =>
    intro i hi
    cases i with
    | zero => simp [strings_size]
    | succ i =>
      have := ih i (by simpa using hi)
      simp only [List.take_succ_cons, strings_size, List.getD_cons_succ] at this ⊢
      omega

theorem strings_size_take_le (ts : List (List Nat)) : ∀ (i : Nat),
    strings_size (ts.take i) ≤ strings_size ts := by
  induction ts with
  | nil => intro i; simp [strings_size]
  | cons t ts ih =>
    intro i
    cases i with
    | zero => simp [strings_size]
    | succ i =>
      have := ih i
      simp only [List.take_succ_cons, strings_size]
      omega

theorem token_addrs_formula (ts : List (List Nat)) : ∀ (p i : Nat), i < ts.length →
    (token_addrs p ts).getD i 0 = p - strings_size (ts.take (i + 1)) := by
  induction ts with
  | nil => intro p i hi; simp at hi
  | cons t ts ih =>
    intro p i hi
    cases i with
    | zero => simp [token_addrs, strings_size]
    | succ i =>
      have := ih (p - (t.length + 1)) i (by simpa using hi)
      simp only [token_addrs, List.getD_cons_succ, List.take_succ_cons, strings_size] at this ⊢
      rw [this]
      omega

theorem map_stack_page_mem (phys_base esp : Nat) (as : AddrSpace)
    (hpb1 : PGSIZE ≤ phys_base) (hpb2 : phys_base < W32)
    (h : (map_stack_page phys_base esp as).1 = true) :
    (map_stack_page phys_base esp as).2.2.mapped = as.mapped ++ [(phys_base - PGSIZE, true)] ∧
    (∀ x, phys_base - PGSIZE ≤ x → x < phys_base → (map_stack_page phys_base esp as).2.2.mem x = 0) ∧
    (∀ x, x < phys_base - PGSIZE ∨ phys_base ≤ x →
      (map_stack_page phys_base esp as).2.2.mem x = as.mem x) := by
  have hsub : sub32 phys_base PGSIZE = phys_base - PGSIZE := sub32_eq _ _ hpb1 hpb2
  have hP : phys_base - PGSIZE + PGSIZE = phys_base := by omega
  unfold map_stack_page at h ⊢
  rw [hsub] at h ⊢
  cases h1 : palloc_get_page as with
  | none => simp [h1] at h
  | some as0 =>
    have has0 : as0.mapped = as.mapped ∧ as0.mem = as.mem := by
      unfold palloc_get_page at h1
      split_ifs at h1
      simp only [Option.some.injEq] at h1
      subst h1
      exact ⟨rfl, rfl⟩
    simp only [h1] at h ⊢
    cases h2 : install_page as0 (phys_base - PGSIZE) (fun _ => 0) true with
    | none => simp [h2] at h
    | some as1 =>
      simp only
      unfold install_page pagedir_set_page at h2
      split_ifs at h2
      simp only [Option.some.injEq] at h2
      subst h2
      simp only [has0.1, has0.2, hP]
      refine ⟨trivial, fun x hx1 hx2 => ?_, fun x hx => ?_⟩
      · rw [if_pos ⟨hx1, hx2⟩]
      · rw [if_neg (by omega)]

/-- C16: for a command line (a C string) whose space-separated tokens
t_0 .. t_(n-1) fit in the stack page, once the stack page is mapped,
`setup_stack` leaves the bytes of t_i followed by a zero byte at the address
PHYS_BASE minus the sum over j <= i of (len (t_j) + 1), which is the address
that argv[i] holds: t_0 ends at PHYS_BASE and every later token ends where the
token before it starts. -/
theorem setup_stack_strings (phys_base esp : Nat) (exec_cmd : List Nat)
    (ts : List (List Nat)) (as : AddrSpace)
    (hpb : phys_base % PGSIZE = 0) (hpb1 : PGSIZE ≤ phys_base) (hpb2 : phys_base < W32)
    (hcmd : ∀ c ∈ exec_cmd, c ≠ 0 ∧ c < 256)
    (hsplit : split_spaces exec_cmd = ts)
    (hfit : roundup4 (strings_size ts) + 4 * (ts.length + 4) ≤ PGSIZE)
    (hmap : (setup_stack phys_base esp exec_cmd as).1 = true) :
    (∀ i, i < ts.length →
      read_bytes (setup_stack phys_base esp exec_cmd as).2.2.mem
        (phys_base - strings_size (ts.take (i + 1))) ((ts.getD i []).length + 1) =
        ts.getD i [] ++ [0] ∧
      load32 (setup_stack phys_base esp exec_cmd as).2.2.mem
        ((setup_stack phys_base esp exec_cmd as).2.1 + 12 + 4 * i) =
        phys_base - strings_size (ts.take (i + 1))) ∧
    (0 < ts.length →
      phys_base - strings_size (ts.take 1) + ((ts.getD 0 []).length + 1) = phys_base) ∧
    (∀ i, i + 1 < ts.length →
      phys_base - strings_size (ts.take (i + 2)) + ((ts.getD (i + 1) []).length + 1) =
        phys_base - strings_size (ts.take (i + 1))) := by
  have hbytes : ∀ c ∈ exec_cmd, c < 256 := fun c hc => (hcmd c hc).2
  have hts : ∀ t ∈ ts, ∀ c ∈ t, c < 256 := fun t ht c hc =>
    hbytes c (split_spaces_mem exec_cmd t (by rw [hsplit]; exact ht) c hc)
  obtain ⟨e1, e2⟩ := setup_stack_layout phys_base esp exec_cmd ts as hpb hpb2 hsplit hbytes
    hfit hpb1 hmap
  have h4 : phys_base % 4 = 0 := by unfold PGSIZE at hpb; omega
  unfold PGSIZE at hfit hpb1
  obtain ⟨_, _, _, _, l4, _, l6, _⟩ :=
    push_frame_layout phys_base exec_cmd ts (map_stack_page phys_base esp as).2.2.mem hsplit
      hbytes h4 hpb2 (by omega)
  obtain ⟨r1, _, _⟩ := roundup4_facts (strings_size ts)
  obtain ⟨_, _, _, c4⟩ := copy_list_spec ts
    { mem := (map_stack_page phys_base esp as).2.2.mem, byte_page_ptr := phys_base,
      arg_addrs := [] }
    hts (by simp only; omega) hpb2
  refine ⟨fun i hi => ?_, fun h0 => ?_, fun i hi => ?_⟩
  · have hb := token_addrs_bounds ts phys_base i (by omega) hi
    have hf := token_addrs_formula ts phys_base i hi
    rw [e1, e2, l4 i hi, ← hf]
    refine ⟨?_, rfl⟩
    rw [read_bytes_congr _ _ _ _ (fun j _ => l6 _ (by omega))]
    exact c4 i hi
  · have h1 := strings_size_take_succ ts 0 h0
    have h2 := strings_size_take_le ts 1
    simp only [List.take_zero, strings_size, Nat.zero_add] at h1
    omega
  · have h1 : strings_size (ts.take (i + 2)) =
        strings_size (ts.take (i + 1)) + ((ts.getD (i + 1) []).length + 1) :=
      strings_size_take_succ ts (i + 1) hi
    have h2 := strings_size_take_le ts (i + 2)
    omega

/-- C16 at "prog arg1 arg2" with PHYS_BASE = 0xc0000000: the three strings lie
at PHYS_BASE - 5, PHYS_BASE - 10 and PHYS_BASE - 15. -/
theorem setup_stack_strings_witness :
    read_bytes (setup_stack 3221225472 0 (bytes "prog arg1 arg2") (fresh_space 1)).2.2.mem
      (3221225472 - 5) 5 = bytes "prog" ++ [0] ∧
    read_bytes (setup_stack 3221225472 0 (bytes "prog arg1 arg2") (fresh_space 1)).2.2.mem
      (3221225472 - 10) 5 = bytes "arg1" ++ [0] ∧
    read_bytes (setup_stack 3221225472 0 (bytes "prog arg1 arg2") (fresh_space 1)).2.2.mem
      (3221225472 - 15) 5 = bytes "arg2" ++ [0] :=
  have h := setup_stack_strings 3221225472 0 (bytes "prog arg1 arg2")
    [bytes "prog", bytes "arg1", bytes "arg2"] (fresh_space 1) (by decide) (by decide)
    (by decide) (by decide) (by decide) (by decide) (by decide)
  ⟨(h.1 0 (by decide)).1, (h.1 1 (by decide)).1, (h.1 2 (by decide)).1⟩

/-- C17: for a command line (a C string) with n space-separated tokens of total
string size S that fits in the stack page, once the stack page is mapped, the
stack pointer that `setup_stack` returns is a multiple of 4 and equals
rounddown4 (PHYS_BASE - S) - 4 * (n + 4). -/
theorem setup_stack_esp (phys_base esp : Nat) (exec_cmd : List Nat)
    (ts : List (List Nat)) (as : AddrSpace)
    (hpb : phys_base % PGSIZE = 0) (hpb1 : PGSIZE ≤ phys_base) (hpb2 : phys_base < W32)
    (hcmd : ∀ c ∈ exec_cmd, c ≠ 0 ∧ c < 256)
    (hsplit : split_spaces exec_cmd = ts)
    (hfit : roundup4 (strings_size ts) + 4 * (ts.length + 4) ≤ PGSIZE)
    (hmap : (setup_stack phys_base esp exec_cmd as).1 = true) :
    (setup_stack phys_base esp exec_cmd as).2.1 =
      rounddown4 (phys_base - strings_size ts) - 4 * (ts.length + 4) ∧
    (setup_stack phys_base esp exec_cmd as).2.1 % 4 = 0 := by
  obtain ⟨e1, _⟩ := setup_stack_layout phys_base esp exec_cmd ts as hpb hpb2 hsplit
    (fun c hc => (hcmd c hc).2) hfit hpb1 hmap
  obtain ⟨r1, r2, r3⟩ := roundup4_facts (strings_size ts)
  rw [e1]
  unfold PGSIZE at hpb hfit hpb1
  unfold rounddown4
  constructor <;> omega

/-- C17 at "prog arg1 arg2" with PHYS_BASE = 0xc0000000: S = 15, n = 3 and the
returned stack pointer is 0xbfffffd4. -/
theorem setup_stack_esp_witness :
    (setup_stack 3221225472 0 (bytes "prog arg1 arg2") (fresh_space 1)).2.1 =
      rounddown4 (3221225472 - 15) - 4 * (3 + 4) ∧
    (setup_stack 3221225472 0 (bytes "prog arg1 arg2") (fresh_space 1)).2.1 % 4 = 0 :=
  setup_stack_esp 3221225472 0 (bytes "prog arg1 arg2")
    [bytes "prog", bytes "arg1", bytes "arg2"] (fresh_space 1) (by decide) (by decide)
    (by decide) (by decide) (by decide) (by decide) (by decide)

theorem with_mem_mapped (r : Bool × Nat × AddrSpace) (b : Bool) (n : Nat) (m : Mem) :
    ((b, n, ({ r.2.2 with mem := m } : AddrSpace)) : Bool × Nat × AddrSpace).2.2.mapped =
      r.2.2.mapped := rfl

/-- The function `setup_stack` changes the page directory in `map_stack_page` only. -/
theorem setup_stack_mapped (phys_base esp : Nat) (exec_cmd : List Nat) (as : AddrSpace) :
    (setup_stack phys_base esp exec_cmd as).2.2.mapped =
      (map_stack_page phys_base esp as).2.2.mapped := by
  rewrite [setup_stack_eq]
  exact with_mem_mapped _ _ _ _

/-- C20: for a command line (a C string) with n space-separated tokens of total
string size S such that roundup4 (S) + 4 * (n + 4) <= PGSIZE, once the stack
page is mapped, the esp that `setup_stack` returns lies in the stack page
[PHYS_BASE - PGSIZE, PHYS_BASE), which is the one page that has been mapped;
no byte outside that page is changed, and within the page the bytes below the
returned esp are still the zero bytes of the fresh frame. -/
theorem setup_stack_in_page (phys_base esp : Nat) (exec_cmd : List Nat)
    (ts : List (List Nat)) (as : AddrSpace)
    (hpb : phys_base % PGSIZE = 0) (hpb1 : PGSIZE ≤ phys_base) (hpb2 : phys_base < W32)
    (hcmd : ∀ c ∈ exec_cmd, c ≠ 0 ∧ c < 256)
    (hsplit : split_spaces exec_cmd = ts)
    (hfit : roundup4 (strings_size ts) + 4 * (ts.length + 4) ≤ PGSIZE)
    (hmap : (setup_stack phys_base esp exec_cmd as).1 = true) :
    phys_base - PGSIZE ≤ (setup_stack phys_base esp exec_cmd as).2.1 ∧
    (setup_stack phys_base esp exec_cmd as).2.1 < phys_base ∧
    (setup_stack phys_base esp exec_cmd as).2.2.mapped =
      as.mapped ++ [(phys_base - PGSIZE, true)] ∧
    (∀ x, x < phys_base - PGSIZE ∨ phys_base ≤ x →
      (setup_stack phys_base esp exec_cmd as).2.2.mem x = as.mem x) ∧
    (∀ x, phys_base - PGSIZE ≤ x → x < (setup_stack phys_base esp exec_cmd as).2.1 →
      (setup_stack phys_base esp exec_cmd as).2.2.mem x = 0) := by
  have hbytes : ∀ c ∈ exec_cmd, c < 256 := fun c hc => (hcmd c hc).2
  have hts : ∀ t ∈ ts, ∀ c ∈ t, c < 256 := fun t ht c hc =>
    hbytes c (split_spaces_mem exec_cmd t (by rw [hsplit]; exact ht) c hc)
  obtain ⟨e1, e2⟩ := setup_stack_layout phys_base esp exec_cmd ts as hpb hpb2 hsplit hbytes
    hfit hpb1 hmap
  have hmap1 : (map_stack_page phys_base esp as).1 = true := by
    rw [setup_stack_eq] at hmap
    exact hmap
  obtain ⟨m1, m2, m3⟩ := map_stack_page_mem phys_base esp as hpb1 hpb2 hmap1
  have hmapped := setup_stack_mapped phys_base esp exec_cmd as
  have h4 : phys_base % 4 = 0 := by unfold PGSIZE at hpb; omega
  unfold PGSIZE at hfit hpb1 m1 m2 m3 ⊢
  obtain ⟨_, _, _, _, _, _, l7, l8⟩ :=
    push_frame_layout phys_base exec_cmd ts (map_stack_page phys_base esp as).2.2.mem hsplit
      hbytes h4 hpb2 (by omega)
  obtain ⟨r1, r2, _⟩ := roundup4_facts (strings_size ts)
  obtain ⟨_, _, c3, _⟩ := copy_list_spec ts
    { mem := (map_stack_page phys_base esp as).2.2.mem, byte_page_ptr := phys_base,
      arg_addrs := [] }
    hts (by simp only; omega) hpb2
  rw [e1, e2, hmapped]
  refine ⟨by omega, by omega, m1, fun x hx => ?_, fun x hx1 hx2 => ?_⟩
  · rcases hx with hx | hx
    · rw [l8 x (by omega)]
      exact m3 x (Or.inl hx)
    · rw [l7 x (by omega), c3 x (Or.inr hx)]
      exact m3 x (Or.inr hx)
  · rw [l8 x hx2]
    exact m2 x hx1 (by omega)

/-- C20 at "prog arg1 arg2" with PHYS_BASE = 0xc0000000: the returned esp lies
in the page at 0xbffff000, the only page mapped. -/
theorem setup_stack_in_page_witness :
    3221225472 - PGSIZE ≤
      (setup_stack 3221225472 0 (bytes "prog arg1 arg2") (fresh_space 1)).2.1 ∧
    (setup_stack 3221225472 0 (bytes "prog arg1 arg2") (fresh_space 1)).2.1 < 3221225472 ∧
    (setup_stack 3221225472 0 (bytes "prog arg1 arg2") (fresh_space 1)).2.2.mapped =
      [(3221225472 - PGSIZE, true)] :=
  have h := setup_stack_in_page 3221225472 0 (bytes "prog arg1 arg2")
    [bytes "prog", bytes "arg1", bytes "arg2"] (fresh_space 1) (by decide) (by decide)
    (by decide) (by decide) (by decide) (by decide) (by decide)
  ⟨h.1, h.2.1, h.2.2.1⟩

theorem split_aux_length_pos (s : List Nat) : ∀ (cur : List Nat),
    (1 ≤ (split_spaces_aux s cur).length ↔ cur ≠ [] ∨ ∃ c ∈ s, c ≠ 32) := by
  induction s with
  | nil =>
    intro cur
    by_cases hc : cur = [] <;> simp [split_spaces_aux, hc]
  | cons a s ih =>
    intro cur
    by_cases ha : a = 32
    · subst ha
      by_cases hc : cur = []
      · simp only [split_spaces_aux, hc, if_true, ih []]
        simp
      · simp [split_spaces_aux, hc]
    · simp only [split_spaces_aux, ha, if_false, ih (cur ++ [a])]
      constructor
      · intro _
        exact Or.inr ⟨a, List.mem_cons_self _ _, ha⟩
      · intro _
        exact Or.inl (by simp)

theorem split_aux_runs (s : List Nat) (hs : ∀ c ∈ s, c ≠ 9 ∧ c ≠ 10) : ∀ (cur : List Nat),
    (split_spaces_aux s cur).length =
      whitespace_runs s (decide (cur ≠ [])) + (if cur ≠ [] then 1 else 0) := by
  induction s with
  | nil =>
    intro cur
    by_cases hc : cur = [] <;> simp [split_spaces_aux, whitespace_runs, hc]
  | cons a s ih =>
    intro cur
    have ih1 := ih (fun c hc => hs c (List.mem_cons_of_mem _ hc))
    have ha9 := hs a (List.mem_cons_self _ _)
    by_cases ha : a = 32
    · subst ha
      have hw : is_whitespace 32 = true := by decide
      have h0 := ih1 []
      simp only [ne_eq, not_true_eq_false, decide_False, if_false, Nat.add_zero] at h0
      by_cases hc : cur = []
      · simp only [split_spaces_aux, whitespace_runs, hw, if_true, hc, h0]
        simp
      · simp only [split_spaces_aux, whitespace_runs, hw, if_true, hc, if_false,
          List.length_cons, h0]
        simp [hc]
    · have hw : is_whitespace a = false := by
        simp [is_whitespace, ha, ha9.1, ha9.2]
      have h1 := ih1 (cur ++ [a])
      have hne : cur ++ [a] ≠ [] := by simp
      simp only [ne_eq, hne, not_false_eq_true, decide_True, if_true] at h1
      simp only [split_spaces_aux, ha, if_false, whitespace_runs, hw, Bool.false_eq_true, h1]
      by_cases hc : cur = []
      · simp [hc]; omega
      · simp [hc]

/-- The executable that `load` opens is named by the leading token of the
command line: when `filesys_open` opens no file for a NULL name, `load` gets
past the opening of the file (lines 350-356), and so on to `setup_stack`, only
for a command line that has a byte other than the space. -/
theorem load_open_has_token (filesys_open : Option (List Nat) → Option (List Nat))
    (file_name_ data : List Nat) (hnull : filesys_open none = none)
    (h : filesys_open ((strtok_r (file_name_.take (PGSIZE - 1)) [32]).map Prod.fst) =
      some data) :
    ∃ c ∈ file_name_.take (PGSIZE - 1), c ≠ 32 := by
  rw [strtok_r_head] at h
  have hne : split_spaces (file_name_.take (PGSIZE - 1)) ≠ [] := by
    intro h0
    rw [h0] at h
    rw [show ([] : List (List Nat)).head? = none from rfl, hnull] at h
    exact Option.noConfusion h
  have hpos : 1 ≤ (split_spaces (file_name_.take (PGSIZE - 1))).length :=
    Nat.pos_of_ne_zero (fun h0 => hne (List.length_eq_zero.mp h0))
  have := (split_aux_length_pos (file_name_.take (PGSIZE - 1)) []).1 hpos
  simp only [ne_eq, not_true_eq_false, false_or] at this
  exact this

/-- A successful `load` has run `setup_stack` on a command line with a leading
token, when `filesys_open` opens no file for a NULL name. -/
theorem load_success_has_token (phys_base : Nat)
    (filesys_open : Option (List Nat) → Option (List Nat)) (pagedir_create_ok : Bool)
    (file_name_ : List Nat) (eip esp : Nat) (as : AddrSpace) (r : LoadResult)
    (hnull : filesys_open none = none)
    (h : load phys_base filesys_open pagedir_create_ok file_name_ eip esp as = some r)
    (hs : r.success = true) :
    ∃ c ∈ file_name_.take (PGSIZE - 1), c ≠ 32 := by
  cases hopen : filesys_open ((strtok_r (file_name_.take (PGSIZE - 1)) [32]).map Prod.fst) with
  | some data => exact load_open_has_token filesys_open file_name_ data hnull hopen
  | none =>
    exfalso
    unfold load at h
    cases pagedir_create_ok
    · simp only [Bool.not_false, if_true, Option.some.injEq] at h
      rw [← h] at hs
      exact Bool.noConfusion hs
    · simp only [Bool.not_true, Bool.false_eq_true, if_false, hopen, Option.some.injEq] at h
      rw [← h] at hs
      exact Bool.noConfusion hs

/-- C18 as amended: `setup_stack` splits the command line into space-delimited
tokens. For a command line (a C string) with a leading token, which is what
`load` passes once it has opened the file that the token names, and that fits
in the stack page, once the stack page is mapped, the argument count that
`setup_stack` pushes (the word at esp + 4) is the number of maximal runs of
bytes other than the space, tab and newline being ordinary bytes of a token,
and that count is at least 1. It is the count that the first loop of
setup_stack finds for a command line shorter than a page, and it is the number
of whitespace-delimited tokens when the command line has neither tab nor
newline. -/
theorem setup_stack_argc_spaces (phys_base esp : Nat) (exec_cmd : List Nat)
    (ts : List (List Nat)) (as : AddrSpace)
    (hpb : phys_base % PGSIZE = 0) (hpb1 : PGSIZE ≤ phys_base) (hpb2 : phys_base < W32)
    (hcmd : ∀ c ∈ exec_cmd, c ≠ 0 ∧ c < 256)
    (htok : ∃ c ∈ exec_cmd, c ≠ 32)
    (hsplit : split_spaces exec_cmd = ts)
    (hfit : roundup4 (strings_size ts) + 4 * (ts.length + 4) ≤ PGSIZE)
    (hmap : (setup_stack phys_base esp exec_cmd as).1 = true) :
    load32 (setup_stack phys_base esp exec_cmd as).2.2.mem
      ((setup_stack phys_base esp exec_cmd as).2.1 + 4) = (split_spaces exec_cmd).length ∧
    1 ≤ (split_spaces exec_cmd).length ∧
    (exec_cmd.length < PGSIZE → count_tokens exec_cmd = (split_spaces exec_cmd).length) ∧
    ((∀ c ∈ exec_cmd, c ≠ 9 ∧ c ≠ 10) →
      (split_spaces exec_cmd).length = spec_token_count exec_cmd) := by
  have hbytes : ∀ c ∈ exec_cmd, c < 256 := fun c hc => (hcmd c hc).2
  obtain ⟨e1, e2⟩ := setup_stack_layout phys_base esp exec_cmd ts as hpb hpb2 hsplit hbytes
    hfit hpb1 hmap
  have h4 : phys_base % 4 = 0 := by unfold PGSIZE at hpb; omega
  have hfit1 : roundup4 (strings_size ts) + 4 * (ts.length + 4) ≤ phys_base := by omega
  obtain ⟨_, _, l2, _⟩ :=
    push_frame_layout phys_base exec_cmd ts (map_stack_page phys_base esp as).2.2.mem hsplit
      hbytes h4 hpb2 hfit1
  refine ⟨?_, ?_, fun hlen => count_tokens_split exec_cmd hlen, fun h => ?_⟩
  · rw [e1, e2, hsplit]
    exact l2
  · have := split_aux_length_pos exec_cmd []
    simp only [ne_eq, not_true_eq_false, false_or] at this
    exact this.2 htok
  · have := split_aux_runs exec_cmd h []
    simp only [ne_eq, not_true_eq_false, decide_False, if_false, Nat.add_zero] at this
    exact this

/-- C18 as amended, at "prog arg1 arg2": the argument count is 3. -/
theorem setup_stack_argc_spaces_witness :
    load32 (setup_stack 3221225472 0 (bytes "prog arg1 arg2") (fresh_space 1)).2.2.mem
      ((setup_stack 3221225472 0 (bytes "prog arg1 arg2") (fresh_space 1)).2.1 + 4) = 3 ∧
    1 ≤ (split_spaces (bytes "prog arg1 arg2")).length ∧
    spec_token_count (bytes "prog arg1 arg2") = 3 :=
  have h := setup_stack_argc_spaces 3221225472 0 (bytes "prog arg1 arg2")
    [bytes "prog", bytes "arg1", bytes "arg2"] (fresh_space 1) (by decide) (by decide)
    (by decide) (by decide) (by decide) (by decide) (by decide) (by decide)
  ⟨h.1, h.2.1, by decide⟩

/-- C18 fails as stated: the command line "a", tab, "b", whose leading token
is "a" followed by the tab and "b", has two whitespace-delimited tokens, and
`setup_stack` pushes the argument count 1, since the tab is not a delimiter. -/
theorem setup_stack_argc_counterexample :
    spec_token_count [97, 9, 98] = 2 ∧
    (setup_stack 3221225472 0 [97, 9, 98] (fresh_space 1)).1 = true ∧
    load32 (setup_stack 3221225472 0 [97, 9, 98] (fresh_space 1)).2.2.mem
      ((setup_stack 3221225472 0 [97, 9, 98] (fresh_space 1)).2.1 + 4) = 1 := by
  decide

/-! ## setup_stack when the stack page is not mapped -/

theorem map_stack_page_false_iff (phys_base esp : Nat) (as : AddrSpace) :
    (map_stack_page phys_base esp as).1 = false ↔
      (palloc_get_page as = none ∨
        ∃ as0, palloc_get_page as = some as0 ∧
          install_page as0 (sub32 phys_base PGSIZE) (fun _ => 0) true = none) := by
  unfold map_stack_page
  cases h1 : palloc_get_page as with
  | none => simp
  | some as0 =>
    cases h2 : install_page as0 (sub32 phys_base PGSIZE) (fun _ => 0) true with
    | none => simp [h2]
    | some as1 => simp [h2]

theorem map_stack_page_fails (phys_base esp : Nat) (as : AddrSpace)
    (h : (map_stack_page phys_base esp as).1 = false) :
    (map_stack_page phys_base esp as).2.1 = esp ∧
    (map_stack_page phys_base esp as).2.2.mapped = as.mapped ∧
    (map_stack_page phys_base esp as).2.2.mem = as.mem ∧
    (map_stack_page phys_base esp as).2.2.user_frames = as.user_frames := by
  unfold map_stack_page at h ⊢
  cases h1 : palloc_get_page as with
  | none => exact ⟨rfl, rfl, rfl, rfl⟩
  | some as0 =>
    have has0 : as0.mapped = as.mapped ∧ as0.mem = as.mem ∧
        as0.user_frames + 1 = as.user_frames := by
      unfold palloc_get_page at h1
      split_ifs at h1 with hz
      simp only [Option.some.injEq] at h1
      subst h1
      exact ⟨rfl, rfl, Nat.sub_add_cancel (Nat.pos_of_ne_zero hz)⟩
    simp only [h1] at h ⊢
    cases h2 : install_page as0 (sub32 phys_base PGSIZE) (fun _ => 0) true with
    | some as1 => simp [h2] at h
    | none => exact ⟨rfl, has0.1, has0.2.1, has0.2.2⟩

/-- What `setup_stack` does when the stack page is not mapped: it returns false
and leaves the page directory as it was, and it builds the frame all the same,
downward from the value of `*esp` that the caller passed. -/
theorem setup_stack_fails (phys_base esp : Nat) (exec_cmd : List Nat) (as : AddrSpace)
    (h : palloc_get_page as = none ∨
      ∃ as0, palloc_get_page as = some as0 ∧
        install_page as0 (sub32 phys_base PGSIZE) (fun _ => 0) true = none) :
    (setup_stack phys_base esp exec_cmd as).1 = false ∧
    (setup_stack phys_base esp exec_cmd as).2.1 = (push_frame esp exec_cmd as.mem).1 ∧
    (setup_stack phys_base esp exec_cmd as).2.2.mem = (push_frame esp exec_cmd as.mem).2 ∧
    (setup_stack phys_base esp exec_cmd as).2.2.mapped = as.mapped := by
  have h0 := (map_stack_page_false_iff phys_base esp as).2 h
  obtain ⟨m1, m2, m3, _⟩ := map_stack_page_fails phys_base esp as h0
  refine ⟨?_, ?_, ?_, ?_⟩
  · rewrite [setup_stack_eq]
    exact h0
  · rewrite [setup_stack_eq]
    simp only [m1, m3]
  · rewrite [setup_stack_eq]
    simp only [m1, m3]
  · rewrite [setup_stack_mapped]
    exact m2

/-- C21 fails on the code: with no free user frame, and also with a frame but
no memory for a page table (install_page fails), `setup_stack` called with
`*esp` = 0 (the value start_process leaves in the zeroed interrupt frame) on
"prog arg1 arg2" returns false and maps no page, and yet it builds the whole
frame below address 0: the strings are stored in the top bytes of the 32-bit
address space, which held zeros, argc = 3 is stored, and `*esp` comes back as
0xffffffd4, not as the 0 that the caller passed. -/
theorem setup_stack_unmapped_writes :
    palloc_get_page (fresh_space 0) = none ∧
    (setup_stack 3221225472 0 (bytes "prog arg1 arg2") (fresh_space 0)).1 = false ∧
    (setup_stack 3221225472 0 (bytes "prog arg1 arg2") (fresh_space 0)).2.2.mapped = [] ∧
    (setup_stack 3221225472 0 (bytes "prog arg1 arg2") (fresh_space 0)).2.1 = 4294967252 ∧
    read_bytes (fresh_space 0).mem 4294967281 15 = List.replicate 15 0 ∧
    read_bytes (setup_stack 3221225472 0 (bytes "prog arg1 arg2") (fresh_space 0)).2.2.mem
      4294967281 15 = bytes "arg2" ++ [0] ++ bytes "arg1" ++ [0] ++ bytes "prog" ++ [0] ∧
    load32 (setup_stack 3221225472 0 (bytes "prog arg1 arg2") (fresh_space 0)).2.2.mem
      (4294967252 + 4) = 3 ∧
    install_page { mapped := [], mem := fun _ => 0, user_frames := 0, pt_ok := false }
      (sub32 3221225472 PGSIZE) (fun _ => 0) true = none ∧
    (setup_stack 3221225472 0 (bytes "prog arg1 arg2")
      { mapped := [], mem := fun _ => 0, user_frames := 1, pt_ok := false }).1 = false ∧
    (setup_stack 3221225472 0 (bytes "prog arg1 arg2")
      { mapped := [], mem := fun _ => 0, user_frames := 1, pt_ok := false }).2.1 = 4294967252 ∧
    read_bytes (setup_stack 3221225472 0 (bytes "prog arg1 arg2")
      { mapped := [], mem := fun _ => 0, user_frames := 1, pt_ok := false }).2.2.mem
      4294967291 5 = bytes "prog" ++ [0] := by
  refine ⟨rfl, ?_, ?_, ?_, ?_, ?_, ?_, rfl, ?_, ?_, ?_⟩ <;> decide

end Process
